import Mathlib

/-!
The cloud-torrent engine: session orchestrator.

A shallow embedding of `engine/engine.go` and `engine/torrent.go` together with
the properties of the session orchestrator that the specification states.

Conventions of the embedding

* Go `int64` values are Lean `Int`s; every `int64` addition and subtraction of
  the memory budget is followed by `wrapInt64`, the two's-complement wrap-around
  of the Go runtime.  The `activeTorrents` counter (Go `int`) moves by one per
  call, cannot reach the ends of its range, and is kept as a plain `Int`.
* Go `float32`/`float64` values are `Flt`s: a sign, an integer significand and a
  binary exponent, with IEEE 754 round-to-nearest-even performed explicitly by
  `Flt.round`.
* A method that mutates its receiver becomes a function that returns the new
  receiver; methods of `Engine` return the new engine together with an
  `Outcome` (the returned `error`, or a run-time panic).
* `time.Now()` is an argument of every function that reads the clock.
-/

namespace CloudTorrent

/-! ## Machine integers -/

/-- Two's-complement wrap-around of a Go `int64` result. -/
def wrapInt64 (x : Int) : Int := (x + 2 ^ 63) % 2 ^ 64 - 2 ^ 63

/-- Largest `int64`. -/
def maxInt64 : Int := 2 ^ 63 - 1

/-- Smallest `int64`. -/
def minInt64 : Int := -(2 ^ 63)

/-! ## IEEE 754 binary floating point -/

/-- A binary floating-point format: `prec` significand bits, largest exponent
`emax`; the smallest normal exponent is `1 - emax`. -/
structure Fmt where
  prec : Nat
  emax : Int
  deriving DecidableEq, Repr

/-- Go `float64`. -/
def binary64 : Fmt := ⟨53, 1023⟩

/-- Go `float32`. -/
def binary32 : Fmt := ⟨24, 127⟩

/-- Exponent of the least significant bit of the subnormal numbers. -/
def Fmt.qmin (f : Fmt) : Int := 1 - f.emax - (f.prec - 1)

/-- A floating-point datum.  `finite neg m e` is `(-1)^neg * m * 2^e`. -/
inductive Flt where
  | finite (neg : Bool) (m : Nat) (e : Int)
  | inf (neg : Bool)
  | nan
  deriving DecidableEq, Repr

/-- Number of binary digits of `n`, computed with `fuel` halvings. -/
def bitLenAux : Nat → Nat → Nat
  | 0, _ => 0
  | fuel + 1, n => if n = 0 then 0 else bitLenAux fuel (n / 2) + 1

/-- Number of binary digits of `n` (`0` for `0`). -/
def bitLen (n : Nat) : Nat := bitLenAux n n

/-- The integer `e` with `2^e ≤ num/den < 2^(e+1)`, for `num, den > 0`. -/
def floorLog2 (num den : Nat) : Int :=
  let k : Int := (bitLen num : Int) - (bitLen den : Int)
  if num * 2 ^ (-k).toNat < den * 2 ^ k.toNat then k - 1 else k

/-- Round-to-nearest, ties-to-even, of the integer quotient `n / d`. -/
def roundQuotNE (n d : Nat) : Nat :=
  let m0 := n / d
  let r := n % d
  if 2 * r < d then m0
  else if d < 2 * r then m0 + 1
  else if m0 % 2 = 0 then m0 else m0 + 1

/-- The value `(-1)^neg * num / den` rounded to the format `f`
(round-to-nearest, ties-to-even, gradual underflow, overflow to infinity). -/
def Flt.round (f : Fmt) (neg : Bool) (num den : Nat) : Flt :=
  if num = 0 then .finite neg 0 0
  else
    let q : Int := max (floorLog2 num den - (f.prec - 1)) f.qmin
    let m := roundQuotNE (num * 2 ^ (-q).toNat) (den * 2 ^ q.toNat)
    if m = 0 then .finite neg 0 0
    else
      let m1 := if m = 2 ^ f.prec then 2 ^ (f.prec - 1) else m
      let q1 := if m = 2 ^ f.prec then q + 1 else q
      if f.emax < q1 + (f.prec - 1) then .inf neg else .finite neg m1 q1

/-- Conversion of an integer to the format `f` (Go `float64(i)`, `float32(i)`). -/
def Flt.ofInt (f : Fmt) (i : Int) : Flt :=
  Flt.round f (decide (i < 0)) i.natAbs 1

/-- IEEE multiplication in the format `f`. -/
def Flt.mul (f : Fmt) : Flt → Flt → Flt
  | .nan, _ => .nan
  | _, .nan => .nan
  | .inf s, .inf t => .inf (xor s t)
  | .inf s, .finite t m _ => if m = 0 then .nan else .inf (xor s t)
  | .finite s m _, .inf t => if m = 0 then .nan else .inf (xor s t)
  | .finite s m e, .finite t n k =>
      Flt.round f (xor s t) (m * n * 2 ^ (e + k).toNat) (2 ^ (-(e + k)).toNat)

/-- IEEE division in the format `f`. -/
def Flt.div (f : Fmt) : Flt → Flt → Flt
  | .nan, _ => .nan
  | _, .nan => .nan
  | .inf _, .inf _ => .nan
  | .inf s, .finite t _ _ => .inf (xor s t)
  | .finite s _ _, .inf t => .finite (xor s t) 0 0
  | .finite s m e, .finite t n k =>
      if n = 0 then (if m = 0 then .nan else .inf (xor s t))
      else Flt.round f (xor s t) (m * 2 ^ (e - k).toNat) (n * 2 ^ (k - e).toNat)

/-- The integer part of a finite datum, truncated toward zero. -/
def Flt.trunc : Flt → Option Int
  | .finite s m e =>
      let a : Int := ((m * 2 ^ e.toNat / 2 ^ (-e).toNat : Nat) : Int)
      some (if s then -a else a)
  | _ => none

/-- Go `int(x)` / `int64(x)` of a float on amd64: truncation toward zero; a NaN,
an infinity or a value outside `int64` gives the "integer indefinite" value
`-2^63` (the Go specification leaves this case to the implementation). -/
def Flt.toInt64 (x : Flt) : Int :=
  match x.trunc with
  | some a => if minInt64 ≤ a ∧ a ≤ maxInt64 then a else minInt64
  | none => minInt64

/-- Exact comparison `x < y` of two data (`false` when either is a NaN). -/
def Flt.lt : Flt → Flt → Bool
  | .nan, _ => false
  | _, .nan => false
  | .inf s, .inf t => s && !t
  | .inf s, .finite _ _ _ => s
  | .finite _ _ _, .inf t => !t
  | .finite s m e, .finite t n k =>
      let c : Int := min e k
      let a : Int := (if s then -1 else 1) * (m : Int) * 2 ^ (e - c).toNat
      let b : Int := (if t then -1 else 1) * (n : Int) * 2 ^ (k - c).toNat
      decide (a < b)

/-- Exact comparison `x ≤ y` of two data (`false` when either is a NaN). -/
def Flt.le : Flt → Flt → Bool
  | .nan, _ => false
  | _, .nan => false
  | .inf s, .inf t => s || !t
  | .inf s, .finite _ _ _ => s
  | .finite _ _ _, .inf t => !t
  | .finite s m e, .finite t n k =>
      let c : Int := min e k
      let a : Int := (if s then -1 else 1) * (m : Int) * 2 ^ (e - c).toNat
      let b : Int := (if t then -1 else 1) * (n : Int) * 2 ^ (k - c).toNat
      decide (a ≤ b)

/-- The rational value of a finite datum. -/
def Flt.toRat : Flt → Option ℚ
  | .finite s m e => some ((if s then -1 else 1) * (m : ℚ) * 2 ^ e)
  | _ => none

/-- The rational value of a datum; `0` stands in for an infinity or a NaN. -/
def Flt.val (x : Flt) : ℚ := x.toRat.getD 0

/-- The datum is neither an infinity nor a NaN. -/
def Flt.isFinite : Flt → Bool
  | .finite _ _ _ => true
  | _ => false

/-- Exact comparison `x == y` (`false` when either is a NaN; the two zeros are
equal). -/
def Flt.eq (x y : Flt) : Bool := Flt.le x y && Flt.le y x

/-! ## Time -/

/-- A Go `time.Time`: nanoseconds elapsed since the zero time (January 1, year 1,
00:00 UTC). -/
abbrev Time := Int

/-- A Go `time.Duration`: a number of nanoseconds held in an `int64`. -/
abbrev Duration := Int

/-- One second, `time.Second`. -/
def second : Duration := 1000000000

/-- One minute, `time.Minute`. -/
def minute : Duration := 60 * second

/-- Go `Time.IsZero`. -/
def Time.IsZero (t : Time) : Bool := decide (t = 0)

/-- Go `Time.Sub`: the difference, saturated to the range of a `Duration`. -/
def Time.Sub (t u : Time) : Duration :=
  if maxInt64 < t - u then maxInt64 else if t - u < minInt64 then minInt64 else t - u

/-- Go `Time.Add(d)`. -/
def Time.Add (t : Time) (d : Duration) : Time := t + d

/-- Go `Time.Before(u)`. -/
def Time.Before (t u : Time) : Bool := decide (t < u)

/-- Go `Duration.Round(m)`: rounding to the nearest multiple of `m`, halves away
from zero, saturating at the ends of the range. -/
def Duration.Round (d m : Duration) : Duration :=
  if m ≤ 0 then d
  else
    let r := Int.tmod d m
    if d < 0 then
      let r := -r
      if r + r < m then wrapInt64 (d + r)
      else
        let d1 := wrapInt64 (wrapInt64 (d - m) + r)
        if d1 < d then d1 else minInt64
    else
      if r + r < m then d - r
      else
        let d1 := wrapInt64 (wrapInt64 (d + m) - r)
        if d < d1 then d1 else maxInt64

/-- Decimal digits of `v`, left-padded with zeros to `width` digits. -/
def padDigits (width v : Nat) : List Char :=
  let ds := (Nat.toDigits 10 v)
  List.replicate (width - ds.length) '0' ++ ds

/-- Removes the zeros at the end of a digit string. -/
def stripZeros (ds : List Char) : List Char :=
  (ds.reverse.dropWhile (fun c => c == '0')).reverse

/-- The fraction printed by `fmtFrac`: the `prec` low decimal digits of `v`
without trailing zeros, after a point; nothing when they are all zero. -/
def fmtFrac (v prec : Nat) : String :=
  let ds := stripZeros (padDigits prec (v % 10 ^ prec))
  if ds.isEmpty then "" else String.mk ('.' :: ds)

/-- Go `Duration.String`, e.g. `"1m5s"`, `"2h0m0s"`, `"1.5s"`, `"0s"`. -/
def Duration.String (d : Duration) : String :=
  let u : Nat := d.natAbs
  let sign := if d < 0 then "-" else ""
  if u = 0 then "0s"
  else if u < 1000 then sign ++ toString u ++ "ns"
  else if u < 1000000 then sign ++ toString (u / 1000) ++ fmtFrac u 3 ++ "µs"
  else if u < 1000000000 then sign ++ toString (u / 1000000) ++ fmtFrac u 6 ++ "ms"
  else
    let secs := u / 1000000000
    let s := toString (secs % 60) ++ fmtFrac u 9 ++ "s"
    let mins := secs / 60
    if mins = 0 then sign ++ s
    else
      let hours := mins / 60
      if hours = 0 then sign ++ toString (mins % 60) ++ "m" ++ s
      else sign ++ toString hours ++ "h" ++ toString (mins % 60) ++ "m" ++ s

/-! ## Data model (`engine/torrent.go`) -/

/-- Go `TorrentStatus`: the health status of a torrent. -/
inductive TorrentStatus where
  | Unknown
  | Healthy
  | Slow
  | Stalled
  | Error
  deriving DecidableEq, Repr

/-- Go `TorrentError`: an error met during torrent operations. -/
structure TorrentError where
  Time : Time
  Message : String
  deriving DecidableEq, Repr

/-- Go `File`.  The fields `f` (backend handle), `RetryCount`, `LastError` and
`BytesPerSec` take no part in any operation modelled here and are left out. -/
structure File where
  Path : String
  Size : Int := 0
  Chunks : Int := 0
  Completed : Int := 0
  Started : Bool := false
  Percent : Flt := Flt.finite false 0 0
  Priority : Int := 0
  deriving DecidableEq, Repr

/-- Go `Torrent`.  `Files` is the slice of `*File`; `none` is a nil pointer and
`[]` is the nil slice.  The backend handle `t`, the mutex and the fields that no
code reads or writes (`Dropped`, `RetryCount`, `HealthChecks`,
`BytesLastCheck`) are left out. -/
structure Torrent where
  InfoHash : String
  Name : String := ""
  Loaded : Bool := false
  Downloaded : Int := 0
  Size : Int := 0
  Files : List (Option File) := []
  Started : Bool := false
  Percent : Flt := Flt.finite false 0 0
  DownloadRate : Flt := Flt.finite false 0 0
  UpdatedAt : Time := 0
  Status : TorrentStatus := TorrentStatus.Unknown
  Errors : List TorrentError := []
  LastProgress : Time := 0
  MetadataLoaded : Bool := false
  MetadataPercent : Flt := Flt.finite false 0 0
  PeersConnected : Int := 0
  PeersTotal : Int := 0
  deriving DecidableEq, Repr

/-- What one call observes of a backend file (`*torrent.File`): its path, its
length and the completion flag of each of its pieces (`f.State()`). -/
structure BackendFile where
  Path : String
  Length : Int
  State : List Bool
  deriving DecidableEq, Repr

/-- What one call observes of a backend torrent (`*torrent.Torrent`): the
info hash in hexadecimal, `Name()`, whether `Info()` is non-nil, the
`ActivePeers` and `TotalPeers` of `Stats()`, `Length()`, `Files()` and
`BytesCompleted()`.  The handle is observed once per call. -/
structure BackendTorrent where
  InfoHash : String
  Name : String := ""
  HasInfo : Bool := false
  ActivePeers : Int := 0
  TotalPeers : Int := 0
  Length : Int := 0
  Files : List BackendFile := []
  BytesCompleted : Int := 0
  deriving DecidableEq, Repr

/-- The readings of `time.Now()` made during one refresh: `now` in
`updateLoaded`, `since` for the `time.Since` of the stall message, `stamp` for
the time recorded by `addError`. -/
structure Clock where
  now : Time
  since : Time
  stamp : Time
  deriving DecidableEq, Repr

/-- The integer that `percent` converts to `float32`:
`int(float64(10000) * (float64(n) / float64(total)))`. -/
def percentScaled (n total : Int) : Int :=
  Flt.toInt64 (Flt.mul binary64 (Flt.ofInt binary64 10000)
    (Flt.div binary64 (Flt.ofInt binary64 n) (Flt.ofInt binary64 total)))

/-- Go `percent(n, total)`. -/
def percent (n total : Int) : Flt :=
  if total = 0 then Flt.ofInt binary32 0
  else Flt.div binary32 (Flt.ofInt binary32 (percentScaled n total)) (Flt.ofInt binary32 100)

/-- Go `Torrent.addError(msg)`, the clock reading `now`. -/
def Torrent.addError (torrent : Torrent) (now : Time) (msg : String) : Torrent :=
  let kept := if 10 ≤ torrent.Errors.length then torrent.Errors.drop 1 else torrent.Errors
  { torrent with Errors := kept ++ [{ Time := now, Message := msg }] }

/-- One step of the "merge in files" loop of `updateLoaded`: the record at index
`i` (created with the backend path and priority 1 when the pointer is nil) after
its size, chunk counts and percentage have been refreshed. -/
def mergeFile (file : Option File) (f : BackendFile) : File :=
  let file := file.getD { Path := f.Path, Priority := 1 }
  let chunks : Int := f.State.length
  let completed : Int := (f.State.filter (fun c => c)).length
  { file with
    Size := f.Length
    Chunks := chunks
    Completed := completed
    Percent := percent completed chunks }

/-- The "merge in files" loop of `updateLoaded` over `t.Files()`; `none` is the
index-out-of-range panic of `torrent.Files[i]` when the backend lists more
files than the slice holds. -/
def mergeFiles : List (Option File) → List BackendFile → Option (List (Option File))
  | files, [] => some files
  | [], _ :: _ => none
  | file :: files, f :: tfiles =>
      (mergeFiles files tfiles).map (fun rest => some (mergeFile file f) :: rest)

/-- The constant `0.7` as a `float32`. -/
def f32_0_7 : Flt := Flt.round binary32 false 7 10

/-- The part of `updateLoaded` that follows the "merge in files" loop
("calculate rate" to the end): percentage, download rate, status, stall
detection, and the new snapshot `Downloaded`, `UpdatedAt`.  `prevBytes` is the
value `torrent.Downloaded` had on entry to `updateLoaded`. -/
def Torrent.updateProgress (torrent : Torrent) (t : BackendTorrent) (clock : Clock)
    (prevBytes : Int) : Torrent :=
  let now := clock.now
  let bytes := t.BytesCompleted
  let torrent := { torrent with Percent := percent bytes torrent.Size }
  let prevDownloadRate := torrent.DownloadRate
  let torrent :=
    if !torrent.UpdatedAt.IsZero then
      let dt := Flt.ofInt binary32 (now.Sub torrent.UpdatedAt)
      let db := Flt.ofInt binary32 (wrapInt64 (bytes - torrent.Downloaded))
      let rate := Flt.mul binary32 db (Flt.div binary32 (Flt.ofInt binary32 second) dt)
      let torrent :=
        if Flt.le (Flt.ofInt binary32 0) rate then { torrent with DownloadRate := rate }
        else torrent
      if prevBytes < bytes then
        let torrent := { torrent with LastProgress := now }
        if Flt.lt prevDownloadRate torrent.DownloadRate then
          { torrent with Status := TorrentStatus.Healthy }
        else if Flt.lt torrent.DownloadRate (Flt.mul binary32 prevDownloadRate f32_0_7) then
          { torrent with Status := TorrentStatus.Slow }
        else torrent
      else if minute < now.Sub torrent.LastProgress ∧
          Flt.lt torrent.Percent (Flt.ofInt binary32 100) then
        let torrent := { torrent with Status := TorrentStatus.Stalled }
        torrent.addError clock.stamp ("Download stalled - no progress for " ++
          Duration.String (Duration.Round (Time.Sub clock.since torrent.LastProgress) second))
      else torrent
    else
      { torrent with LastProgress := now, Status := TorrentStatus.Healthy }
  { torrent with Downloaded := bytes, UpdatedAt := now }

/-- The head of `updateLoaded`: the new `Size` and, when the backend lists files
and the slice is nil, the slice `make([]*File, len(tfiles))`. -/
def Torrent.allocFiles (torrent : Torrent) (t : BackendTorrent) : Torrent :=
  let torrent := { torrent with Size := t.Length }
  if 0 < t.Files.length ∧ torrent.Files = [] then
    { torrent with Files := List.replicate t.Files.length none }
  else torrent

/-- Go `Torrent.updateLoaded(t)`: `allocFiles`, the "merge in files" loop, then
`updateProgress`; `none` is a run-time panic. -/
def Torrent.updateLoaded (torrent : Torrent) (t : BackendTorrent) (clock : Clock) :
    Option Torrent :=
  let prevBytes := torrent.Downloaded
  let torrent := torrent.allocFiles t
  match mergeFiles torrent.Files t.Files with
  | none => none
  | some files => some (({ torrent with Files := files }).updateProgress t clock prevBytes)

/-- Go `Torrent.Update(t)`; `none` is a run-time panic. -/
def Torrent.Update (torrent : Torrent) (t : BackendTorrent) (clock : Clock) :
    Option Torrent :=
  let torrent := { torrent with
    Name := t.Name
    Loaded := t.HasInfo
    PeersConnected := t.ActivePeers
    PeersTotal := t.TotalPeers }
  let torrent :=
    if !torrent.Loaded && !torrent.MetadataLoaded then
      if t.HasInfo then
        { torrent with MetadataLoaded := true, MetadataPercent := Flt.ofInt binary32 100 }
      else if 0 < t.ActivePeers then
        { torrent with MetadataPercent := Flt.ofInt binary32 50 }
      else
        { torrent with MetadataPercent := Flt.ofInt binary32 1 }
    else torrent
  if torrent.Loaded then torrent.updateLoaded t clock else some torrent

/-! ## Engine (`engine/config.go`, `engine/engine.go`) -/

/-- Go `Config`, restricted to the fields the engine consults. -/
structure Config where
  MaxMemoryUsage : Int := 0
  MaxConcurrentTorrents : Int := 0
  BufferPerTorrent : Int := 0
  HealthCheckInterval : Int := 0
  deriving DecidableEq, Repr

/-- Go `MemoryMonitor`: the tracked memory usage.  The engine's monitor is
allocated by `New` and never reassigned, so the receiver of the three methods
is not nil. -/
structure MemoryMonitor where
  memoryUsage : Int := 0
  deriving DecidableEq, Repr

/-- Go `MemoryMonitor.AddMemoryUsage(bytes)`: `mm.memoryUsage += bytes`. -/
def MemoryMonitor.AddMemoryUsage (mm : MemoryMonitor) (bytes : Int) : MemoryMonitor :=
  { memoryUsage := wrapInt64 (mm.memoryUsage + bytes) }

/-- Go `MemoryMonitor.ReleaseMemory(bytes)`: `mm.memoryUsage -= bytes`, then a
negative result is replaced by zero. -/
def MemoryMonitor.ReleaseMemory (mm : MemoryMonitor) (bytes : Int) : MemoryMonitor :=
  let mm : MemoryMonitor := { memoryUsage := wrapInt64 (mm.memoryUsage - bytes) }
  if mm.memoryUsage < 0 then { memoryUsage := 0 } else mm

/-- Go `MemoryMonitor.GetMemoryUsage()`. -/
def MemoryMonitor.GetMemoryUsage (mm : MemoryMonitor) : Int := mm.memoryUsage

/-- The `error` values the engine returns.
* `invalidHexString`: "Invalid hex string"
* `invalidLength`: "Invalid length"
* `missingTorrent ih`: "Missing torrent %x"
* `alreadyStarted`: "Already started"
* `concurrencyLimit n`: "Maximum number of concurrent torrents reached (%d)"
* `memoryLimit used`: "Memory limit reached (%s used)"
* `alreadyStopped`: "Already stopped"
* `missingFile path`: "Missing file %s"
* `unsupported`: "Unsupported"
* `backend msg`: an error returned by the torrent client. -/
inductive Err where
  | invalidHexString
  | invalidLength
  | missingTorrent (ih : String)
  | alreadyStarted
  | concurrencyLimit (max : Int)
  | memoryLimit (used : Int)
  | alreadyStopped
  | missingFile (path : String)
  | unsupported
  | backend (msg : String)
  deriving DecidableEq, Repr

/-- How a call ends: it returns a nil error, returns an error, or panics. -/
inductive Outcome where
  | ok
  | error (e : Err)
  | panic (what : String)
  deriving DecidableEq, Repr

deriving instance DecidableEq for Except

/-- Go `Engine`: the configuration, the table `ts` of torrents by info hash (a map
of pointers, here an association list written through by `tsStore`), the
counter `activeTorrents` and the memory monitor. -/
structure Engine where
  config : Config := {}
  ts : List (String × Torrent) := []
  activeTorrents : Int := 0
  memoryMonitor : MemoryMonitor := {}
  deriving DecidableEq, Repr

/-- Go `New()`. -/
def New : Engine := {}

/-- Go `e.ts[key]` with its presence flag. -/
def tsLookup (ts : List (String × Torrent)) (key : String) : Option Torrent :=
  match ts with
  | [] => none
  | (k, t) :: rest => if k = key then some t else tsLookup rest key

/-- Writes `t` at `key`: through the pointer held at `key`, or as a new entry. -/
def tsStore (ts : List (String × Torrent)) (key : String) (t : Torrent) :
    List (String × Torrent) :=
  match ts with
  | [] => [(key, t)]
  | (k, old) :: rest => if k = key then (k, t) :: rest else (k, old) :: tsStore rest key t

/-- Value of a hexadecimal digit (`encoding/hex`). -/
def hexVal (c : Char) : Option Nat :=
  if '0' ≤ c ∧ c ≤ '9' then some (c.toNat - '0'.toNat)
  else if 'a' ≤ c ∧ c ≤ 'f' then some (c.toNat - 'a'.toNat + 10)
  else if 'A' ≤ c ∧ c ≤ 'F' then some (c.toNat - 'A'.toNat + 10)
  else none

/-- How `hex.Decode(dst, src)` ends: `done bytes` with a nil error,
`invalidByte` or `errLength` with an error, `outOfRange` with the panic of a
write past the end of `dst`. -/
inductive HexDecode where
  | done (bytes : List Nat)
  | invalidByte
  | errLength
  | outOfRange
  deriving DecidableEq, Repr

/-- The loop of `hex.Decode` into a destination of `cap` bytes, `acc` holding
the bytes written so far in reverse.  A character of `src` stands for a byte of
the Go string; a character outside ASCII is an invalid digit, as each of its
bytes is. -/
def hexDecodeAux (cap : Nat) : List Char → List Nat → HexDecode
  | [], acc => .done acc.reverse
  | [c], _ => if (hexVal c).isNone then .invalidByte else .errLength
  | p :: q :: rest, acc =>
      match hexVal p, hexVal q with
      | some a, some b =>
          if acc.length < cap then hexDecodeAux cap rest ((a * 16 + b) :: acc)
          else .outOfRange
      | _, _ => .invalidByte

/-- Go `hex.Decode(dst, src)` for a destination of `cap` bytes. -/
def hexDecode (cap : Nat) (src : String) : HexDecode := hexDecodeAux cap src.toList []

/-- The lower-case hexadecimal digit of a value below 16. -/
def hexDigit (v : Nat) : Char := "0123456789abcdef".toList.getD v '0'

/-- Go `metainfo.Hash.HexString()`. -/
def hexString (bytes : List Nat) : String :=
  String.mk (bytes.flatMap (fun b => [hexDigit (b / 16), hexDigit (b % 16)]))

/-- Go `str2ih(str)`: the 20-byte hash, given by its `HexString()`. -/
def str2ih (str : String) : Except Outcome String :=
  match hexDecode 20 str with
  | .done bytes =>
      if bytes.length ≠ 20 then .error (.error .invalidLength) else .ok (hexString bytes)
  | .invalidByte => .error (.error .invalidHexString)
  | .errLength => .error (.error .invalidHexString)
  | .outOfRange => .error (.panic "index out of range")

/-- Go `Engine.getTorrent(infohash)`: the key `ih.HexString()` and the torrent
stored under it. -/
def Engine.getTorrent (e : Engine) (infohash : String) : Except Outcome (String × Torrent) :=
  match str2ih infohash with
  | .error o => .error o
  | .ok ih =>
      match tsLookup e.ts ih with
      | none => .error (.error (.missingTorrent ih))
      | some t => .ok (ih, t)

/-- Go `Engine.getOpenTorrent(infohash)`. -/
def Engine.getOpenTorrent (e : Engine) (infohash : String) :
    Except Outcome (String × Torrent) :=
  match e.getTorrent infohash with
  | .error o => .error o
  | .ok r => .ok r

/-- Go `Engine.GetTorrent(infohash)`. -/
def Engine.GetTorrent (e : Engine) (infohash : String) : Except Outcome (String × Torrent) :=
  e.getTorrent infohash

/-- The estimate `t.Size / 100 * 2` of `StartTorrent` and `StopTorrent`. -/
def estimatedMemory (t : Torrent) : Int := wrapInt64 (Int.tdiv t.Size 100 * 2)

/-- Sets the `Started` flag of every non-nil file. -/
def setFilesStarted (files : List (Option File)) (b : Bool) : List (Option File) :=
  files.map (fun f => f.map (fun f => { f with Started := b }))

/-- Go `Engine.StartTorrent(infohash)`.  The calls into the backend
(`t.t.DownloadAll()`) and the log line leave the engine state alone. -/
def Engine.StartTorrent (e : Engine) (infohash : String) : Engine × Outcome :=
  match e.getOpenTorrent infohash with
  | .error o => (e, o)
  | .ok (ih, t) =>
    if t.Started then (e, .error .alreadyStarted)
    else if 0 < e.config.MaxConcurrentTorrents ∧
        e.config.MaxConcurrentTorrents ≤ e.activeTorrents then
      (e, .error (.concurrencyLimit e.config.MaxConcurrentTorrents))
    else
      let estimated := estimatedMemory t
      if 0 < e.config.MaxMemoryUsage ∧
          e.config.MaxMemoryUsage ≤ wrapInt64 (e.memoryMonitor.GetMemoryUsage + estimated) then
        (e, .error (.memoryLimit e.memoryMonitor.GetMemoryUsage))
      else
        let t := { t with Started := true }
        let t := { t with Files := setFilesStarted t.Files true }
        ({ e with
            ts := tsStore e.ts ih t
            activeTorrents := e.activeTorrents + 1
            memoryMonitor := e.memoryMonitor.AddMemoryUsage estimated }, .ok)

/-- Go `Engine.StopTorrent(infohash)`.  The call into the backend (`t.t.Drop()`)
and the log line leave the engine state alone. -/
def Engine.StopTorrent (e : Engine) (infohash : String) : Engine × Outcome :=
  match e.getTorrent infohash with
  | .error o => (e, o)
  | .ok (ih, t) =>
    if !t.Started then (e, .error .alreadyStopped)
    else
      let t := { t with Started := false }
      let estimated := estimatedMemory t
      let t := { t with Files := setFilesStarted t.Files false }
      ({ e with
          ts := tsStore e.ts ih t
          activeTorrents := e.activeTorrents - 1
          memoryMonitor := e.memoryMonitor.ReleaseMemory estimated }, .ok)

/-- A torrent descriptor handed to `NewTorrent` (`*torrent.TorrentSpec`). -/
structure TorrentSpec where
  InfoHash : String
  DisplayName : String := ""
  deriving DecidableEq, Repr

/-- The torrent client as the engine sees it at an add: for a magnet URI or a
descriptor, the handle of the added torrent or the client's error. -/
structure Client where
  AddMagnet : String → Except String BackendTorrent
  AddTorrentSpec : TorrentSpec → Except String BackendTorrent

/-- Go `Engine.upsertTorrent(tt)`: the engine and the torrent after the update;
`none` is a panic inside `Update`. -/
def Engine.upsertTorrent (e : Engine) (tt : BackendTorrent) (clock : Clock) :
    Option (Engine × Torrent) :=
  let ih := tt.InfoHash
  let torrent := (tsLookup e.ts ih).getD { InfoHash := ih }
  match torrent.Update tt clock with
  | none => none
  | some torrent => some ({ e with ts := tsStore e.ts ih torrent }, torrent)

/-- Go `Engine.newTorrent(tt)`.  The goroutine it starts waits for the metadata
and then calls `StartTorrent`, ignoring its result: that call is a later step
of its own. -/
def Engine.newTorrent (e : Engine) (tt : BackendTorrent) (clock : Clock) : Engine × Outcome :=
  match e.upsertTorrent tt clock with
  | none => (e, .panic "index out of range")
  | some (e, _) => (e, .ok)

/-- Go `Engine.NewMagnet(magnetURI)`. -/
def Engine.NewMagnet (e : Engine) (client : Client) (magnetURI : String) (clock : Clock) :
    Engine × Outcome :=
  if 0 < e.config.MaxConcurrentTorrents ∧
      e.config.MaxConcurrentTorrents ≤ e.activeTorrents then
    (e, .error (.concurrencyLimit e.config.MaxConcurrentTorrents))
  else if 0 < e.config.MaxMemoryUsage ∧
      e.config.MaxMemoryUsage ≤ e.memoryMonitor.GetMemoryUsage then
    (e, .error (.memoryLimit e.memoryMonitor.GetMemoryUsage))
  else
    match client.AddMagnet magnetURI with
    | .error err => (e, .error (.backend err))
    | .ok tt => e.newTorrent tt clock

/-- Go `Engine.NewTorrent(spec)`. -/
def Engine.NewTorrent (e : Engine) (client : Client) (spec : TorrentSpec) (clock : Clock) :
    Engine × Outcome :=
  match client.AddTorrentSpec spec with
  | .error err => (e, .error (.backend err))
  | .ok tt => e.newTorrent tt clock

/-- Go `Engine.GetTorrents()` on a configured engine: every torrent the client
lists (`e.client.Torrents()`, each with the clock readings of its update) is
upserted. -/
def Engine.GetTorrents (e : Engine) : List (BackendTorrent × Clock) → Engine × Outcome
  | [] => (e, .ok)
  | (tt, clock) :: rest =>
      match e.upsertTorrent tt clock with
      | none => (e, .panic "index out of range")
      | some (e, _) => e.GetTorrents rest

/-- Go `delete(e.ts, key)`. -/
def tsErase (ts : List (String × Torrent)) (key : String) : List (String × Torrent) :=
  ts.filter (fun p => p.1 ≠ key)

/-- Go `Engine.DeleteTorrent(infohash)`.  The removal of the cached descriptor
file and the drop of the backend torrent leave the engine state alone. -/
def Engine.DeleteTorrent (e : Engine) (infohash : String) : Engine × Outcome :=
  match e.getTorrent infohash with
  | .error o => (e, o)
  | .ok (_, t) => ({ e with ts := tsErase e.ts t.InfoHash }, .ok)

/-- The search loop of `StartFile`: the index and the record of the first file
whose `Path` is `filepath`, `none` when the loop ends without one (`f == nil`);
reading `file.Path` through a nil pointer panics. -/
def findFile (filepath : String) : List (Option File) → Except Outcome (Option (Nat × File))
  | [] => .ok none
  | none :: _ => .error (.panic "nil pointer dereference")
  | some file :: files =>
      if file.Path = filepath then .ok (some (0, file))
      else
        match findFile filepath files with
        | .error o => .error o
        | .ok none => .ok none
        | .ok (some (i, f)) => .ok (some (i + 1, f))

/-- Go `Engine.StartFile(infohash, filepath)`. -/
def Engine.StartFile (e : Engine) (infohash filepath : String) : Engine × Outcome :=
  match e.getOpenTorrent infohash with
  | .error o => (e, o)
  | .ok (ih, t) =>
    match findFile filepath t.Files with
    | .error o => (e, o)
    | .ok none => (e, .error (.missingFile filepath))
    | .ok (some (i, f)) =>
      if f.Started then (e, .error .alreadyStarted)
      else
        let t := { t with Started := true }
        let t := { t with Files := t.Files.set i (some { f with Started := true }) }
        ({ e with ts := tsStore e.ts ih t }, .ok)

/-- Go `Engine.StopFile(infohash, filepath)`. -/
def Engine.StopFile (e : Engine) (_infohash _filepath : String) : Engine × Outcome :=
  (e, .error .unsupported)

/-- The test of `checkTorrentsHealth` on a started torrent:
`t.UpdatedAt.Add(2*time.Minute).Before(now) && t.DownloadRate == 0 &&
t.Percent < 100`. -/
def restartDue (now : Time) (t : Torrent) : Bool :=
  (t.UpdatedAt.Add (2 * minute)).Before now &&
    Flt.eq t.DownloadRate (Flt.ofInt binary32 0) &&
    Flt.lt t.Percent (Flt.ofInt binary32 100)

/-- The loop of `checkTorrentsHealth` over the keys still to visit.  Each
record is read through the table as it is when its key is reached.  `restarted`
lists, in order, the info hashes on which `StopTorrent` and then `StartTorrent`
were called; their errors are dropped as in the source, a panic ends the
sweep. -/
def Engine.sweep (now : Time) :
    List String → Engine → List String → Engine × List String × Outcome
  | [], e, restarted => (e, restarted, .ok)
  | key :: keys, e, restarted =>
      match tsLookup e.ts key with
      | none => Engine.sweep now keys e restarted
      | some t =>
        if !t.Started then Engine.sweep now keys e restarted
        else if restartDue now t then
          let ih := t.InfoHash
          match e.StopTorrent ih with
          | (e1, .panic what) => (e1, restarted, .panic what)
          | (e1, _) =>
            match e1.StartTorrent ih with
            | (e2, .panic what) => (e2, restarted, .panic what)
            | (e2, _) => Engine.sweep now keys e2 (restarted ++ [ih])
        else Engine.sweep now keys e restarted

/-- Go `Engine.checkTorrentsHealth()` at the clock reading `now`: the engine
after the sweep, the info hashes restarted, and how the call ended.  The map is
ranged over in the order of the association list; the source's order is
unspecified. -/
def Engine.checkTorrentsHealth (e : Engine) (now : Time) : Engine × List String × Outcome :=
  Engine.sweep now (e.ts.map (fun p => p.1)) e []

/-- The specification's percentage in hundredths: `100 * n / total` truncated
toward zero to two decimal places, times 100; `0` when `total = 0`. -/
def percentSpecHundredths (n total : Int) : Int :=
  if total = 0 then 0 else Int.tdiv (10000 * n) total

/-- The `rate` of `updateLoaded` for a byte count `bytes`, a previous count
`prev` and an elapsed time:
`float32(bytes - prev) * (float32(time.Second) / float32(elapsed))`. -/
def sampleRate (bytes prev : Int) (elapsed : Duration) : Flt :=
  Flt.mul binary32 (Flt.ofInt binary32 (wrapInt64 (bytes - prev)))
    (Flt.div binary32 (Flt.ofInt binary32 second) (Flt.ofInt binary32 elapsed))

/-- The download rate kept by `updateLoaded`: the `rate` when `rate >= 0`, else
the previous one. -/
def keptRate (old rate : Flt) : Flt :=
  if Flt.le (Flt.ofInt binary32 0) rate then rate else old

/-- The message of the stall entry written at the clock reading `since`. -/
def stallMessage (since lastProgress : Time) : String :=
  "Download stalled - no progress for " ++
    Duration.String (Duration.Round (Time.Sub since lastProgress) second)

/-- No entry of the slice is nil and no file of it has the path `p`: the search
loop of `StartFile` runs to the end without a match. -/
def pathAbsent (p : String) (files : List (Option File)) : Bool :=
  files.all (fun x =>
    match x with
    | some g => decide (g.Path ≠ p)
    | none => false)

/-- The number of sessions of the table whose `Started` flag is set. -/
def Engine.startedCount (e : Engine) : Int :=
  ((e.ts.filter (fun p => p.2.Started)).length : Int)

/-- The table is well formed: no key occurs twice (it is a map), every record
is stored under its own `InfoHash` (as `upsertTorrent` stores it), and every
key is the `HexString()` of a hash, so that `str2ih` maps it to itself. -/
def Engine.tableOk (e : Engine) : Bool :=
  decide (e.ts.map (fun p => p.1)).Nodup &&
    e.ts.all (fun p => decide (p.2.InfoHash = p.1) && decide (str2ih p.1 = .ok p.1))

/-- The session under `key` is started and passes the test of the sweep. -/
def Engine.dueAt (e : Engine) (now : Time) (key : String) : Bool :=
  match tsLookup e.ts key with
  | none => false
  | some t => t.Started && restartDue now t

/-- Go `e.StopTorrent(ih)` followed by `e.StartTorrent(ih)`, their errors
dropped, as in the body of the sweep. -/
def Engine.restart (e : Engine) (ih : String) : Engine :=
  ((e.StopTorrent ih).1.StartTorrent ih).1

/-- The restarts of the sessions `ihs`, one after the other. -/
def Engine.restartAll (e : Engine) (ihs : List String) : Engine :=
  ihs.foldl Engine.restart e

/-- The value lies between 0 and 100 (`0 <= x && x <= 100` in `float32`). -/
def Flt.isPercent (x : Flt) : Bool :=
  Flt.le (Flt.ofInt binary32 0) x && Flt.le x (Flt.ofInt binary32 100)

/-- The entry is a file whose `Percent` lies between 0 and 100. -/
def filePercentOk : Option File → Bool
  | some f => Flt.isPercent f.Percent
  | none => false

/-- Every file of the backend torrent has a piece count within `int`. -/
def chunksFit (t : BackendTorrent) : Bool :=
  t.Files.all (fun f => decide ((f.State.length : Int) ≤ maxInt64))

/-! ## Runs of calls -/

/-- A run of `addError` calls, each with its clock reading and message. -/
def Torrent.addErrors (torrent : Torrent) (calls : List (Time × String)) : Torrent :=
  calls.foldl (fun t c => t.addError c.1 c.2) torrent

/-- The log entry that `addError` appends for a call. -/
def logEntry (c : Time × String) : TorrentError := { Time := c.1, Message := c.2 }

/-- A call on the memory monitor. -/
inductive MemOp where
  | add (bytes : Int)
  | release (bytes : Int)
  deriving DecidableEq, Repr

/-- The amount passed by a call. -/
def MemOp.amount : MemOp → Int
  | .add b => b
  | .release b => b

/-- The monitor after one call. -/
def MemoryMonitor.step (mm : MemoryMonitor) : MemOp → MemoryMonitor
  | .add b => mm.AddMemoryUsage b
  | .release b => mm.ReleaseMemory b

/-- The monitor after a run of calls. -/
def MemoryMonitor.run (mm : MemoryMonitor) (ops : List MemOp) : MemoryMonitor :=
  ops.foldl MemoryMonitor.step mm

/-- Every amount of the run is a non-negative `int64` and no `AddMemoryUsage`
of the run carries the usage past the largest `int64`. -/
def MemoryMonitor.inRange (mm : MemoryMonitor) : List MemOp → Bool
  | [] => true
  | .add b :: ops =>
      decide (0 ≤ b) && decide (mm.memoryUsage + b ≤ maxInt64) &&
        (mm.AddMemoryUsage b).inRange ops
  | .release b :: ops =>
      decide (0 ≤ b) && decide (b ≤ maxInt64) && (mm.ReleaseMemory b).inRange ops

/-- The slice `torrent.Files` has room for the files the backend lists: no
session is stored under the hash of `tt`, or its slice is nil, or it is at least
as long as `tt.Files`. -/
def Engine.filesAligned (e : Engine) (tt : BackendTorrent) : Bool :=
  match tsLookup e.ts tt.InfoHash with
  | none => true
  | some t => decide (t.Files = []) || decide (tt.Files.length ≤ t.Files.length)

/-! ## Sample states -/

/-- Info hash of the sample session A. -/
def hashA : String := "aaaaaaaaaaaaaaaaaaaaaaaaaaaaaaaaaaaaaaaa"

/-- Info hash of the sample session B. -/
def hashB : String := "bbbbbbbbbbbbbbbbbbbbbbbbbbbbbbbbbbbbbbbb"

/-- An engine limited to one concurrent torrent, without memory ceiling, holding
the two stopped sessions A (1000 bytes) and B (2000 bytes). -/
def oneSlotEngine : Engine :=
  { config := { MaxConcurrentTorrents := 1 }
    ts := [(hashA, { InfoHash := hashA, Size := 1000, Files := [some { Path := "a.bin" }] }),
           (hashB, { InfoHash := hashB, Size := 2000 })] }

/-- The sample engine after `StartTorrent` of session A: its one slot is taken. -/
def fullEngine : Engine := (oneSlotEngine.StartTorrent hashA).1

/-- Info hash of the sample session C. -/
def hashC : String := "cccccccccccccccccccccccccccccccccccccccc"

/-- A magnet URI for session C. -/
def magnetC : String := "magnet:?xt=urn:btih:cccccccccccccccccccccccccccccccccccccccc"

/-- A client that accepts every descriptor: a magnet resolves to session C
without metadata, a descriptor to a loaded torrent of one 5000-byte file. -/
def acceptingClient : Client :=
  { AddMagnet := fun uri => .ok { InfoHash := hashC, Name := uri }
    AddTorrentSpec := fun spec =>
      .ok { InfoHash := spec.InfoHash, Name := spec.DisplayName, HasInfo := true,
            Length := 5000, Files := [⟨"file", 5000, [false, false]⟩] } }

/-- Session C as the backend shows it once its metadata has arrived: 1000 bytes
in one file. -/
def resolvedC : BackendTorrent :=
  { InfoHash := hashC, Name := "c", HasInfo := true, Length := 1000,
    Files := [⟨"c.bin", 1000, [false]⟩] }

/-- Clock readings of a first refresh. -/
def clock0 : Clock :=
  ⟨63000000000000000000, 63000000000000000000, 63000000000000000000⟩

/-- Clock readings ten seconds after `clock0`. -/
def clock1 : Clock :=
  ⟨63000000010000000000, 63000000010000000000, 63000000010000000000⟩

/-- A fresh engine after `NewTorrent` and `StartTorrent` of the loaded session B
(5000 bytes, 100 reserved) and `NewMagnet` of session C, whose metadata has not
arrived. -/
def magnetEngine : Engine :=
  (((New.NewTorrent acceptingClient ⟨hashB, "b"⟩ clock0).1.StartTorrent hashB).1.NewMagnet
    acceptingClient magnetC clock0).1

/-- An engine with a memory ceiling of 3 bytes holding the stopped session A of
150 bytes. -/
def ceilingEngine : Engine :=
  { config := { MaxMemoryUsage := 3 }
    ts := [(hashA, { InfoHash := hashA, Size := 150 })] }

/-- An engine with a memory ceiling of 2 bytes holding the stopped session A of
150 bytes. -/
def tightEngine : Engine :=
  { config := { MaxMemoryUsage := 2 }
    ts := [(hashA, { InfoHash := hashA, Size := 150 })] }

/-- Info hash number `i` (below 100) of the sessions of `crowdedEngine`. -/
def hugeHash (i : Nat) : String :=
  String.mk (List.replicate 38 '0' ++ [hexDigit (i / 10), hexDigit (i % 10)])

/-- An engine without ceilings after `StartTorrent` of fifty sessions of
`2^63 - 1` bytes each; it also holds the stopped session A of 400 bytes. -/
def crowdedEngine : Engine :=
  (List.range 50).foldl (fun e i => (e.StartTorrent (hugeHash i)).1)
    { ts := (List.range 50).map
          (fun i => (hugeHash i, { InfoHash := hugeHash i, Size := maxInt64 })) ++
        [(hashA, { InfoHash := hashA, Size := 400 })] }

/-- Clock readings 65 seconds after `clock0`. -/
def clock2 : Clock :=
  ⟨63000000065000000000, 63000000065000000000, 63000000065000000000⟩

/-- Session C after its first refresh with metadata, at `clock0`: 1000 bytes,
none of them downloaded. -/
def snapshotC : Torrent :=
  (({ InfoHash := hashC } : Torrent).Update resolvedC clock0).getD { InfoHash := hashC }

/-- Session C as the backend shows it with 500 of its 1000 bytes completed. -/
def halfC : BackendTorrent := { resolvedC with BytesCompleted := 500 }

/-- A fresh engine after `NewTorrent` of the loaded session B; nothing is
started. -/
def loadedEngine : Engine := (New.NewTorrent acceptingClient ⟨hashB, "b"⟩ clock0).1

/-- A clock reading one nanosecond more than two minutes after `clock0`. -/
def sweepTime : Time := 63000000120000000001

/-- Session A as `fullEngine` holds it: started, its file started. -/
def startedA : Torrent :=
  { InfoHash := hashA, Size := 1000, Started := true,
    Files := [some { Path := "a.bin", Started := true }] }

/-- The one file of session B as `loadedEngine` holds it. -/
def fileB : File := { Path := "file", Size := 5000, Chunks := 2, Priority := 1 }

/-- Session B as `loadedEngine` holds it. -/
def loadedB : Torrent := (tsLookup loadedEngine.ts hashB).getD { InfoHash := hashB }

/-- Session C as the backend shows a torrent of no bytes and no files. -/
def emptyC : BackendTorrent := { InfoHash := hashC, Name := "c", HasInfo := true }

/-- Session C as the backend shows it before its metadata has arrived. -/
def magnetView : BackendTorrent := { InfoHash := hashC, Name := "c" }

/-- Eleven `addError` calls, one per second. -/
def elevenCalls : List (Time × String) :=
  [(1, "e1"), (2, "e2"), (3, "e3"), (4, "e4"), (5, "e5"), (6, "e6"),
   (7, "e7"), (8, "e8"), (9, "e9"), (10, "e10"), (11, "e11")]

/-! ## Properties -/

/-! ### Auxiliary facts -/

theorem wrapInt64_of_fits (x : Int) (h1 : minInt64 ≤ x) (h2 : x ≤ maxInt64) :
    wrapInt64 x = x := by
  unfold wrapInt64
  unfold minInt64 at h1
  unfold maxInt64 at h2
  omega

theorem addError_errors (t : Torrent) (now : Time) (msg : String) :
    (t.addError now msg).Errors =
      (if 10 ≤ t.Errors.length then t.Errors.drop 1 else t.Errors) ++
        [logEntry (now, msg)] := rfl

theorem lastTen_snoc (l : List TorrentError) (x : TorrentError) :
    (if 10 ≤ (l.drop (l.length - 10)).length then (l.drop (l.length - 10)).drop 1
      else l.drop (l.length - 10)) ++ [x] = (l ++ [x]).drop ((l ++ [x]).length - 10) := by
  by_cases h : 10 ≤ l.length
  · have h1 : (l.drop (l.length - 10)).length = 10 := by rw [List.length_drop]; omega
    have h2 : (l ++ [x]).length - 10 = l.length - 10 + 1 := by simp; omega
    rw [if_pos (by omega), h2, List.drop_drop, List.drop_append_of_le_length (by omega)]
  · have h0 : l.length - 10 = 0 := by omega
    have h2 : (l ++ [x]).length - 10 = 0 := by simp; omega
    rw [h0, h2]
    simp
    intro h'
    omega

theorem addErrors_errors (t : Torrent) (calls : List (Time × String)) (h : t.Errors = []) :
    (t.addErrors calls).Errors = (calls.map logEntry).drop (calls.length - 10) := by
  induction calls using List.reverseRecOn with
  | nil => simp [Torrent.addErrors, h]
  | append_singleton cs c ih =>
    have hs : t.addErrors (cs ++ [c]) = (t.addErrors cs).addError c.1 c.2 := by
      simp [Torrent.addErrors, List.foldl_append]
    rw [hs, addError_errors, ih]
    have := lastTen_snoc (cs.map logEntry) (logEntry c)
    simp only [List.length_map, List.map_append, List.map_cons, List.map_nil,
      List.length_append, List.length_singleton] at this ⊢
    exact this

theorem tsLookup_tsStore (ts : List (String × Torrent)) (k k' : String) (t : Torrent) :
    tsLookup (tsStore ts k t) k' = if k' = k then some t else tsLookup ts k' := by
  induction ts with
  | nil =>
    by_cases h : k' = k
    · simp [tsStore, tsLookup, h]
    · have h' : ¬ k = k' := fun e => h e.symm
      simp [tsStore, tsLookup, h, h']
  | cons hd tl ih =>
    obtain ⟨k0, t0⟩ := hd
    by_cases h0 : k0 = k
    · by_cases h : k' = k
      · simp [tsStore, tsLookup, h0, h]
      · have h' : ¬ k = k' := fun e => h e.symm
        simp [tsStore, tsLookup, h0, h, h']
    · by_cases h : k' = k
      · subst h
        simp [tsStore, tsLookup, h0, ih]
      · by_cases h1 : k0 = k'
        · simp [tsStore, tsLookup, h0, h, h1]
        · simp [tsStore, tsLookup, h0, h, h1, ih]

theorem getTorrent_lookup (e : Engine) (infohash ih : String) (t : Torrent)
    (h : e.getTorrent infohash = .ok (ih, t)) :
    str2ih infohash = .ok ih ∧ tsLookup e.ts ih = some t := by
  unfold Engine.getTorrent at h
  cases hs : str2ih infohash with
  | error o => simp [hs] at h
  | ok k =>
    simp only [hs] at h
    cases hl : tsLookup e.ts k with
    | none => simp [hl] at h
    | some t' =>
      simp only [hl, Except.ok.injEq, Prod.mk.injEq] at h
      obtain ⟨h1, h2⟩ := h
      subst h1
      subst h2
      exact ⟨rfl, hl⟩

theorem getTorrent_of_lookup (e : Engine) (infohash ih : String) (t : Torrent)
    (h1 : str2ih infohash = .ok ih) (h2 : tsLookup e.ts ih = some t) :
    e.getTorrent infohash = .ok (ih, t) := by
  simp [Engine.getTorrent, h1, h2]

theorem release_usage (mm : MemoryMonitor) (b : Int) :
    (mm.ReleaseMemory b).memoryUsage =
      if wrapInt64 (mm.memoryUsage - b) < 0 then 0 else wrapInt64 (mm.memoryUsage - b) := by
  unfold MemoryMonitor.ReleaseMemory
  simp only
  split <;> rfl

theorem str2ih_error_ne_ok (s : String) : str2ih s ≠ .error .ok := by
  unfold str2ih
  split
  · split <;> simp
  all_goals simp

theorem getTorrent_error_ne_ok (e : Engine) (infohash : String) :
    e.getTorrent infohash ≠ .error .ok := by
  unfold Engine.getTorrent
  cases hs : str2ih infohash with
  | error o =>
    have := str2ih_error_ne_ok infohash
    rw [hs] at this
    simpa using this
  | ok k =>
    simp only
    cases tsLookup e.ts k <;> simp

theorem run_usage_fits (ops : List MemOp) (mm : MemoryMonitor)
    (h0 : 0 ≤ mm.memoryUsage) (h1 : mm.memoryUsage ≤ maxInt64) (h : mm.inRange ops = true) :
    0 ≤ (mm.run ops).memoryUsage ∧ (mm.run ops).memoryUsage ≤ maxInt64 := by
  induction ops generalizing mm with
  | nil => exact ⟨h0, h1⟩
  | cons op ops ih =>
    cases op with
    | add b =>
      simp only [MemoryMonitor.inRange, Bool.and_eq_true, decide_eq_true_eq] at h
      obtain ⟨⟨hb, hs⟩, hr⟩ := h
      have hw : wrapInt64 (mm.memoryUsage + b) = mm.memoryUsage + b :=
        wrapInt64_of_fits _ (by unfold minInt64; omega) hs
      have := ih (mm.AddMemoryUsage b)
        (by simp only [MemoryMonitor.AddMemoryUsage, hw]; omega)
        (by simp only [MemoryMonitor.AddMemoryUsage, hw]; omega) hr
      simpa [MemoryMonitor.run, MemoryMonitor.step] using this
    | release b =>
      simp only [MemoryMonitor.inRange, Bool.and_eq_true, decide_eq_true_eq] at h
      obtain ⟨⟨hb, hs⟩, hr⟩ := h
      have hw : wrapInt64 (mm.memoryUsage - b) = mm.memoryUsage - b :=
        wrapInt64_of_fits _ (by unfold minInt64; unfold maxInt64 at hs; omega) (by omega)
      have h2 : 0 ≤ (mm.ReleaseMemory b).memoryUsage ∧
          (mm.ReleaseMemory b).memoryUsage ≤ maxInt64 := by
        rw [release_usage, hw]
        split
        · exact ⟨le_refl _, by unfold maxInt64; omega⟩
        · constructor <;> omega
      have := ih (mm.ReleaseMemory b) h2.1 h2.2 hr
      simpa [MemoryMonitor.run, MemoryMonitor.step] using this

theorem release_eq_max (u b : Int) (hu : 0 ≤ u) (hu' : u ≤ maxInt64) (hb : 0 ≤ b)
    (hb' : b ≤ maxInt64) :
    ((⟨u⟩ : MemoryMonitor).ReleaseMemory b).GetMemoryUsage = max 0 (u - b) := by
  have hw : wrapInt64 (u - b) = u - b :=
    wrapInt64_of_fits _ (by unfold minInt64; unfold maxInt64 at hb'; omega) (by omega)
  unfold MemoryMonitor.GetMemoryUsage
  rw [release_usage]
  simp only [hw]
  split
  · rw [max_eq_left]; omega
  · rw [max_eq_right]; omega

theorem start_at_ceiling (e : Engine) (idB kB : String) (tB : Torrent)
    (hN : 0 < e.config.MaxConcurrentTorrents)
    (hact : e.activeTorrents = e.config.MaxConcurrentTorrents)
    (hB : e.getTorrent idB = .ok (kB, tB)) (hBs : tB.Started = false) :
    e.StartTorrent idB = (e, .error (.concurrencyLimit e.config.MaxConcurrentTorrents)) := by
  simp [Engine.StartTorrent, Engine.getOpenTorrent, hB, hBs, hN, hact]

theorem start_after_stop (e : Engine) (idA idB kB : String) (tB : Torrent)
    (hmem : e.config.MaxMemoryUsage = 0)
    (hact : e.activeTorrents = e.config.MaxConcurrentTorrents)
    (hB : e.getTorrent idB = .ok (kB, tB)) (hBs : tB.Started = false)
    (hstop : (e.StopTorrent idA).2 = .ok) :
    ((e.StopTorrent idA).1.StartTorrent idB).2 = .ok := by
  obtain ⟨hB1, hB2⟩ := getTorrent_lookup e idB kB tB hB
  unfold Engine.StopTorrent at hstop ⊢
  cases hA : e.getTorrent idA with
  | error o =>
    simp only [hA] at hstop
    exact absurd (hstop ▸ hA) (getTorrent_error_ne_ok e idA)
  | ok r =>
    obtain ⟨kA, tA⟩ := r
    obtain ⟨hA1, hA2⟩ := getTorrent_lookup e idA kA tA hA
    simp only [hA] at hstop ⊢
    cases hAs : tA.Started with
    | false => simp [hAs] at hstop
    | true =>
      simp only [hAs, Bool.not_true, Bool.false_eq_true, if_false]
      have hne : kB ≠ kA := by
        intro hk
        rw [hk, hA2] at hB2
        simp only [Option.some.injEq] at hB2
        rw [hB2] at hAs
        rw [hAs] at hBs
        exact Bool.noConfusion hBs
      have hl : tsLookup (tsStore e.ts kA
          { tA with Started := false, Files := setFilesStarted tA.Files false }) kB =
          some tB := by
        rw [tsLookup_tsStore, if_neg hne, hB2]
      simp [Engine.StartTorrent, Engine.getOpenTorrent, Engine.getTorrent, hB1, hl, hBs,
        hmem, hact]

/-! ### The concurrency ceiling -/

/-- C2: with `MaxConcurrentTorrents = N > 0`, no memory ceiling and `N` active
torrents, `StartTorrent` on an existing session that is not started returns the
concurrency-limit error and leaves the engine as it was; and once `StopTorrent`
has returned nil on some session, `StartTorrent` on the waiting session returns
nil. -/
theorem startTorrent_concurrency_ceiling (e : Engine) (N : Int) (idA idB kB : String)
    (tB : Torrent) (hN : 0 < N) (hmax : e.config.MaxConcurrentTorrents = N)
    (hmem : e.config.MaxMemoryUsage = 0) (hact : e.activeTorrents = N)
    (hB : e.getTorrent idB = .ok (kB, tB)) (hBs : tB.Started = false) :
    e.StartTorrent idB = (e, .error (.concurrencyLimit N)) ∧
      ((e.StopTorrent idA).2 = .ok → ((e.StopTorrent idA).1.StartTorrent idB).2 = .ok) := by
  subst hmax
  exact ⟨start_at_ceiling e idB kB tB hN hact hB hBs,
    start_after_stop e idA idB kB tB hmem hact hB hBs⟩

/-- C2, the scenario of the specification: one slot, no memory ceiling.
`Start(A)` returns nil; from there `Start(B)` is refused with the
concurrency-limit error, `Stop(A)` returns nil and brings the budget back to 0,
and `Start(B)` then returns nil. -/
theorem startTorrent_concurrency_ceiling_witness :
    (oneSlotEngine.StartTorrent hashA).2 = .ok ∧
    (0 : Int) < 1 ∧
    (oneSlotEngine.StartTorrent hashA).1.config.MaxConcurrentTorrents = 1 ∧
    (oneSlotEngine.StartTorrent hashA).1.config.MaxMemoryUsage = 0 ∧
    (oneSlotEngine.StartTorrent hashA).1.activeTorrents = 1 ∧
    (oneSlotEngine.StartTorrent hashA).1.getTorrent hashB =
      .ok (hashB, { InfoHash := hashB, Size := 2000 }) ∧
    ((oneSlotEngine.StartTorrent hashA).1.StopTorrent hashA).2 = .ok ∧
    ((oneSlotEngine.StartTorrent hashA).1.StopTorrent hashA).1.memoryMonitor.GetMemoryUsage
      = 0 ∧
    (oneSlotEngine.StartTorrent hashA).1.StartTorrent hashB =
      ((oneSlotEngine.StartTorrent hashA).1, .error (.concurrencyLimit 1)) ∧
    (((oneSlotEngine.StartTorrent hashA).1.StopTorrent hashA).1.StartTorrent hashB).2 = .ok :=
  have w := startTorrent_concurrency_ceiling (oneSlotEngine.StartTorrent hashA).1 1 hashA
    hashB hashB { InfoHash := hashB, Size := 2000 } (by decide) (by decide) (by decide)
    (by decide) (by decide) (by decide)
  ⟨by decide, by decide, by decide, by decide, by decide, by decide, by decide, by decide,
    w.1, w.2 (by decide)⟩

/-! ### Stopping a stopped session -/

/-- C3: `StopTorrent` on a session whose `Started` flag is false returns the
"Already stopped" error and returns the engine unchanged: the counter, the
budget and every session and file are as they were. -/
theorem stopTorrent_already_stopped (e : Engine) (infohash ih : String) (t : Torrent)
    (h : e.getTorrent infohash = .ok (ih, t)) (hs : t.Started = false) :
    e.StopTorrent infohash = (e, .error .alreadyStopped) := by
  simp [Engine.StopTorrent, h, hs]

/-- C3 at the sample engine: session B is stopped. -/
theorem stopTorrent_already_stopped_witness :
    oneSlotEngine.getTorrent hashB = .ok (hashB, { InfoHash := hashB, Size := 2000 }) ∧
    ({ InfoHash := hashB, Size := 2000 } : Torrent).Started = false ∧
    oneSlotEngine.StopTorrent hashB = (oneSlotEngine, .error .alreadyStopped) :=
  ⟨by decide, rfl,
    stopTorrent_already_stopped oneSlotEngine hashB hashB { InfoHash := hashB, Size := 2000 }
      (by decide) rfl⟩

/-! ### The error log -/

/-- C4: after any run of `addError` calls on a session whose log was empty, the
log has at most 10 entries, namely the entries of the last `min n 10` calls in
the order of the calls; and when the log holds 10 entries a further `addError`
drops the first entry and appends the new one last. -/
theorem addErrors_keeps_last_ten (t : Torrent) (calls : List (Time × String)) (now : Time)
    (msg : String) (h : t.Errors = []) :
    (t.addErrors calls).Errors.length ≤ 10 ∧
    (t.addErrors calls).Errors.length = min calls.length 10 ∧
    (t.addErrors calls).Errors = (calls.map logEntry).drop (calls.length - 10) ∧
    ((t.addErrors calls).Errors.length = 10 →
      ((t.addErrors calls).addError now msg).Errors =
        (t.addErrors calls).Errors.drop 1 ++ [logEntry (now, msg)]) := by
  have hE := addErrors_errors t calls h
  have hlen : (t.addErrors calls).Errors.length = min calls.length 10 := by
    rw [hE, List.length_drop, List.length_map]
    omega
  refine ⟨by omega, hlen, hE, ?_⟩
  intro h10
  rw [addError_errors, if_pos (by omega)]

/-- C4 on eleven calls: the first message is gone and messages 2 to 11 remain in
order. -/
theorem addErrors_keeps_last_ten_witness :
    ({ InfoHash := hashA } : Torrent).Errors = [] ∧
    (({ InfoHash := hashA } : Torrent).addErrors elevenCalls).Errors =
      [⟨2, "e2"⟩, ⟨3, "e3"⟩, ⟨4, "e4"⟩, ⟨5, "e5"⟩, ⟨6, "e6"⟩, ⟨7, "e7"⟩, ⟨8, "e8"⟩,
       ⟨9, "e9"⟩, ⟨10, "e10"⟩, ⟨11, "e11"⟩] :=
  ⟨rfl, (addErrors_keeps_last_ten { InfoHash := hashA } elevenCalls 12 "e12" rfl).2.2.1⟩

/-! ### The memory monitor -/

/-- C6, as stated, fails: two `AddMemoryUsage` calls with non-negative amounts
carry a fresh monitor past the largest `int64`, and the usage read back is
`-2^63`. -/
theorem memoryMonitor_add_wraps_negative :
    (∀ op ∈ [MemOp.add maxInt64, MemOp.add 1], 0 ≤ op.amount ∧ op.amount ≤ maxInt64) ∧
    (New.memoryMonitor.run [MemOp.add maxInt64, MemOp.add 1]).GetMemoryUsage = minInt64 ∧
    (New.memoryMonitor.run [MemOp.add maxInt64, MemOp.add 1]).GetMemoryUsage < 0 := by
  decide

/-- C6, amended: from a fresh monitor, after any run of `AddMemoryUsage` and
`ReleaseMemory` calls with non-negative amounts in which no addition carries the
usage past the largest `int64`, the usage is not negative; and `ReleaseMemory b`
on a usage `u ≥ 0` leaves `max 0 (u - b)`. -/
theorem memoryMonitor_usage_nonneg (ops : List MemOp) (u b : Int)
    (h : New.memoryMonitor.inRange ops = true)
    (hu : 0 ≤ u) (hu' : u ≤ maxInt64) (hb : 0 ≤ b) (hb' : b ≤ maxInt64) :
    0 ≤ (New.memoryMonitor.run ops).GetMemoryUsage ∧
    ((⟨u⟩ : MemoryMonitor).ReleaseMemory b).GetMemoryUsage = max 0 (u - b) :=
  ⟨(run_usage_fits ops New.memoryMonitor (by decide) (by decide) h).1,
    release_eq_max u b hu hu' hb hb'⟩

/-- C6, amended, on a run that releases more than is held. -/
theorem memoryMonitor_usage_nonneg_witness :
    New.memoryMonitor.inRange [.add 100, .release 30, .release 500, .add 7] = true ∧
    (0 : Int) ≤ 100 ∧ (100 : Int) ≤ maxInt64 ∧ (0 : Int) ≤ 130 ∧ (130 : Int) ≤ maxInt64 ∧
    (0 ≤ (New.memoryMonitor.run [.add 100, .release 30, .release 500, .add 7]).GetMemoryUsage ∧
      ((⟨100⟩ : MemoryMonitor).ReleaseMemory 130).GetMemoryUsage = max 0 (100 - 130)) :=
  ⟨by decide, by decide, by decide, by decide, by decide,
    memoryMonitor_usage_nonneg [.add 100, .release 30, .release 500, .add 7] 100 130
      (by decide) (by decide) (by decide) (by decide) (by decide)⟩

/-! ### Admission and the memory estimate -/

theorem estimatedMemory_eq (t : Torrent) (h0 : 0 ≤ t.Size) (h1 : t.Size ≤ maxInt64) :
    estimatedMemory t = t.Size / 100 * 2 := by
  unfold estimatedMemory
  rw [Int.tdiv_eq_ediv h0 (by decide)]
  apply wrapInt64_of_fits
  · unfold minInt64; omega
  · unfold maxInt64 at *; omega

theorem startTorrent_unfold (e : Engine) (infohash ih : String) (t : Torrent)
    (h : e.getTorrent infohash = .ok (ih, t)) (hs : t.Started = false) :
    e.StartTorrent infohash =
      if 0 < e.config.MaxConcurrentTorrents ∧
          e.config.MaxConcurrentTorrents ≤ e.activeTorrents then
        (e, .error (.concurrencyLimit e.config.MaxConcurrentTorrents))
      else if 0 < e.config.MaxMemoryUsage ∧ e.config.MaxMemoryUsage ≤
          wrapInt64 (e.memoryMonitor.GetMemoryUsage + estimatedMemory t) then
        (e, .error (.memoryLimit e.memoryMonitor.GetMemoryUsage))
      else
        ({ e with
            ts := tsStore e.ts ih
              { t with Started := true, Files := setFilesStarted t.Files true }
            activeTorrents := e.activeTorrents + 1
            memoryMonitor := e.memoryMonitor.AddMemoryUsage (estimatedMemory t) }, .ok) := by
  simp [Engine.StartTorrent, Engine.getOpenTorrent, h, hs]

theorem mem_setFilesStarted (files : List (Option File)) (b : Bool) (g : File)
    (hg : some g ∈ setFilesStarted files b) : g.Started = b := by
  unfold setFilesStarted at hg
  rw [List.mem_map] at hg
  obtain ⟨f, -, hf⟩ := hg
  cases f with
  | none => simp at hf
  | some f0 =>
    simp only [Option.map_some', Option.some.injEq] at hf
    rw [← hf]

/-- C5, as stated, fails: with a ceiling of 3 bytes, no usage and a session of
150 bytes, `usage + totalSize * 2 / 100 = 3` reaches the ceiling, yet
`StartTorrent` returns nil: the code's estimate is `150 / 100 * 2 = 2`. -/
theorem startTorrent_estimate_divides_first :
    ceilingEngine.getTorrent hashA = .ok (hashA, { InfoHash := hashA, Size := 150 }) ∧
    0 < ceilingEngine.config.MaxMemoryUsage ∧
    ceilingEngine.config.MaxMemoryUsage ≤
      ceilingEngine.memoryMonitor.GetMemoryUsage + 150 * 2 / 100 ∧
    (ceilingEngine.StartTorrent hashA).2 = .ok := by
  decide

/-- C5, amended: for an existing session that is not started and passes the
concurrency check, with a size and a usage in the non-negative `int64` range
whose sum with the estimate does not overflow, `StartTorrent` returns the
memory-limit error exactly when `MaxMemoryUsage > 0` and
`GetMemoryUsage() + estimate >= MaxMemoryUsage`, where the estimate is
`totalSize / 100 * 2` (the integer division comes first); otherwise it returns
nil, in particular whenever `MaxMemoryUsage = 0`. -/
theorem startTorrent_memory_rule (e : Engine) (infohash ih : String) (t : Torrent)
    (h : e.getTorrent infohash = .ok (ih, t)) (hs : t.Started = false)
    (hc : ¬ (0 < e.config.MaxConcurrentTorrents ∧
      e.config.MaxConcurrentTorrents ≤ e.activeTorrents))
    (hS0 : 0 ≤ t.Size) (hS1 : t.Size ≤ maxInt64) (hu : 0 ≤ e.memoryMonitor.GetMemoryUsage)
    (hsum : e.memoryMonitor.GetMemoryUsage + t.Size / 100 * 2 ≤ maxInt64) :
    ((e.StartTorrent infohash).2 = .error (.memoryLimit e.memoryMonitor.GetMemoryUsage) ↔
      (0 < e.config.MaxMemoryUsage ∧
        e.config.MaxMemoryUsage ≤ e.memoryMonitor.GetMemoryUsage + t.Size / 100 * 2)) ∧
    (¬ (0 < e.config.MaxMemoryUsage ∧
        e.config.MaxMemoryUsage ≤ e.memoryMonitor.GetMemoryUsage + t.Size / 100 * 2) →
      (e.StartTorrent infohash).2 = .ok) ∧
    (e.config.MaxMemoryUsage = 0 → (e.StartTorrent infohash).2 = .ok) := by
  have hest := estimatedMemory_eq t hS0 hS1
  have hw : wrapInt64 (e.memoryMonitor.GetMemoryUsage + t.Size / 100 * 2) =
      e.memoryMonitor.GetMemoryUsage + t.Size / 100 * 2 :=
    wrapInt64_of_fits _ (by unfold minInt64; omega) hsum
  rw [startTorrent_unfold e infohash ih t h hs, if_neg hc, hest, hw]
  by_cases hm : 0 < e.config.MaxMemoryUsage ∧
      e.config.MaxMemoryUsage ≤ e.memoryMonitor.GetMemoryUsage + t.Size / 100 * 2
  · rw [if_pos hm]
    refine ⟨by simp [hm], fun hn => absurd hm hn, fun h0 => ?_⟩
    omega
  · rw [if_neg hm]
    refine ⟨by simp [hm], fun _ => rfl, fun _ => rfl⟩

/-- C5, amended, at a ceiling of 2 bytes: the estimate `150 / 100 * 2 = 2`
reaches it and the start is refused. -/
theorem startTorrent_memory_rule_witness :
    tightEngine.getTorrent hashA = .ok (hashA, { InfoHash := hashA, Size := 150 }) ∧
    ({ InfoHash := hashA, Size := 150 } : Torrent).Started = false ∧
    ¬ (0 < tightEngine.config.MaxConcurrentTorrents ∧
      tightEngine.config.MaxConcurrentTorrents ≤ tightEngine.activeTorrents) ∧
    (0 : Int) ≤ 150 ∧ (150 : Int) ≤ maxInt64 ∧ 0 ≤ tightEngine.memoryMonitor.GetMemoryUsage ∧
    tightEngine.memoryMonitor.GetMemoryUsage + 150 / 100 * 2 ≤ maxInt64 ∧
    (tightEngine.StartTorrent hashA).2 = .error (.memoryLimit 0) :=
  ⟨by decide, rfl, by decide, by decide, by decide, by decide, by decide,
    (startTorrent_memory_rule tightEngine hashA hashA { InfoHash := hashA, Size := 150 }
      (by decide) rfl (by decide) (by decide) (by decide) (by decide) (by decide)).1.mpr
      (by decide)⟩

/-! ### The postcondition of a successful start -/

set_option maxRecDepth 100000 in
/-- C7, as stated, fails: after fifty started sessions of `2^63 - 1` bytes the
budget is `2^63 - 8`; `StartTorrent` of a session of 400 bytes (estimate 8)
returns nil and the budget read back is `-2^63`, not the budget grown by 8. -/
theorem startTorrent_budget_wraps :
    crowdedEngine.activeTorrents = 50 ∧
    crowdedEngine.memoryMonitor.GetMemoryUsage = 2 ^ 63 - 8 ∧
    (crowdedEngine.StartTorrent hashA).2 = .ok ∧
    (crowdedEngine.StartTorrent hashA).1.memoryMonitor.GetMemoryUsage = minInt64 ∧
    (crowdedEngine.StartTorrent hashA).1.memoryMonitor.GetMemoryUsage ≠
      crowdedEngine.memoryMonitor.GetMemoryUsage + 8 := by
  decide

/-- C7, amended: when `StartTorrent` returns nil on a session whose size and the
current usage are in the non-negative `int64` range and whose estimate
`Size / 100 * 2` added to the usage does not overflow, then afterwards the
session is the old record with `Started` set and every file started, the
counter is one more, the budget has grown by exactly the estimate, every
non-nil file of the session has `Started = true`, and the record under any other
key and the configuration are unchanged. -/
theorem startTorrent_postcondition (e : Engine) (infohash ih k : String) (t : Torrent)
    (g : File) (h : e.getTorrent infohash = .ok (ih, t))
    (hok : (e.StartTorrent infohash).2 = .ok)
    (hS0 : 0 ≤ t.Size) (hS1 : t.Size ≤ maxInt64) (hu : 0 ≤ e.memoryMonitor.GetMemoryUsage)
    (hsum : e.memoryMonitor.GetMemoryUsage + t.Size / 100 * 2 ≤ maxInt64) :
    tsLookup (e.StartTorrent infohash).1.ts ih =
      some { t with Started := true, Files := setFilesStarted t.Files true } ∧
    (e.StartTorrent infohash).1.activeTorrents = e.activeTorrents + 1 ∧
    (e.StartTorrent infohash).1.memoryMonitor.GetMemoryUsage =
      e.memoryMonitor.GetMemoryUsage + t.Size / 100 * 2 ∧
    (some g ∈ setFilesStarted t.Files true → g.Started = true) ∧
    (k ≠ ih → tsLookup (e.StartTorrent infohash).1.ts k = tsLookup e.ts k) ∧
    (e.StartTorrent infohash).1.config = e.config := by
  have hest := estimatedMemory_eq t hS0 hS1
  have hw : wrapInt64 (e.memoryMonitor.GetMemoryUsage + t.Size / 100 * 2) =
      e.memoryMonitor.GetMemoryUsage + t.Size / 100 * 2 :=
    wrapInt64_of_fits _ (by unfold minInt64; omega) hsum
  cases hs : t.Started with
  | true =>
    simp [Engine.StartTorrent, Engine.getOpenTorrent, h, hs] at hok
  | false =>
    rw [startTorrent_unfold e infohash ih t h hs] at hok ⊢
    split at hok
    · simp at hok
    · split at hok
      · simp at hok
      · rename_i h1 h2
        rw [if_neg h1, if_neg h2]
        refine ⟨?_, rfl, ?_, mem_setFilesStarted _ _ _, ?_, rfl⟩
        · simp [tsLookup_tsStore]
        · simp only [MemoryMonitor.AddMemoryUsage, MemoryMonitor.GetMemoryUsage, hest] at hw ⊢
          exact hw
        · intro hk
          simp [tsLookup_tsStore, hk]

/-- C7, amended, on the sample engine: starting session A (1000 bytes, one
file) reserves 20 bytes and leaves session B alone. -/
theorem startTorrent_postcondition_witness :
    oneSlotEngine.getTorrent hashA =
      .ok (hashA, { InfoHash := hashA, Size := 1000, Files := [some { Path := "a.bin" }] }) ∧
    (oneSlotEngine.StartTorrent hashA).2 = .ok ∧
    (0 : Int) ≤ 1000 ∧ (1000 : Int) ≤ maxInt64 ∧
    0 ≤ oneSlotEngine.memoryMonitor.GetMemoryUsage ∧
    oneSlotEngine.memoryMonitor.GetMemoryUsage + 1000 / 100 * 2 ≤ maxInt64 ∧
    tsLookup (oneSlotEngine.StartTorrent hashA).1.ts hashA =
      some { InfoHash := hashA, Size := 1000, Started := true,
             Files := [some { Path := "a.bin", Started := true }] } ∧
    (oneSlotEngine.StartTorrent hashA).1.activeTorrents = 0 + 1 ∧
    (oneSlotEngine.StartTorrent hashA).1.memoryMonitor.GetMemoryUsage = 0 + 1000 / 100 * 2 ∧
    hashB ≠ hashA ∧
    tsLookup (oneSlotEngine.StartTorrent hashA).1.ts hashB = tsLookup oneSlotEngine.ts hashB :=
  have w := startTorrent_postcondition oneSlotEngine hashA hashA hashB
    { InfoHash := hashA, Size := 1000, Files := [some { Path := "a.bin" }] }
    { Path := "a.bin", Started := true }
    (by decide) (by decide) (by decide) (by decide) (by decide) (by decide)
  ⟨by decide, by decide, by decide, by decide, by decide, by decide, w.1, w.2.1, w.2.2.1,
    by decide, w.2.2.2.2.1 (by decide)⟩

/-! ### Refreshing a session -/

theorem mergeFiles_isSome (tfiles : List BackendFile) (files : List (Option File))
    (h : tfiles.length ≤ files.length) : (mergeFiles files tfiles).isSome = true := by
  induction tfiles generalizing files with
  | nil => cases files <;> simp [mergeFiles]
  | cons f tfiles ih =>
    cases files with
    | nil => simp at h
    | cons file files =>
      simp only [List.length_cons, Nat.add_le_add_iff_right] at h
      have := ih files h
      simp only [mergeFiles, Option.isSome_map']
      exact this

theorem allocFiles_length (torrent : Torrent) (t : BackendTorrent)
    (h : torrent.Files = [] ∨ t.Files.length ≤ torrent.Files.length) :
    t.Files.length ≤ (torrent.allocFiles t).Files.length := by
  unfold Torrent.allocFiles
  simp only
  split
  · simp
  · rename_i hn
    rcases h with h | h
    · have : t.Files.length = 0 := by
        by_contra h0
        exact hn ⟨by omega, h⟩
      omega
    · exact h

theorem updateLoaded_isSome (torrent : Torrent) (t : BackendTorrent) (clock : Clock)
    (h : torrent.Files = [] ∨ t.Files.length ≤ torrent.Files.length) :
    (torrent.updateLoaded t clock).isSome = true := by
  have hm := mergeFiles_isSome t.Files (torrent.allocFiles t).Files
    (allocFiles_length torrent t h)
  unfold Torrent.updateLoaded
  simp only
  cases hq : mergeFiles (torrent.allocFiles t).Files t.Files with
  | none => rw [hq] at hm; simp at hm
  | some files => simp

theorem update_of_info (torrent : Torrent) (t : BackendTorrent) (clock : Clock)
    (h : t.HasInfo = true) :
    torrent.Update t clock =
      ({ torrent with
          Name := t.Name
          Loaded := true
          PeersConnected := t.ActivePeers
          PeersTotal := t.TotalPeers }).updateLoaded t clock := by
  unfold Torrent.Update
  simp [h]

theorem update_of_no_info (torrent : Torrent) (t : BackendTorrent) (clock : Clock)
    (h : t.HasInfo = false) :
    torrent.Update t clock =
      some { torrent with
        Name := t.Name
        Loaded := false
        PeersConnected := t.ActivePeers
        PeersTotal := t.TotalPeers
        MetadataPercent :=
          if torrent.MetadataLoaded then torrent.MetadataPercent
          else if 0 < t.ActivePeers then Flt.ofInt binary32 50 else Flt.ofInt binary32 1 } := by
  unfold Torrent.Update
  cases hm : torrent.MetadataLoaded <;> by_cases hp : 0 < t.ActivePeers <;> simp [h, hm, hp]

theorem update_isSome (torrent : Torrent) (t : BackendTorrent) (clock : Clock)
    (h : torrent.Files = [] ∨ t.Files.length ≤ torrent.Files.length) :
    (torrent.Update t clock).isSome = true := by
  cases hi : t.HasInfo with
  | true =>
    rw [update_of_info torrent t clock hi]
    exact updateLoaded_isSome _ t clock h
  | false =>
    rw [update_of_no_info torrent t clock hi]
    rfl

theorem updateProgress_metadata (torrent : Torrent) (t : BackendTorrent) (clock : Clock)
    (p : Int) :
    (torrent.updateProgress t clock p).Loaded = torrent.Loaded ∧
    (torrent.updateProgress t clock p).MetadataLoaded = torrent.MetadataLoaded ∧
    (torrent.updateProgress t clock p).MetadataPercent = torrent.MetadataPercent := by
  unfold Torrent.updateProgress
  simp only
  split_ifs <;> exact ⟨rfl, rfl, rfl⟩

theorem updateLoaded_metadata (torrent t' : Torrent) (t : BackendTorrent) (clock : Clock)
    (h : torrent.updateLoaded t clock = some t') :
    t'.Loaded = torrent.Loaded ∧
    t'.MetadataLoaded = torrent.MetadataLoaded ∧
    t'.MetadataPercent = torrent.MetadataPercent := by
  unfold Torrent.updateLoaded at h
  simp only at h
  cases hq : mergeFiles (torrent.allocFiles t).Files t.Files with
  | none => rw [hq] at h; simp at h
  | some files =>
    rw [hq] at h
    simp only [Option.some.injEq] at h
    rw [← h]
    have := updateProgress_metadata { torrent.allocFiles t with Files := files } t clock
      torrent.Downloaded
    have ha : (torrent.allocFiles t).Loaded = torrent.Loaded ∧
        (torrent.allocFiles t).MetadataLoaded = torrent.MetadataLoaded ∧
        (torrent.allocFiles t).MetadataPercent = torrent.MetadataPercent := by
      unfold Torrent.allocFiles
      simp only
      split <;> exact ⟨rfl, rfl, rfl⟩
    exact ⟨this.1.trans ha.1, this.2.1.trans ha.2.1, this.2.2.trans ha.2.2⟩

/-- C9, what the code does when the metadata is available: `Update` returns
(the file slice having room for the files listed) with `Loaded` set; as it sets
`Loaded` before it tests `!torrent.Loaded && !torrent.MetadataLoaded`, the
assignments `MetadataLoaded = true`, `MetadataPercent = 100` are not reached and
both fields keep the values they had before the call. -/
theorem update_metadata_frozen (torrent : Torrent) (t : BackendTorrent) (clock : Clock)
    (hi : t.HasInfo = true)
    (hf : torrent.Files = [] ∨ t.Files.length ≤ torrent.Files.length) :
    (torrent.Update t clock).map
        (fun t' => (t'.Loaded, t'.MetadataLoaded, t'.MetadataPercent)) =
      some (true, torrent.MetadataLoaded, torrent.MetadataPercent) := by
  have hs := update_isSome torrent t clock hf
  cases hu : torrent.Update t clock with
  | none => rw [hu] at hs; simp at hs
  | some t' =>
    rw [update_of_info torrent t clock hi] at hu
    have h := updateLoaded_metadata _ t' t clock hu
    simp only [Option.map_some', Option.some.injEq, Prod.mk.injEq]
    exact h

/-- C9 on a new session whose metadata is available at its first `Update`: the
session is `Loaded`, yet `MetadataLoaded` is false and `MetadataPercent` is 0. -/
theorem update_metadata_frozen_witness :
    resolvedC.HasInfo = true ∧
    (({ InfoHash := hashC } : Torrent).Files = [] ∨
      resolvedC.Files.length ≤ ({ InfoHash := hashC } : Torrent).Files.length) ∧
    (({ InfoHash := hashC } : Torrent).Update resolvedC clock0).map
        (fun t' => (t'.Loaded, t'.MetadataLoaded, t'.MetadataPercent)) =
      some (true, false, Flt.finite false 0 0) :=
  ⟨rfl, Or.inl rfl, update_metadata_frozen { InfoHash := hashC } resolvedC clock0 rfl
    (Or.inl rfl)⟩

/-! ### Adding a session -/

theorem upsertTorrent_isSome (e : Engine) (tt : BackendTorrent) (clock : Clock)
    (h : e.filesAligned tt = true) :
    ∃ e' t', e.upsertTorrent tt clock = some (e', t') ∧
      e'.ts = tsStore e.ts tt.InfoHash t' ∧ e'.config = e.config ∧
      e'.activeTorrents = e.activeTorrents ∧ e'.memoryMonitor = e.memoryMonitor := by
  unfold Engine.upsertTorrent
  simp only
  have hfit : ((tsLookup e.ts tt.InfoHash).getD { InfoHash := tt.InfoHash }).Files = [] ∨
      tt.Files.length ≤
        ((tsLookup e.ts tt.InfoHash).getD { InfoHash := tt.InfoHash }).Files.length := by
    unfold Engine.filesAligned at h
    cases hl : tsLookup e.ts tt.InfoHash with
    | none => left; rfl
    | some t =>
      simp only [hl, Bool.or_eq_true, decide_eq_true_eq] at h
      simpa using h
  have hu := update_isSome _ tt clock hfit
  cases hq : ((tsLookup e.ts tt.InfoHash).getD { InfoHash := tt.InfoHash }).Update tt clock with
  | none => rw [hq] at hu; simp at hu
  | some t' => exact ⟨_, t', rfl, rfl, rfl, rfl, rfl⟩

theorem newTorrent_registers (e : Engine) (tt : BackendTorrent) (clock : Clock)
    (h : e.filesAligned tt = true) :
    (e.newTorrent tt clock).2 = .ok ∧
    (tsLookup (e.newTorrent tt clock).1.ts tt.InfoHash).isSome = true := by
  obtain ⟨e', t', h1, h2, -⟩ := upsertTorrent_isSome e tt clock h
  unfold Engine.newTorrent
  rw [h1]
  simp [h2, tsLookup_tsStore]

/-- C8, as stated, fails: on an engine whose single slot is taken, the client
accepts the magnet, yet `NewMagnet` returns the concurrency-limit error and
registers nothing. -/
theorem newMagnet_checks_ceilings :
    acceptingClient.AddMagnet magnetC = .ok { InfoHash := hashC, Name := magnetC } ∧
    fullEngine.NewMagnet acceptingClient magnetC clock0 =
      (fullEngine, .error (.concurrencyLimit 1)) ∧
    tsLookup (fullEngine.NewMagnet acceptingClient magnetC clock0).1.ts hashC = none := by
  decide

/-- C8, amended: when the client accepts the descriptor (and the session's file
slice has room for the files listed), `NewTorrent` returns nil and the session
is in the table whatever the counter, the usage and the ceilings are.
`NewMagnet` first checks the concurrency ceiling, then the memory ceiling
against the current usage (without an estimate); when either denies it returns
that error and leaves the engine as it was; when both pass and the client
accepts the magnet it returns nil and the session is in the table. -/
theorem add_admission (e : Engine) (client : Client) (uri : String) (spec : TorrentSpec)
    (ttM ttS : BackendTorrent) (clock : Clock)
    (hM : client.AddMagnet uri = .ok ttM) (hS : client.AddTorrentSpec spec = .ok ttS)
    (hfM : e.filesAligned ttM = true) (hfS : e.filesAligned ttS = true) :
    ((e.NewTorrent client spec clock).2 = .ok ∧
      (tsLookup (e.NewTorrent client spec clock).1.ts ttS.InfoHash).isSome = true) ∧
    ((0 < e.config.MaxConcurrentTorrents ∧
        e.config.MaxConcurrentTorrents ≤ e.activeTorrents) →
      e.NewMagnet client uri clock =
        (e, .error (.concurrencyLimit e.config.MaxConcurrentTorrents))) ∧
    (¬ (0 < e.config.MaxConcurrentTorrents ∧
        e.config.MaxConcurrentTorrents ≤ e.activeTorrents) →
      (0 < e.config.MaxMemoryUsage ∧
        e.config.MaxMemoryUsage ≤ e.memoryMonitor.GetMemoryUsage) →
      e.NewMagnet client uri clock =
        (e, .error (.memoryLimit e.memoryMonitor.GetMemoryUsage))) ∧
    (¬ (0 < e.config.MaxConcurrentTorrents ∧
        e.config.MaxConcurrentTorrents ≤ e.activeTorrents) →
      ¬ (0 < e.config.MaxMemoryUsage ∧
        e.config.MaxMemoryUsage ≤ e.memoryMonitor.GetMemoryUsage) →
      (e.NewMagnet client uri clock).2 = .ok ∧
        (tsLookup (e.NewMagnet client uri clock).1.ts ttM.InfoHash).isSome = true) := by
  refine ⟨?_, ?_, ?_, ?_⟩
  · unfold Engine.NewTorrent
    rw [hS]
    exact newTorrent_registers e ttS clock hfS
  · intro hc
    unfold Engine.NewMagnet
    rw [if_pos hc]
  · intro hc hm
    unfold Engine.NewMagnet
    rw [if_neg hc, if_pos hm]
  · intro hc hm
    unfold Engine.NewMagnet
    rw [if_neg hc, if_neg hm, hM]
    exact newTorrent_registers e ttM clock hfM

set_option maxRecDepth 100000 in
/-- C8, amended, on the engine whose single slot is taken: `NewTorrent` of
session B's descriptor returns nil and B stays registered, `NewMagnet` is
refused. -/
theorem add_admission_witness :
    acceptingClient.AddMagnet magnetC = .ok { InfoHash := hashC, Name := magnetC } ∧
    acceptingClient.AddTorrentSpec ⟨hashB, "b"⟩ =
      .ok { InfoHash := hashB, Name := "b", HasInfo := true, Length := 5000,
            Files := [⟨"file", 5000, [false, false]⟩] } ∧
    fullEngine.filesAligned { InfoHash := hashC, Name := magnetC } = true ∧
    fullEngine.filesAligned
      { InfoHash := hashB, Name := "b", HasInfo := true, Length := 5000,
        Files := [⟨"file", 5000, [false, false]⟩] } = true ∧
    (fullEngine.NewTorrent acceptingClient ⟨hashB, "b"⟩ clock0).2 = .ok ∧
    (tsLookup (fullEngine.NewTorrent acceptingClient ⟨hashB, "b"⟩ clock0).1.ts hashB).isSome
      = true ∧
    fullEngine.NewMagnet acceptingClient magnetC clock0 =
      (fullEngine, .error (.concurrencyLimit fullEngine.config.MaxConcurrentTorrents)) :=
  have w := add_admission fullEngine acceptingClient magnetC ⟨hashB, "b"⟩
    { InfoHash := hashC, Name := magnetC }
    { InfoHash := hashB, Name := "b", HasInfo := true, Length := 5000,
      Files := [⟨"file", 5000, [false, false]⟩] } clock0 (by decide) (by decide) (by decide)
    (by decide)
  ⟨by decide, by decide, by decide, by decide, w.1.1, w.1.2, w.2.1 (by decide)⟩

/-! ### Reserve and release -/

set_option maxRecDepth 100000 in
/-- C1, the code at the failing input: session C is added by magnet and started
before its size is known, so nothing is reserved and the budget stays at the
100 bytes held for session B; a refresh then records its size of 1000 bytes,
and `StopTorrent` releases `1000 / 100 * 2 = 20` bytes that were never
reserved: the budget ends at 80, not at the 100 it had before the start. -/
theorem stopTorrent_releases_refreshed_estimate :
    magnetEngine.memoryMonitor.GetMemoryUsage = 100 ∧
    (magnetEngine.StartTorrent hashC).2 = .ok ∧
    (magnetEngine.StartTorrent hashC).1.memoryMonitor.GetMemoryUsage = 100 ∧
    ((magnetEngine.StartTorrent hashC).1.GetTorrents [(resolvedC, clock1)]).2 = .ok ∧
    (((magnetEngine.StartTorrent hashC).1.GetTorrents [(resolvedC, clock1)]).1.StopTorrent
      hashC).2 = .ok ∧
    (((magnetEngine.StartTorrent hashC).1.GetTorrents [(resolvedC, clock1)]).1.StopTorrent
      hashC).1.memoryMonitor.GetMemoryUsage = 80 := by
  decide

/-! ### Floating-point rounding -/

theorem bitLenAux_spec (fuel : Nat) :
    ∀ n, n ≤ fuel → 0 < n → 2 ^ (bitLenAux fuel n - 1) ≤ n ∧ n < 2 ^ bitLenAux fuel n ∧
      0 < bitLenAux fuel n := by
  induction fuel with
  | zero => intro n h0 hn; omega
  | succ fuel ih =>
    intro n hle hn
    have hne : n ≠ 0 := by omega
    simp only [bitLenAux, if_neg hne]
    by_cases h2 : n / 2 = 0
    · have h1 : n = 1 := by omega
      subst h1
      cases fuel <;> simp [bitLenAux]
    · have hpos : 0 < n / 2 := by omega
      obtain ⟨ha, hb, hc⟩ := ih (n / 2) (by omega) hpos
      refine ⟨?_, ?_, by omega⟩
      · have e : bitLenAux fuel (n / 2) + 1 - 1 = (bitLenAux fuel (n / 2) - 1) + 1 := by omega
        rw [e, pow_succ]
        omega
      · rw [pow_succ]
        omega

theorem bitLen_spec (n : Nat) (hn : 0 < n) :
    2 ^ (bitLen n - 1) ≤ n ∧ n < 2 ^ bitLen n ∧ 0 < bitLen n :=
  bitLenAux_spec n n (le_refl n) hn

theorem two_zpow_split (k : Int) :
    (2 : ℚ) ^ k = (2 : ℚ) ^ k.toNat / (2 : ℚ) ^ (-k).toNat := by
  rcases le_total 0 k with h | h
  · have h1 : (-k).toNat = 0 := by omega
    rw [h1, pow_zero, div_one]
    conv_lhs => rw [← Int.toNat_of_nonneg h]
    exact zpow_natCast 2 k.toNat
  · have h1 : k.toNat = 0 := by omega
    have h2 : k = -((-k).toNat : Int) := by omega
    rw [h1, pow_zero]
    conv_lhs => rw [h2]
    rw [zpow_neg, zpow_natCast, one_div]

theorem roundQuotNE_spec (n d : Nat) (hd : 0 < d) :
    |(roundQuotNE n d : ℚ) - (n : ℚ) / d| ≤ 1 / 2 := by
  have hdq : (0 : ℚ) < d := by exact_mod_cast hd
  have hdiv : (n : ℚ) = (n / d : Nat) * d + (n % d : Nat) := by
    have := Nat.div_add_mod n d
    have h2 : ((d * (n / d) + n % d : Nat) : ℚ) = n := by exact_mod_cast this
    push_cast at h2
    linarith
  have hmod : n % d < d := Nat.mod_lt n hd
  have hmodq : ((n % d : Nat) : ℚ) < d := by exact_mod_cast hmod
  have hmod0 : (0 : ℚ) ≤ ((n % d : Nat) : ℚ) := by positivity
  have key : (n : ℚ) / d = (n / d : Nat) + ((n % d : Nat) : ℚ) / d := by
    rw [hdiv]; field_simp
  rw [abs_le]
  unfold roundQuotNE
  simp only
  split_ifs with h1 h2 h3
  · have h1q : (2 : ℚ) * (n % d : Nat) < d := by exact_mod_cast h1
    rw [key]
    constructor
    · have : ((n % d : Nat) : ℚ) / d ≤ 1 / 2 := by
        rw [div_le_iff₀ hdq]; linarith
      linarith
    · have : 0 ≤ ((n % d : Nat) : ℚ) / d := by positivity
      linarith
  · have h2q : (d : ℚ) < 2 * (n % d : Nat) := by exact_mod_cast h2
    rw [key]
    push_cast
    constructor
    · have : ((n % d : Nat) : ℚ) / d ≤ 1 := by
        rw [div_le_iff₀ hdq]; linarith
      linarith
    · have : 1 / 2 ≤ ((n % d : Nat) : ℚ) / d := by
        rw [le_div_iff₀ hdq]; linarith
      linarith
  · have he : 2 * (n % d) = d := by omega
    have heq : (2 : ℚ) * (n % d : Nat) = d := by exact_mod_cast he
    rw [key]
    have : ((n % d : Nat) : ℚ) / d = 1 / 2 := by
      rw [div_eq_iff (ne_of_gt hdq)]; linarith
    rw [this]
    constructor <;> linarith
  · have he : 2 * (n % d) = d := by omega
    have heq : (2 : ℚ) * (n % d : Nat) = d := by exact_mod_cast he
    rw [key]
    have : ((n % d : Nat) : ℚ) / d = 1 / 2 := by
      rw [div_eq_iff (ne_of_gt hdq)]; linarith
    rw [this]
    push_cast
    constructor <;> linarith


theorem bitLen_zpow (n : Nat) (hn : 0 < n) :
    (2 : ℚ) ^ ((bitLen n : Int) - 1) ≤ n ∧ (n : ℚ) < (2 : ℚ) ^ (bitLen n : Int) := by
  obtain ⟨h1, h2, h3⟩ := bitLen_spec n hn
  have e : ((bitLen n : Int) - 1) = ((bitLen n - 1 : Nat) : Int) := by omega
  rw [e, zpow_natCast, zpow_natCast]
  constructor
  · exact_mod_cast h1
  · exact_mod_cast h2

theorem floorLog2_spec (num den : Nat) (hn : 0 < num) (hd : 0 < den) :
    (2 : ℚ) ^ (floorLog2 num den) ≤ (num : ℚ) / den ∧
    (num : ℚ) / den < (2 : ℚ) ^ (floorLog2 num den + 1) := by
  obtain ⟨hn1, hn2⟩ := bitLen_zpow num hn
  obtain ⟨hd1, hd2⟩ := bitLen_zpow den hd
  have hdq : (0 : ℚ) < den := by exact_mod_cast hd
  have hnq : (0 : ℚ) < num := by exact_mod_cast hn
  have two_pos : ∀ z : Int, (0 : ℚ) < (2 : ℚ) ^ z := fun z => zpow_pos (by norm_num) z
  unfold floorLog2
  simp only
  set k : Int := (bitLen num : Int) - (bitLen den : Int) with hk
  have htest : (num * 2 ^ (-k).toNat < den * 2 ^ k.toNat) ↔ (num : ℚ) / den < (2 : ℚ) ^ k := by
    rw [two_zpow_split k, div_lt_div_iff₀ hdq (by positivity)]
    constructor
    · intro h
      have : ((num * 2 ^ (-k).toNat : Nat) : ℚ) < ((den * 2 ^ k.toNat : Nat) : ℚ) := by
        exact_mod_cast h
      push_cast at this
      linarith
    · intro h
      have : ((num * 2 ^ (-k).toNat : Nat) : ℚ) < ((den * 2 ^ k.toNat : Nat) : ℚ) := by
        push_cast
        linarith
      exact_mod_cast this
  split_ifs with ht
  · refine ⟨?_, ?_⟩
    · have e : k - 1 = ((bitLen num : Int) - 1) - (bitLen den : Int) := by omega
      rw [e, zpow_sub₀ (by norm_num), div_le_div_iff₀ (two_pos _) hdq]
      calc (2 : ℚ) ^ ((bitLen num : Int) - 1) * den ≤ num * den := by
            exact mul_le_mul_of_nonneg_right hn1 hdq.le
        _ ≤ num * (2 : ℚ) ^ (bitLen den : Int) := by
            exact mul_le_mul_of_nonneg_left hd2.le hnq.le
    · have e : k - 1 + 1 = k := by omega
      rw [e]
      exact htest.mp ht
  · refine ⟨?_, ?_⟩
    · rw [htest] at ht
      exact not_lt.mp ht
    · have e : k + 1 = (bitLen num : Int) - ((bitLen den : Int) - 1) := by omega
      rw [e, zpow_sub₀ (by norm_num), div_lt_div_iff₀ hdq (two_pos _)]
      calc (num : ℚ) * (2 : ℚ) ^ ((bitLen den : Int) - 1) ≤ num * den := by
            exact mul_le_mul_of_nonneg_left hd1 hnq.le
        _ < (2 : ℚ) ^ (bitLen num : Int) * den := by
            exact mul_lt_mul_of_pos_right hn2 hdq


theorem round_normal (f : Fmt) (neg : Bool) (num den : Nat) (hn : 0 < num) (hd : 0 < den)
    (hp : 0 < f.prec) (hlo : f.qmin ≤ floorLog2 num den - (f.prec - 1))
    (hhi : floorLog2 num den < f.emax) :
    ∃ m q, Flt.round f neg num den = .finite neg m q ∧ 0 < m ∧
      |(m : ℚ) * (2 : ℚ) ^ q - (num : ℚ) / den| ≤ (num : ℚ) / den * (2 : ℚ) ^ (-(f.prec : Int)) := by
  obtain ⟨hx1, hx2⟩ := floorLog2_spec num den hn hd
  have hdq : (0 : ℚ) < den := by exact_mod_cast hd
  have hnq : (0 : ℚ) < num := by exact_mod_cast hn
  have two_pos : ∀ z : Int, (0 : ℚ) < (2 : ℚ) ^ z := fun z => zpow_pos (by norm_num) z
  set e0 := floorLog2 num den with he0
  set x : ℚ := (num : ℚ) / den with hx
  set q : Int := e0 - (f.prec - 1) with hq
  have hmax : max (e0 - ((f.prec : Int) - 1)) f.qmin = q := max_eq_left hlo
  set N : Nat := num * 2 ^ (-q).toNat with hN
  set D : Nat := den * 2 ^ q.toNat with hD
  have hDpos : 0 < D := by positivity
  have hND : (N : ℚ) / D = x / (2 : ℚ) ^ q := by
    rw [hN, hD, two_zpow_split q, hx]
    push_cast
    field_simp
  have hr := roundQuotNE_spec N D hDpos
  rw [hND] at hr
  set m := roundQuotNE N D with hm
  -- the scaled value lies in [2^(p-1), 2^p)
  have hpow : (2 : ℚ) ^ e0 = (2 : ℚ) ^ ((f.prec : Int) - 1) * (2 : ℚ) ^ q := by
    rw [← zpow_add₀ (by norm_num : (2 : ℚ) ≠ 0)]
    congr 1
    omega
  have hlow : (2 : ℚ) ^ ((f.prec : Int) - 1) ≤ x / (2 : ℚ) ^ q := by
    rw [le_div_iff₀ (two_pos q), ← hpow]
    exact hx1
  have hone : (1 : ℚ) ≤ (2 : ℚ) ^ ((f.prec : Int) - 1) := by
    have e : ((f.prec : Int) - 1) = ((f.prec - 1 : Nat) : Int) := by omega
    rw [e, zpow_natCast]
    exact one_le_pow₀ (by norm_num)
  have hmpos : 0 < m := by
    have h1 : (1 : ℚ) / 2 ≤ (m : ℚ) := by
      have := (abs_le.mp hr).1
      linarith
    have h2 : (0 : ℚ) < (m : ℚ) := by linarith
    exact_mod_cast h2
  have herr : |(m : ℚ) * (2 : ℚ) ^ q - x| ≤ x * (2 : ℚ) ^ (-(f.prec : Int)) := by
    have e1 : (m : ℚ) * (2 : ℚ) ^ q - x = ((m : ℚ) - x / (2 : ℚ) ^ q) * (2 : ℚ) ^ q := by
      field_simp
    rw [e1, abs_mul, abs_of_pos (two_pos q)]
    have e2 : (2 : ℚ) ^ e0 * (2 : ℚ) ^ (-(f.prec : Int)) = 1 / 2 * (2 : ℚ) ^ q := by
      rw [← zpow_add₀ (by norm_num : (2 : ℚ) ≠ 0)]
      have : e0 + -(f.prec : Int) = q + (-1) := by omega
      rw [this, zpow_add₀ (by norm_num : (2 : ℚ) ≠ 0)]
      norm_num
      ring
    calc |(m : ℚ) - x / (2 : ℚ) ^ q| * (2 : ℚ) ^ q ≤ 1 / 2 * (2 : ℚ) ^ q :=
          mul_le_mul_of_nonneg_right hr (two_pos q).le
      _ = (2 : ℚ) ^ e0 * (2 : ℚ) ^ (-(f.prec : Int)) := e2.symm
      _ ≤ x * (2 : ℚ) ^ (-(f.prec : Int)) :=
          mul_le_mul_of_nonneg_right hx1 (two_pos _).le
  have hmne : m ≠ 0 := by omega
  have hnum : num ≠ 0 := by omega
  unfold Flt.round
  rw [if_neg hnum]
  simp only [hmax]
  rw [← hN, ← hD, ← hm, if_neg hmne]
  by_cases hc : m = 2 ^ f.prec
  · simp only [if_pos hc]
    have hov : ¬ (f.emax < q + 1 + ((f.prec : Int) - 1)) := by omega
    rw [if_neg hov]
    refine ⟨2 ^ (f.prec - 1), q + 1, rfl, by positivity, ?_⟩
    have e3 : ((2 ^ (f.prec - 1) : Nat) : ℚ) * (2 : ℚ) ^ (q + 1) = (m : ℚ) * (2 : ℚ) ^ q := by
      rw [hc]
      push_cast
      rw [zpow_add₀ (by norm_num : (2 : ℚ) ≠ 0), zpow_one]
      have : (2 : ℚ) ^ f.prec = (2 : ℚ) ^ (f.prec - 1) * 2 := by
        rw [← pow_succ]
        congr 1
        omega
      rw [this]
      ring
    rw [e3]
    exact herr
  · simp only [if_neg hc]
    have hov : ¬ (f.emax < q + ((f.prec : Int) - 1)) := by omega
    rw [if_neg hov]
    exact ⟨m, q, rfl, hmpos, herr⟩

theorem floorLog2_ge_of (num den : Nat) (hn : 0 < num) (hd : 0 < den) (a : Int)
    (h : (2 : ℚ) ^ a ≤ (num : ℚ) / den) : a ≤ floorLog2 num den := by
  obtain ⟨-, h2⟩ := floorLog2_spec num den hn hd
  have : (2 : ℚ) ^ a < (2 : ℚ) ^ (floorLog2 num den + 1) := lt_of_le_of_lt h h2
  have := (zpow_lt_zpow_iff_right₀ (by norm_num : (1 : ℚ) < 2)).mp this
  omega

theorem floorLog2_lt_of (num den : Nat) (hn : 0 < num) (hd : 0 < den) (b : Int)
    (h : (num : ℚ) / den < (2 : ℚ) ^ b) : floorLog2 num den < b := by
  obtain ⟨h1, -⟩ := floorLog2_spec num den hn hd
  have : (2 : ℚ) ^ (floorLog2 num den) < (2 : ℚ) ^ b := lt_of_le_of_lt h1 h
  exact (zpow_lt_zpow_iff_right₀ (by norm_num : (1 : ℚ) < 2)).mp this

theorem round_rel (f : Fmt) (neg : Bool) (num den : Nat) (hn : 0 < num) (hd : 0 < den)
    (hp : 0 < f.prec) (a b : Int) (ha : (2 : ℚ) ^ a ≤ (num : ℚ) / den)
    (hb : (num : ℚ) / den < (2 : ℚ) ^ b) (hlo : f.qmin ≤ a - (f.prec - 1))
    (hhi : b ≤ f.emax) :
    ∃ m q, Flt.round f neg num den = .finite neg m q ∧ 0 < m ∧
      (num : ℚ) / den * (1 - (2 : ℚ) ^ (-(f.prec : Int))) ≤ (m : ℚ) * (2 : ℚ) ^ q ∧
      (m : ℚ) * (2 : ℚ) ^ q ≤ (num : ℚ) / den * (1 + (2 : ℚ) ^ (-(f.prec : Int))) := by
  have h1 := floorLog2_ge_of num den hn hd a ha
  have h2 := floorLog2_lt_of num den hn hd b hb
  obtain ⟨m, q, hr, hm, he⟩ := round_normal f neg num den hn hd hp (by omega) (by omega)
  refine ⟨m, q, hr, hm, ?_, ?_⟩
  · have := (abs_le.mp he).1
    linarith
  · have := (abs_le.mp he).2
    linarith

theorem div_finite (f : Fmt) (ma mb : Nat) (qa qb : Int) (hmb : mb ≠ 0) :
    Flt.div f (.finite false ma qa) (.finite false mb qb) =
      Flt.round f false (ma * 2 ^ (qa - qb).toNat) (mb * 2 ^ (qb - qa).toNat) := by
  simp [Flt.div, hmb]

theorem div_value (ma mb : Nat) (qa qb : Int) (hmb : 0 < mb) :
    ((ma * 2 ^ (qa - qb).toNat : Nat) : ℚ) / ((mb * 2 ^ (qb - qa).toNat : Nat) : ℚ) =
      ((ma : ℚ) * (2 : ℚ) ^ qa) / ((mb : ℚ) * (2 : ℚ) ^ qb) := by
  have hmq : (0 : ℚ) < mb := by exact_mod_cast hmb
  have e : qb - qa = -(qa - qb) := by omega
  have h2 : (2 : ℚ) ^ qa / (2 : ℚ) ^ qb = (2 : ℚ) ^ (qa - qb).toNat / (2 : ℚ) ^ (qb - qa).toNat := by
    rw [← zpow_sub₀ (by norm_num : (2 : ℚ) ≠ 0), two_zpow_split (qa - qb), e]
  push_cast
  have hb : (0 : ℚ) < (2 : ℚ) ^ qb := zpow_pos (by norm_num) qb
  rw [mul_div_mul_comm, mul_div_mul_comm, h2]

theorem mul_finite (f : Fmt) (ma mb : Nat) (qa qb : Int) :
    Flt.mul f (.finite false ma qa) (.finite false mb qb) =
      Flt.round f false (ma * mb * 2 ^ (qa + qb).toNat) (2 ^ (-(qa + qb)).toNat) := by
  simp [Flt.mul]

theorem mul_value (ma mb : Nat) (qa qb : Int) :
    ((ma * mb * 2 ^ (qa + qb).toNat : Nat) : ℚ) / ((2 ^ (-(qa + qb)).toNat : Nat) : ℚ) =
      ((ma : ℚ) * (2 : ℚ) ^ qa) * ((mb : ℚ) * (2 : ℚ) ^ qb) := by
  push_cast
  rw [mul_div_assoc, ← two_zpow_split (qa + qb), zpow_add₀ (by norm_num : (2 : ℚ) ≠ 0)]
  ring

theorem ofInt_pos (f : Fmt) (i : Int) (hi : 0 < i) (hp : 0 < f.prec) (b : Int)
    (hb : (i : ℚ) < (2 : ℚ) ^ b) (hlo : f.qmin ≤ 0 - (f.prec - 1)) (hhi : b ≤ f.emax) :
    ∃ m q, Flt.ofInt f i = .finite false m q ∧ 0 < m ∧
      (i : ℚ) * (1 - (2 : ℚ) ^ (-(f.prec : Int))) ≤ (m : ℚ) * (2 : ℚ) ^ q ∧
      (m : ℚ) * (2 : ℚ) ^ q ≤ (i : ℚ) * (1 + (2 : ℚ) ^ (-(f.prec : Int))) := by
  have hnat : (0 : Nat) < i.natAbs := by omega
  have hcast : ((i.natAbs : Nat) : ℚ) / ((1 : Nat) : ℚ) = (i : ℚ) := by
    have h2 : ((i.natAbs : Nat) : ℚ) = (i : ℚ) := by
      rw [Nat.cast_natAbs, abs_of_pos hi]
    rw [h2]; simp
  have hneg : decide (i < 0) = false := by simp; omega
  unfold Flt.ofInt
  rw [hneg]
  have h1 : (1 : ℚ) ≤ (i : ℚ) := by exact_mod_cast hi
  have := round_rel f false i.natAbs 1 hnat (by norm_num) hp 0 b
    (by rw [hcast]; simpa using h1) (by rw [hcast]; exact hb) hlo hhi
  rw [hcast] at this
  exact this

theorem scale_bounds {x v lo hi c d : ℚ} (h1 : lo ≤ x) (h2 : x ≤ hi)
    (hv1 : x * c ≤ v) (hv2 : v ≤ x * d) (hc : 0 ≤ c) (hd : 0 ≤ d) :
    lo * c ≤ v ∧ v ≤ hi * d :=
  ⟨le_trans (mul_le_mul_of_nonneg_right h1 hc) hv1,
    le_trans hv2 (mul_le_mul_of_nonneg_right h2 hd)⟩

set_option maxRecDepth 100000 in
theorem ofInt64_tenThousand :
    Flt.ofInt binary64 10000 = .finite false 5497558138880000 (-39) := by decide

theorem toInt64_finite (m : Nat) (q : Int) (hv : (m : ℚ) * (2 : ℚ) ^ q < 2 ^ 63) :
    ((Flt.toInt64 (.finite false m q) : Int) : ℚ) ≤ (m : ℚ) * (2 : ℚ) ^ q ∧
    (m : ℚ) * (2 : ℚ) ^ q < ((Flt.toInt64 (.finite false m q) : Int) : ℚ) + 1 ∧
    0 ≤ Flt.toInt64 (.finite false m q) := by
  obtain ⟨a, ha⟩ : ∃ a : Nat, a = m * 2 ^ q.toNat / 2 ^ (-q).toNat := ⟨_, rfl⟩
  have hDpos : 0 < 2 ^ (-q).toNat := by positivity
  have hDq : (0 : ℚ) < (2 : ℚ) ^ (-q).toNat := by positivity
  have hval : (m : ℚ) * (2 : ℚ) ^ q =
      ((m * 2 ^ q.toNat : Nat) : ℚ) / ((2 ^ (-q).toNat : Nat) : ℚ) := by
    rw [two_zpow_split q]
    push_cast
    ring
  have h1 : a * 2 ^ (-q).toNat ≤ m * 2 ^ q.toNat := by
    rw [ha]; exact Nat.div_mul_le_self _ _
  have h2 : m * 2 ^ q.toNat < a * 2 ^ (-q).toNat + 2 ^ (-q).toNat := by
    rw [ha]; exact Nat.lt_div_mul_add hDpos
  have h1q : (a : ℚ) ≤ (m : ℚ) * (2 : ℚ) ^ q := by
    rw [hval, le_div_iff₀ (by exact_mod_cast hDpos)]
    exact_mod_cast h1
  have h2q : (m : ℚ) * (2 : ℚ) ^ q < (a : ℚ) + 1 := by
    rw [hval, div_lt_iff₀ (by exact_mod_cast hDpos)]
    have : ((m * 2 ^ q.toNat : Nat) : ℚ) <
        ((a * 2 ^ (-q).toNat + 2 ^ (-q).toNat : Nat) : ℚ) := by exact_mod_cast h2
    push_cast at this ⊢
    linarith
  have ha63 : (a : ℚ) < 2 ^ 63 := lt_of_le_of_lt h1q hv
  have ha63' : a < 2 ^ 63 := by exact_mod_cast ha63
  have hk : Flt.toInt64 (.finite false m q) = (a : Int) := by
    unfold Flt.toInt64 Flt.trunc
    simp only [Bool.false_eq_true, if_false]
    rw [← ha]
    have hin : minInt64 ≤ (a : Int) ∧ (a : Int) ≤ maxInt64 := by
      unfold minInt64 maxInt64
      constructor <;> omega
    rw [if_pos hin]
  rw [hk]
  refine ⟨by exact_mod_cast h1q, by exact_mod_cast h2q, Int.natCast_nonneg a⟩

theorem percentScaled_value (n total : Int) (h0 : 0 < n) (h1 : n ≤ total)
    (h3 : total ≤ maxInt64) :
    ∃ m q, Flt.mul binary64 (Flt.ofInt binary64 10000)
        (Flt.div binary64 (Flt.ofInt binary64 n) (Flt.ofInt binary64 total)) =
          .finite false m q ∧
      |(m : ℚ) * (2 : ℚ) ^ q - 10000 * (n : ℚ) / total| ≤ 1 / 1000000 := by
  have hu : (2 : ℚ) ^ (-(binary64.prec : Int)) = 1 / 9007199254740992 := by
    norm_num [binary64]
  have hqmin : binary64.qmin = -1074 := by decide
  have hprec : (binary64.prec : Int) = 53 := rfl
  have hemax : binary64.emax = 1023 := rfl
  have hN1 : (1 : ℚ) ≤ (n : ℚ) := by exact_mod_cast h0
  have hNT : (n : ℚ) ≤ (total : ℚ) := by exact_mod_cast h1
  have hT63 : (total : ℚ) < 2 ^ 63 := by
    have : total < 2 ^ 63 := by unfold maxInt64 at h3; omega
    exact_mod_cast this
  have hT63z : (total : ℚ) < (2 : ℚ) ^ (63 : Int) := by
    norm_num at hT63 ⊢
    exact hT63
  have hN63z : (n : ℚ) < (2 : ℚ) ^ (63 : Int) := lt_of_le_of_lt hNT hT63z
  have hTpos : (0 : ℚ) < (total : ℚ) := by linarith
  -- the two conversions
  obtain ⟨ma, qa, hA, hma, hA1, hA2⟩ := ofInt_pos binary64 n h0 (by decide) 63 hN63z
    (by rw [hqmin, hprec]; norm_num) (by rw [hemax]; norm_num)
  obtain ⟨mb, qb, hB, hmb, hB1, hB2⟩ := ofInt_pos binary64 total (by omega) (by decide) 63
    hT63z (by rw [hqmin, hprec]; norm_num) (by rw [hemax]; norm_num)
  rw [hu] at hA1 hA2 hB1 hB2
  set va : ℚ := (ma : ℚ) * (2 : ℚ) ^ qa with hva
  set vb : ℚ := (mb : ℚ) * (2 : ℚ) ^ qb with hvb
  have hvbpos : 0 < vb := by
    have : (0 : ℚ) < (total : ℚ) * (1 - 1 / 9007199254740992) := by
      apply mul_pos hTpos; norm_num
    linarith
  have hvapos : 0 < va := by
    have : (0 : ℚ) < (n : ℚ) * (1 - 1 / 9007199254740992) := by
      apply mul_pos (by linarith); norm_num
    linarith
  obtain ⟨X, hX⟩ : ∃ X : ℚ, X = (n : ℚ) / total := ⟨_, rfl⟩
  have hX0 : 0 < X := by
    rw [hX]
    exact div_pos (by linarith) hTpos
  have hX1 : X ≤ 1 := by rw [hX, div_le_one hTpos]; exact hNT
  have hXlo : (1 : ℚ) / 2 ^ 63 ≤ X := by
    rw [hX, div_le_div_iff₀ (by norm_num) hTpos]
    nlinarith
  have hNX : (n : ℚ) = X * total := by rw [hX]; field_simp
  -- the quotient
  have hy1 : X * (9007199254740991 / 9007199254740993) ≤ va / vb := by
    rw [le_div_iff₀ hvbpos]
    have : X * (9007199254740991 / 9007199254740993) * vb ≤
        X * (9007199254740991 / 9007199254740993) *
          ((total : ℚ) * (1 + 1 / 9007199254740992)) := by
      apply mul_le_mul_of_nonneg_left hB2
      positivity
    have e : X * (9007199254740991 / 9007199254740993) *
          ((total : ℚ) * (1 + 1 / 9007199254740992)) =
        (n : ℚ) * (1 - 1 / 9007199254740992) := by
      rw [hNX]; ring
    linarith
  have hy2 : va / vb ≤ X * (9007199254740993 / 9007199254740991) := by
    rw [div_le_iff₀ hvbpos]
    have : X * (9007199254740993 / 9007199254740991) *
          ((total : ℚ) * (1 - 1 / 9007199254740992)) ≤
        X * (9007199254740993 / 9007199254740991) * vb := by
      apply mul_le_mul_of_nonneg_left hB1
      positivity
    have e : X * (9007199254740993 / 9007199254740991) *
          ((total : ℚ) * (1 - 1 / 9007199254740992)) =
        (n : ℚ) * (1 + 1 / 9007199254740992) := by
      rw [hNX]; ring
    linarith
  have hdivnum : 0 < ma * 2 ^ (qa - qb).toNat := by positivity
  have hdivden : 0 < mb * 2 ^ (qb - qa).toNat := by positivity
  have hdv := div_value ma mb qa qb hmb
  obtain ⟨mc, qc, hC, hmc, hC1, hC2⟩ := round_rel binary64 false
    (ma * 2 ^ (qa - qb).toNat) (mb * 2 ^ (qb - qa).toNat) hdivnum hdivden (by decide)
    (-64) 1
    (by
      rw [hdv]
      have : (2 : ℚ) ^ (-64 : Int) ≤ X * (9007199254740991 / 9007199254740993) := by
        norm_num at hXlo ⊢
        linarith
      linarith)
    (by
      rw [hdv]
      have : X * (9007199254740993 / 9007199254740991) < (2 : ℚ) ^ (1 : Int) := by
        norm_num
        linarith
      linarith)
    (by rw [hqmin, hprec]; norm_num) (by rw [hemax]; norm_num)
  rw [hdv, hu] at hC1 hC2
  set vc : ℚ := (mc : ℚ) * (2 : ℚ) ^ qc with hvc
  have hy0 : 0 ≤ va / vb := (div_pos hvapos hvbpos).le
  obtain ⟨hc1, hc2⟩ := scale_bounds hy1 hy2 hC1 hC2 (by norm_num) (by norm_num)
  -- the product
  have hmulnum : 0 < 5497558138880000 * mc * 2 ^ (-39 + qc).toNat := by positivity
  have hmulden : 0 < 2 ^ (-(-39 + qc)).toNat := by positivity
  have hmv := mul_value 5497558138880000 mc (-39) qc
  have h10k : ((5497558138880000 : Nat) : ℚ) * (2 : ℚ) ^ (-39 : Int) = 10000 := by norm_num
  rw [h10k] at hmv
  obtain ⟨md, qd, hD, hmd, hD1, hD2⟩ := round_rel binary64 false
    (5497558138880000 * mc * 2 ^ (-39 + qc).toNat) (2 ^ (-(-39 + qc)).toNat) hmulnum hmulden
    (by decide) (-64) 17
    (by
      rw [hmv]
      have : (2 : ℚ) ^ (-64 : Int) ≤ 10000 * vc := by
        norm_num at hXlo hc1 ⊢
        linarith
      exact this)
    (by
      rw [hmv]
      have : 10000 * vc < (2 : ℚ) ^ (17 : Int) := by
        norm_num at hc2 ⊢
        linarith
      exact this)
    (by rw [hqmin, hprec]; norm_num) (by rw [hemax]; norm_num)
  rw [hmv, hu] at hD1 hD2
  refine ⟨md, qd, ?_, ?_⟩
  · rw [ofInt64_tenThousand, hA, hB, div_finite binary64 ma mb qa qb (by omega), hC,
      mul_finite, hD]
  · have e : 10000 * (n : ℚ) / total = 10000 * X := by rw [hX]; ring
    rw [e, abs_le]
    have hz1 : 10000 * (X * (9007199254740991 / 9007199254740993) *
        (1 - 1 / 9007199254740992)) ≤ 10000 * vc := by linarith
    have hz2 : 10000 * vc ≤ 10000 * (X * (9007199254740993 / 9007199254740991) *
        (1 + 1 / 9007199254740992)) := by linarith
    obtain ⟨hd1, hd2⟩ := scale_bounds hz1 hz2 hD1 hD2 (by norm_num) (by norm_num)
    constructor
    · norm_num at hd1 ⊢
      linarith
    · norm_num at hd2 ⊢
      linarith

theorem percentScaled_zero (total : Int) (h2 : 0 < total) (h3 : total ≤ maxInt64) :
    percentScaled 0 total = 0 := by
  have hT63z : (total : ℚ) < (2 : ℚ) ^ (63 : Int) := by
    have : total < 2 ^ 63 := by unfold maxInt64 at h3; omega
    have h : (total : ℚ) < 2 ^ 63 := by exact_mod_cast this
    norm_num at h ⊢
    exact h
  obtain ⟨mb, qb, hB, hmb, -, -⟩ := ofInt_pos binary64 total h2 (by decide) 63 hT63z
    (by decide) (by decide)
  have hz : Flt.ofInt binary64 0 = .finite false 0 0 := by decide
  unfold percentScaled
  rw [hz, hB, div_finite binary64 0 mb 0 qb (by omega), ofInt64_tenThousand]
  have h0 : Flt.round binary64 false (0 * 2 ^ (0 - qb).toNat) (mb * 2 ^ (qb - 0).toNat) =
      .finite false 0 0 := by
    simp [Flt.round]
  rw [h0, mul_finite]
  have h1 : Flt.round binary64 false (5497558138880000 * 0 * 2 ^ (-39 + 0 : Int).toNat)
      (2 ^ (-(-39 + 0 : Int)).toNat) = .finite false 0 0 := by
    simp [Flt.round]
  rw [h1]
  decide

theorem percentScaled_near (n total : Int) (h0 : 0 ≤ n) (h1 : n ≤ total) (h2 : 0 < total)
    (h3 : total ≤ maxInt64) :
    10000 * n / total - 1 ≤ percentScaled n total ∧
    percentScaled n total ≤ 10000 * n / total + 1 ∧
    0 ≤ percentScaled n total ∧ percentScaled n total ≤ 10000 := by
  rcases eq_or_lt_of_le h0 with hn | hn
  · subst hn
    rw [percentScaled_zero total h2 h3]
    simp
  · obtain ⟨m, q, hv, herr⟩ := percentScaled_value n total hn h1 h3
    have hTpos : (0 : ℚ) < (total : ℚ) := by exact_mod_cast h2
    have hNT : (n : ℚ) ≤ (total : ℚ) := by exact_mod_cast h1
    have hN0 : (0 : ℚ) ≤ (n : ℚ) := by exact_mod_cast h0
    obtain ⟨X, hX⟩ : ∃ X : ℚ, X = 10000 * (n : ℚ) / total := ⟨_, rfl⟩
    rw [← hX] at herr
    have hXhi : X ≤ 10000 := by
      rw [hX, div_le_iff₀ hTpos]
      nlinarith
    obtain ⟨he1, he2⟩ := abs_le.mp herr
    have hlt : (m : ℚ) * (2 : ℚ) ^ q < 2 ^ 63 := by
      have : (10001 : ℚ) < 2 ^ 63 := by norm_num
      linarith
    obtain ⟨hk1, hk2, hk0⟩ := toInt64_finite m q hlt
    have hk : percentScaled n total = Flt.toInt64 (.finite false m q) := by
      unfold percentScaled
      rw [hv]
    rw [hk]
    obtain ⟨k, hkdef⟩ : ∃ k : Int, k = Flt.toInt64 (.finite false m q) := ⟨_, rfl⟩
    rw [← hkdef] at hk1 hk2 hk0 ⊢
    -- the exact quotient
    have ht1 : 10000 * n / total * total ≤ 10000 * n := Int.ediv_mul_le _ (by omega)
    have ht2 : 10000 * n < (10000 * n / total + 1) * total :=
      Int.lt_ediv_add_one_mul_self _ h2
    obtain ⟨T, hT⟩ : ∃ T : Int, T = 10000 * n / total := ⟨_, rfl⟩
    rw [← hT] at ht1 ht2 ⊢
    have hq1 : (T : ℚ) ≤ X := by
      rw [hX, le_div_iff₀ hTpos]
      exact_mod_cast ht1
    have hq2 : X < (T : ℚ) + 1 := by
      rw [hX, div_lt_iff₀ hTpos]
      exact_mod_cast ht2
    have a1 : (T : ℚ) - 2 < (k : ℚ) := by linarith
    have a2 : (k : ℚ) < (T : ℚ) + 2 := by linarith
    have a3 : (k : ℚ) < 10001 := by linarith
    have b1 : T - 2 < k := by exact_mod_cast a1
    have b2 : k < T + 2 := by exact_mod_cast a2
    have b3 : k < 10001 := by exact_mod_cast a3
    refine ⟨by omega, by omega, hk0, by omega⟩


/-! ### The percentage -/

set_option maxRecDepth 100000 in
/-- C10, as stated, fails: `100 * 57 / 100` truncated to two decimals is 57.00
(5700 hundredths), but `float64(57) / float64(100)` rounds below 0.57, the
product with 10000 is below 5700 and `int` truncates it to 5699: `percent(57,
100)` is the `float32` nearest to 56.99, not the one nearest to 57.00. -/
theorem percent_57_of_100 :
    percentSpecHundredths 57 100 = 5700 ∧
    percentScaled 57 100 = 5699 ∧
    percent 57 100 = Flt.round binary32 false 5699 100 ∧
    percent 57 100 ≠ Flt.round binary32 false 5700 100 := by
  decide

/-- C10, amended: `percent(n, 0)` is 0; for `0 ≤ n ≤ total`, `total > 0`,
`percent(n, total)` is the `float32` quotient by 100 of the integer
`int(float64(10000) * (float64(n) / float64(total)))`, and that integer is
within one of `100 * n / total` truncated to two decimals, in hundredths.  The
result is a function of `n` and `total` alone. -/
theorem percent_within_one_hundredth (n total : Int) (h0 : 0 ≤ n) (h1 : n ≤ total)
    (h2 : 0 < total) (h3 : total ≤ maxInt64) :
    percent n 0 = Flt.ofInt binary32 0 ∧
    percent n total =
      Flt.div binary32 (Flt.ofInt binary32 (percentScaled n total)) (Flt.ofInt binary32 100) ∧
    percentSpecHundredths n total - 1 ≤ percentScaled n total ∧
    percentScaled n total ≤ percentSpecHundredths n total + 1 := by
  have hne : total ≠ 0 := by omega
  have hspec : percentSpecHundredths n total = 10000 * n / total := by
    unfold percentSpecHundredths
    rw [if_neg hne, Int.tdiv_eq_ediv (by omega) (by omega)]
  obtain ⟨a, b, -, -⟩ := percentScaled_near n total h0 h1 h2 h3
  refine ⟨by simp [percent], by simp [percent, hne], ?_, ?_⟩
  · rw [hspec]; exact a
  · rw [hspec]; exact b

set_option maxRecDepth 100000 in
/-- C10, amended, at the specification's example: `percent(500, 1000)` is
exactly 50. -/
theorem percent_within_one_hundredth_witness :
    (0 : Int) ≤ 500 ∧ (500 : Int) ≤ 1000 ∧ (0 : Int) < 1000 ∧ (1000 : Int) ≤ maxInt64 ∧
    percentSpecHundredths 500 1000 = 5000 ∧
    percentScaled 500 1000 = 5000 ∧
    percent 500 1000 = Flt.ofInt binary32 50 ∧
    percentSpecHundredths 500 1000 - 1 ≤ percentScaled 500 1000 ∧
    percentScaled 500 1000 ≤ percentSpecHundredths 500 1000 + 1 :=
  have w := percent_within_one_hundredth 500 1000 (by decide) (by decide) (by decide)
    (by decide)
  ⟨by decide, by decide, by decide, by decide, by decide, by decide, by decide, w.2.2.1,
    w.2.2.2⟩

/-! ### Rate, progress and stall detection -/

theorem updateProgress_percent (base : Torrent) (t : BackendTorrent) (clock : Clock) (p : Int) :
    (base.updateProgress t clock p).Percent = percent t.BytesCompleted base.Size := by
  unfold Torrent.updateProgress
  simp only
  split_ifs <;> simp [Torrent.addError]

theorem updateProgress_rate (base : Torrent) (t : BackendTorrent) (clock : Clock) (p : Int)
    (hu : base.UpdatedAt ≠ 0) :
    (base.updateProgress t clock p).DownloadRate =
      keptRate base.DownloadRate
        (sampleRate t.BytesCompleted base.Downloaded (clock.now.Sub base.UpdatedAt)) := by
  have hz : Time.IsZero base.UpdatedAt = false := by simp [Time.IsZero, hu]
  unfold Torrent.updateProgress keptRate sampleRate
  simp only [hz, Bool.not_false, if_true]
  split_ifs <;> rfl

theorem updateProgress_first (base : Torrent) (t : BackendTorrent) (clock : Clock) (p : Int)
    (hu : base.UpdatedAt = 0) :
    (base.updateProgress t clock p).DownloadRate = base.DownloadRate ∧
    (base.updateProgress t clock p).Status = TorrentStatus.Healthy ∧
    (base.updateProgress t clock p).LastProgress = clock.now ∧
    (base.updateProgress t clock p).Errors = base.Errors := by
  have hz : Time.IsZero base.UpdatedAt = true := by simp [Time.IsZero, hu]
  unfold Torrent.updateProgress
  simp [hz]

theorem updateProgress_increase (base : Torrent) (t : BackendTorrent) (clock : Clock) (p : Int)
    (hu : base.UpdatedAt ≠ 0) (hp : p < t.BytesCompleted) :
    (base.updateProgress t clock p).LastProgress = clock.now ∧
    (base.updateProgress t clock p).Errors = base.Errors ∧
    (base.updateProgress t clock p).Status =
      (if Flt.lt base.DownloadRate (base.updateProgress t clock p).DownloadRate then
        TorrentStatus.Healthy
      else if Flt.lt (base.updateProgress t clock p).DownloadRate
          (Flt.mul binary32 base.DownloadRate f32_0_7) then TorrentStatus.Slow
      else base.Status) := by
  have hz : Time.IsZero base.UpdatedAt = false := by simp [Time.IsZero, hu]
  unfold Torrent.updateProgress
  simp only [hz, Bool.not_false, if_true, hp]
  split_ifs <;> simp_all

theorem updateProgress_no_increase (base : Torrent) (t : BackendTorrent) (clock : Clock)
    (p : Int) (hu : base.UpdatedAt ≠ 0) (hp : ¬ p < t.BytesCompleted) :
    (base.updateProgress t clock p).LastProgress = base.LastProgress ∧
    (base.updateProgress t clock p).Status =
      (if minute < clock.now.Sub base.LastProgress ∧
          Flt.lt (percent t.BytesCompleted base.Size) (Flt.ofInt binary32 100) = true then
        TorrentStatus.Stalled else base.Status) ∧
    (base.updateProgress t clock p).Errors =
      (if minute < clock.now.Sub base.LastProgress ∧
          Flt.lt (percent t.BytesCompleted base.Size) (Flt.ofInt binary32 100) = true then
        (base.addError clock.stamp (stallMessage clock.since base.LastProgress)).Errors
      else base.Errors) := by
  have hz : Time.IsZero base.UpdatedAt = false := by simp [Time.IsZero, hu]
  unfold Torrent.updateProgress stallMessage
  simp only [hz, Bool.not_false, if_true, hp, if_false]
  split_ifs <;> simp_all [Torrent.addError]

theorem allocFiles_fields (torrent : Torrent) (t : BackendTorrent) :
    (torrent.allocFiles t).Size = t.Length ∧
    (torrent.allocFiles t).Downloaded = torrent.Downloaded ∧
    (torrent.allocFiles t).DownloadRate = torrent.DownloadRate ∧
    (torrent.allocFiles t).UpdatedAt = torrent.UpdatedAt ∧
    (torrent.allocFiles t).Status = torrent.Status ∧
    (torrent.allocFiles t).Errors = torrent.Errors ∧
    (torrent.allocFiles t).LastProgress = torrent.LastProgress := by
  unfold Torrent.allocFiles
  simp only
  split <;> exact ⟨rfl, rfl, rfl, rfl, rfl, rfl, rfl⟩

theorem update_progress_form (torrent : Torrent) (t : BackendTorrent) (clock : Clock)
    (hi : t.HasInfo = true)
    (hf : torrent.Files = [] ∨ t.Files.length ≤ torrent.Files.length) :
    ∃ base : Torrent,
      torrent.Update t clock = some (base.updateProgress t clock torrent.Downloaded) ∧
      base.Size = t.Length ∧ base.Downloaded = torrent.Downloaded ∧
      base.DownloadRate = torrent.DownloadRate ∧ base.UpdatedAt = torrent.UpdatedAt ∧
      base.Status = torrent.Status ∧ base.Errors = torrent.Errors ∧
      base.LastProgress = torrent.LastProgress := by
  have hs := update_isSome torrent t clock hf
  rw [update_of_info torrent t clock hi] at hs ⊢
  unfold Torrent.updateLoaded at hs ⊢
  simp only at hs ⊢
  obtain ⟨a1, a2, a3, a4, a5, a6, a7⟩ := allocFiles_fields
    { torrent with
      Name := t.Name, Loaded := true, PeersConnected := t.ActivePeers,
      PeersTotal := t.TotalPeers } t
  cases hq : mergeFiles (Torrent.allocFiles { torrent with
      Name := t.Name, Loaded := true, PeersConnected := t.ActivePeers,
      PeersTotal := t.TotalPeers } t).Files t.Files with
  | none => rw [hq] at hs; simp at hs
  | some files =>
    exact ⟨_, rfl, a1, a2, a3, a4, a5, a6, a7⟩

theorem minute_lt_sub (a b : Time) : minute < Time.Sub a b ↔ minute < a - b := by
  have hm : minute = (60000000000 : Int) := by decide
  have h1 : maxInt64 = (9223372036854775807 : Int) := by decide
  have h2 : minInt64 = (-9223372036854775808 : Int) := by decide
  unfold Time.Sub
  rw [hm, h1, h2]
  have key : ∀ x : Int, (60000000000 < (if 9223372036854775807 < x then 9223372036854775807
      else if x < -9223372036854775808 then -9223372036854775808 else x)) ↔
        60000000000 < x := by
    intro x
    split_ifs <;> omega
  exact key (a - b)

/-- C13: a refresh with metadata of a session that has a previous snapshot
(`UpdatedAt` not zero), the byte count not above the recorded one.  The new
`Percent` is `percent(bytes, Length)`.  If `now - LastProgress` exceeds one
minute and that `Percent` is below 100, `Status` becomes `Stalled` and the log
gains one entry (the oldest dropped when it held ten) whose message is
"Download stalled - no progress for " followed by the rounded duration;
otherwise `Status` and the log are as before.  `LastProgress` is as before in
both cases. -/
theorem update_stall_detection (torrent : Torrent) (t : BackendTorrent) (clock : Clock)
    (hi : t.HasInfo = true)
    (hf : torrent.Files = [] ∨ t.Files.length ≤ torrent.Files.length)
    (hu : torrent.UpdatedAt ≠ 0) (hb : t.BytesCompleted ≤ torrent.Downloaded) :
    (torrent.Update t clock).map
        (fun t' => (t'.Percent, t'.Status, t'.Errors, t'.LastProgress)) =
      some (percent t.BytesCompleted t.Length,
        if minute < clock.now - torrent.LastProgress ∧
              Flt.lt (percent t.BytesCompleted t.Length) (Flt.ofInt binary32 100) = true then
          (TorrentStatus.Stalled,
            (if 10 ≤ torrent.Errors.length then torrent.Errors.drop 1 else torrent.Errors) ++
              [{ Time := clock.stamp
                 Message := "Download stalled - no progress for " ++
                  Duration.String
                    (Duration.Round (Time.Sub clock.since torrent.LastProgress) second) }],
            torrent.LastProgress)
        else (torrent.Status, torrent.Errors, torrent.LastProgress)) := by
  obtain ⟨base, hU, b1, b2, b3, b4, b5, b6, b7⟩ := update_progress_form torrent t clock hi hf
  have hu' : base.UpdatedAt ≠ 0 := by rw [b4]; exact hu
  obtain ⟨c1, c2, c3⟩ := updateProgress_no_increase base t clock torrent.Downloaded hu'
    (by omega)
  have c0 := updateProgress_percent base t clock torrent.Downloaded
  simp only [addError_errors, b1, b5, b6, b7, minute_lt_sub] at c0 c1 c2 c3
  rw [hU]
  simp only [Option.map_some', Option.some.injEq]
  rw [c0, c1, c2, c3]
  split_ifs <;> simp [stallMessage, logEntry]

set_option maxRecDepth 100000 in
/-- C13 at session C: refreshed at `clock0` with nothing downloaded and again
65 seconds later with nothing downloaded, it becomes `Stalled` and its log
gains the one entry "Download stalled - no progress for 1m5s". -/
theorem update_stall_detection_witness :
    resolvedC.HasInfo = true ∧
    (snapshotC.Files = [] ∨ resolvedC.Files.length ≤ snapshotC.Files.length) ∧
    snapshotC.UpdatedAt ≠ 0 ∧
    resolvedC.BytesCompleted ≤ snapshotC.Downloaded ∧
    (snapshotC.Update resolvedC clock2).map
        (fun t' => (t'.Percent, t'.Status, t'.Errors, t'.LastProgress)) =
      some (Flt.ofInt binary32 0, TorrentStatus.Stalled,
        [{ Time := clock2.stamp, Message := "Download stalled - no progress for 1m5s" }],
        clock0.now) :=
  ⟨by decide, by decide, by decide, by decide,
    (update_stall_detection snapshotC resolvedC clock2 (by decide) (by decide) (by decide)
      (by decide)).trans (by decide)⟩

/-- C14: a refresh with metadata of a session that has a previous snapshot
(`UpdatedAt` not zero), the byte count above the recorded one.  `LastProgress`
becomes `now`, the log is as before, and with `rate` the new download rate,
`Status` becomes `Healthy` when the previous rate is below `rate`, else `Slow`
when `rate` is below the previous rate times the `float32` constant `0.7`, and
else stays as it was. -/
theorem update_progress_classification (torrent : Torrent) (t : BackendTorrent) (clock : Clock)
    (hi : t.HasInfo = true)
    (hf : torrent.Files = [] ∨ t.Files.length ≤ torrent.Files.length)
    (hu : torrent.UpdatedAt ≠ 0) (hb : torrent.Downloaded < t.BytesCompleted) :
    (torrent.Update t clock).map
        (fun t' => (t'.DownloadRate, t'.LastProgress, t'.Errors, t'.Status)) =
      some (keptRate torrent.DownloadRate
              (sampleRate t.BytesCompleted torrent.Downloaded
                (clock.now.Sub torrent.UpdatedAt)),
            clock.now, torrent.Errors,
            if Flt.lt torrent.DownloadRate
                (keptRate torrent.DownloadRate
                  (sampleRate t.BytesCompleted torrent.Downloaded
                    (clock.now.Sub torrent.UpdatedAt))) then TorrentStatus.Healthy
            else if Flt.lt
                (keptRate torrent.DownloadRate
                  (sampleRate t.BytesCompleted torrent.Downloaded
                    (clock.now.Sub torrent.UpdatedAt)))
                (Flt.mul binary32 torrent.DownloadRate f32_0_7) then TorrentStatus.Slow
            else torrent.Status) := by
  obtain ⟨base, hU, b1, b2, b3, b4, b5, b6, b7⟩ := update_progress_form torrent t clock hi hf
  have hu' : base.UpdatedAt ≠ 0 := by rw [b4]; exact hu
  obtain ⟨c1, c2, c3⟩ := updateProgress_increase base t clock torrent.Downloaded hu' hb
  have c0 := updateProgress_rate base t clock torrent.Downloaded hu'
  rw [hU]
  simp only [Option.map_some', Option.some.injEq]
  rw [c1, c2, c3, c0, b2, b3, b4, b5, b6]

set_option maxRecDepth 100000 in
/-- C14 at session C: refreshed at `clock0` with nothing downloaded and ten
seconds later with 500 bytes, its rate goes from 0 to 50, `LastProgress` is the
second reading, its log stays empty and it is `Healthy`. -/
theorem update_progress_classification_witness :
    halfC.HasInfo = true ∧
    (snapshotC.Files = [] ∨ halfC.Files.length ≤ snapshotC.Files.length) ∧
    snapshotC.UpdatedAt ≠ 0 ∧
    snapshotC.Downloaded < halfC.BytesCompleted ∧
    (snapshotC.Update halfC clock1).map
        (fun t' => (t'.DownloadRate, t'.LastProgress, t'.Errors, t'.Status)) =
      some (Flt.ofInt binary32 50, clock1.now, [], TorrentStatus.Healthy) :=
  ⟨by decide, by decide, by decide, by decide,
    (update_progress_classification snapshotC halfC clock1 (by decide) (by decide)
      (by decide) (by decide)).trans (by decide)⟩

/-! ### Deleting a session, starting a file -/

theorem tsLookup_tsErase (ts : List (String × Torrent)) (k k' : String) :
    tsLookup (tsErase ts k) k' = if k' = k then none else tsLookup ts k' := by
  induction ts with
  | nil => simp [tsErase, tsLookup]
  | cons hd tl ih =>
    obtain ⟨k0, t0⟩ := hd
    simp only [tsErase, ne_eq, decide_not] at ih ⊢
    by_cases h0 : k0 = k
    · subst h0
      by_cases h : k' = k0
      · subst h
        simpa [List.filter] using ih
      · have h' : ¬ k0 = k' := fun e => h e.symm
        simp [List.filter, tsLookup, h, h', ih]
    · by_cases h : k' = k
      · subst h
        simp [List.filter, tsLookup, h0, ih]
      · by_cases h1 : k0 = k'
        · simp [List.filter, tsLookup, h0, h, h1]
        · simp [List.filter, tsLookup, h0, h, h1, ih]

theorem findFile_absent (p : String) (files : List (Option File))
    (h : pathAbsent p files = true) : findFile p files = .ok none := by
  induction files with
  | nil => rfl
  | cons x xs ih =>
    cases x with
    | none => simp [pathAbsent] at h
    | some g =>
      simp only [pathAbsent, List.all_cons, Bool.and_eq_true, decide_eq_true_eq] at h
      have hx : pathAbsent p xs = true := h.2
      simp [findFile, h.1, ih hx]

theorem findFile_split (pre post : List (Option File)) (f : File)
    (h : pathAbsent f.Path pre = true) :
    findFile f.Path (pre ++ some f :: post) = .ok (some (pre.length, f)) := by
  induction pre with
  | nil => simp [findFile]
  | cons x xs ih =>
    cases x with
    | none => simp [pathAbsent] at h
    | some g =>
      simp only [pathAbsent, List.all_cons, Bool.and_eq_true, decide_eq_true_eq] at h
      have hx : pathAbsent f.Path xs = true := h.2
      simp [findFile, h.1, ih hx]

/-- C16: when `getTorrent` finds a session under the id (stored under its own
`InfoHash`), `DeleteTorrent` returns nil whatever its `Started` flag, after it
`GetTorrent` on the same id returns the missing-torrent error, every other
entry of the table is as before, and the counter and the budget are not
touched; when `getTorrent` fails on an id, `DeleteTorrent` returns that failure
and the engine unchanged. -/
theorem deleteTorrent_removes (e : Engine) (id1 ih k id2 : String) (t : Torrent) (o : Outcome)
    (h1 : e.getTorrent id1 = .ok (ih, t)) (hk : t.InfoHash = ih)
    (h2 : e.getTorrent id2 = .error o) (hne : k ≠ ih) :
    (e.DeleteTorrent id1).2 = .ok ∧
    (e.DeleteTorrent id1).1.GetTorrent id1 = .error (.error (.missingTorrent ih)) ∧
    tsLookup (e.DeleteTorrent id1).1.ts k = tsLookup e.ts k ∧
    (e.DeleteTorrent id1).1.activeTorrents = e.activeTorrents ∧
    (e.DeleteTorrent id1).1.memoryMonitor = e.memoryMonitor ∧
    e.DeleteTorrent id2 = (e, o) ∧ o ≠ .ok := by
  obtain ⟨hs, hl⟩ := getTorrent_lookup e id1 ih t h1
  have hd : e.DeleteTorrent id1 = ({ e with ts := tsErase e.ts ih }, .ok) := by
    simp [Engine.DeleteTorrent, h1, hk]
  refine ⟨by rw [hd], ?_, ?_, by rw [hd], by rw [hd], ?_, ?_⟩
  · rw [hd]
    simp [Engine.GetTorrent, Engine.getTorrent, hs, tsLookup_tsErase]
  · rw [hd]
    simp [tsLookup_tsErase, hne]
  · simp [Engine.DeleteTorrent, h2]
  · intro ho
    rw [ho] at h2
    exact getTorrent_error_ne_ok e id2 h2

set_option maxRecDepth 100000 in
/-- C16 at `fullEngine`: the started session A is deleted, the stopped session
B stays as it was, and deleting the unknown session C fails. -/
theorem deleteTorrent_removes_witness :
    fullEngine.getTorrent hashA = .ok (hashA, startedA) ∧
    startedA.InfoHash = hashA ∧ startedA.Started = true ∧
    fullEngine.getTorrent hashC = .error (.error (.missingTorrent hashC)) ∧
    hashB ≠ hashA ∧
    (fullEngine.DeleteTorrent hashA).2 = .ok ∧
    (fullEngine.DeleteTorrent hashA).1.GetTorrent hashA =
      .error (.error (.missingTorrent hashA)) ∧
    tsLookup (fullEngine.DeleteTorrent hashA).1.ts hashB = tsLookup fullEngine.ts hashB ∧
    (fullEngine.DeleteTorrent hashA).1.activeTorrents = fullEngine.activeTorrents ∧
    (fullEngine.DeleteTorrent hashA).1.memoryMonitor = fullEngine.memoryMonitor ∧
    fullEngine.DeleteTorrent hashC = (fullEngine, .error (.missingTorrent hashC)) ∧
    Outcome.error (.missingTorrent hashC) ≠ .ok :=
  ⟨by decide, by decide, by decide, by decide, by decide,
    deleteTorrent_removes fullEngine hashA hashA hashB hashC startedA
      (.error (.missingTorrent hashC)) (by decide) (by decide) (by decide) (by decide)⟩

/-- C17: `StartFile` returns the failure of `getTorrent` and the engine
unchanged when no session is found; on a session found it returns the
missing-file error and the engine unchanged when the loop meets no file of that
path; at the first file `f` of that path it returns "Already started" and the
engine unchanged when `f.Started` is set, and otherwise returns nil with only
the record of that session rewritten: its `Started` flag set, `f.Started` set,
every other file as before; the configuration, the counter and the budget are
those of `e`.  `StopFile` returns "Unsupported" and the engine unchanged. -/
theorem startFile_cases (e : Engine) (id0 p0 id ih pm : String) (o : Outcome) (t : Torrent)
    (pre post : List (Option File)) (f : File)
    (h0 : e.getTorrent id0 = .error o)
    (h : e.getTorrent id = .ok (ih, t))
    (hm : pathAbsent pm t.Files = true)
    (hsplit : t.Files = pre ++ some f :: post)
    (hpre : pathAbsent f.Path pre = true) :
    e.StartFile id0 p0 = (e, o) ∧
    e.StartFile id pm = (e, .error (.missingFile pm)) ∧
    e.StartFile id f.Path =
      (if f.Started then (e, .error .alreadyStarted)
       else
        ({ e with
            ts := tsStore e.ts ih
              { t with
                Started := true,
                Files := pre ++ (some { f with Started := true }) :: post } },
          .ok)) ∧
    e.StopFile id f.Path = (e, .error .unsupported) := by
  refine ⟨?_, ?_, ?_, rfl⟩
  · simp [Engine.StartFile, Engine.getOpenTorrent, h0]
  · simp [Engine.StartFile, Engine.getOpenTorrent, h, findFile_absent pm t.Files hm]
  · have hf : findFile f.Path t.Files = .ok (some (pre.length, f)) := by
      rw [hsplit]; exact findFile_split pre post f hpre
    have hset : (pre ++ some f :: post).set pre.length (some { f with Started := true }) =
        pre ++ some { f with Started := true } :: post := by
      simp
    unfold Engine.StartFile
    simp only [Engine.getOpenTorrent, h, hf]
    split_ifs with hst
    · rfl
    · simp only [hsplit, hset]

set_option maxRecDepth 100000 in
/-- C17 at `loadedEngine`: no session A; session B has the one file "file", not
started, and no file "other"; after `StartFile(B, "file")` the counter and the
budget are still 0. -/
theorem startFile_cases_witness :
    loadedEngine.getTorrent hashA = .error (.error (.missingTorrent hashA)) ∧
    loadedEngine.getTorrent hashB = .ok (hashB, loadedB) ∧
    pathAbsent "other" loadedB.Files = true ∧
    loadedB.Files = [] ++ some fileB :: [] ∧
    pathAbsent fileB.Path [] = true ∧
    (loadedEngine.StartFile hashB "file").2 = .ok ∧
    (loadedEngine.StartFile hashB "file").1.activeTorrents = 0 ∧
    (loadedEngine.StartFile hashB "file").1.memoryMonitor.GetMemoryUsage = 0 ∧
    ((loadedEngine.StartFile hashB "file").1.StartFile hashB "file").2 =
      .error .alreadyStarted ∧
    (loadedEngine.StartFile hashA "file" =
        (loadedEngine, .error (.missingTorrent hashA)) ∧
      loadedEngine.StartFile hashB "other" = (loadedEngine, .error (.missingFile "other")) ∧
      loadedEngine.StartFile hashB fileB.Path =
        (if fileB.Started then (loadedEngine, .error .alreadyStarted)
         else
          ({ loadedEngine with
              ts := tsStore loadedEngine.ts hashB
                { loadedB with
                  Started := true,
                  Files := [] ++ (some { fileB with Started := true }) :: [] } },
            .ok)) ∧
      loadedEngine.StopFile hashB fileB.Path = (loadedEngine, .error .unsupported)) :=
  ⟨by decide, by decide, by decide, by decide, by decide, by decide, by decide, by decide,
    by decide,
    startFile_cases loadedEngine hashA "file" hashB hashB "other"
      (.error (.missingTorrent hashA)) loadedB [] [] fileB (by decide) (by decide) (by decide)
      (by decide) (by decide)⟩

/-! ### The counter of active sessions -/

set_option maxRecDepth 100000 in
/-- C18 fails on the code: from a fresh engine, `NewTorrent(B)` leaves the
counter and the number of started sessions at 0; `StartFile(B, "file")` returns
nil and sets the `Started` flag of B without counting it (1 started, counter
0); `StopTorrent(B)` then returns nil and leaves the counter at -1 with no
session started.  Also `StartTorrent(B)` followed by `DeleteTorrent(B)` leaves
the counter at 1 with an empty table. -/
theorem activeTorrents_drifts :
    New.activeTorrents = 0 ∧ New.ts = [] ∧
    (New.NewTorrent acceptingClient ⟨hashB, "b"⟩ clock0).2 = .ok ∧
    loadedEngine.activeTorrents = 0 ∧ loadedEngine.startedCount = 0 ∧
    (loadedEngine.StartFile hashB "file").2 = .ok ∧
    (loadedEngine.StartFile hashB "file").1.startedCount = 1 ∧
    (loadedEngine.StartFile hashB "file").1.activeTorrents = 0 ∧
    ((loadedEngine.StartFile hashB "file").1.StopTorrent hashB).2 = .ok ∧
    ((loadedEngine.StartFile hashB "file").1.StopTorrent hashB).1.startedCount = 0 ∧
    ((loadedEngine.StartFile hashB "file").1.StopTorrent hashB).1.activeTorrents = -1 ∧
    (loadedEngine.StartTorrent hashB).2 = .ok ∧
    ((loadedEngine.StartTorrent hashB).1.DeleteTorrent hashB).2 = .ok ∧
    ((loadedEngine.StartTorrent hashB).1.DeleteTorrent hashB).1.ts = [] ∧
    ((loadedEngine.StartTorrent hashB).1.DeleteTorrent hashB).1.startedCount = 0 ∧
    ((loadedEngine.StartTorrent hashB).1.DeleteTorrent hashB).1.activeTorrents = 1 := by
  decide

/-! ### The health sweep -/

theorem tsLookup_mem (ts : List (String × Torrent)) (k : String) (t : Torrent)
    (h : tsLookup ts k = some t) : (k, t) ∈ ts := by
  induction ts with
  | nil => simp [tsLookup] at h
  | cons hd tl ih =>
    obtain ⟨k0, t0⟩ := hd
    by_cases h0 : k0 = k
    · simp [tsLookup, h0] at h
      simp [h0, h]
    · simp [tsLookup, h0] at h
      exact List.mem_cons_of_mem _ (ih h)

theorem stopTorrent_other (e : Engine) (k k' : String) (hk : str2ih k = .ok k) (hne : k' ≠ k) :
    tsLookup (e.StopTorrent k).1.ts k' = tsLookup e.ts k' := by
  unfold Engine.StopTorrent Engine.getTorrent
  rw [hk]
  simp only
  split
  · rfl
  · split_ifs
    · rfl
    · rename_i heq _
      split at heq
      · cases heq
      · cases heq
        simp [tsLookup_tsStore, hne]

theorem stopTorrent_no_panic (e : Engine) (k : String) (hk : str2ih k = .ok k) (what : String) :
    (e.StopTorrent k).2 ≠ .panic what := by
  unfold Engine.StopTorrent Engine.getTorrent
  rw [hk]
  simp only
  split
  · rename_i heq
    split at heq
    · cases heq; simp
    · cases heq
  · split_ifs <;> simp

theorem startTorrent_other (e : Engine) (k k' : String) (hk : str2ih k = .ok k) (hne : k' ≠ k) :
    tsLookup (e.StartTorrent k).1.ts k' = tsLookup e.ts k' := by
  unfold Engine.StartTorrent Engine.getOpenTorrent Engine.getTorrent
  rw [hk]
  simp only
  cases hl : tsLookup e.ts k with
  | none => simp
  | some t =>
    simp only
    split_ifs <;> simp [tsLookup_tsStore, hne]

theorem startTorrent_no_panic (e : Engine) (k : String) (hk : str2ih k = .ok k) (what : String) :
    (e.StartTorrent k).2 ≠ .panic what := by
  unfold Engine.StartTorrent Engine.getOpenTorrent Engine.getTorrent
  rw [hk]
  simp only
  cases hl : tsLookup e.ts k with
  | none => simp
  | some t =>
    simp only
    split_ifs <;> simp

theorem restart_other (e : Engine) (k k' : String) (hk : str2ih k = .ok k) (hne : k' ≠ k) :
    tsLookup (e.restart k).ts k' = tsLookup e.ts k' := by
  unfold Engine.restart
  rw [startTorrent_other _ k k' hk hne, stopTorrent_other e k k' hk hne]

theorem restartAll_other (ks : List String) (e : Engine) (k' : String)
    (hk : ∀ k ∈ ks, str2ih k = .ok k) (hne : k' ∉ ks) :
    tsLookup (e.restartAll ks).ts k' = tsLookup e.ts k' := by
  induction ks generalizing e with
  | nil => rfl
  | cons k ks ih =>
    simp only [List.mem_cons, not_or] at hne
    have h1 := ih (e.restart k) (fun x hx => hk x (List.mem_cons_of_mem _ hx)) hne.2
    have h2 := restart_other e k k' (hk k (List.mem_cons_self _ _)) hne.1
    simp only [Engine.restartAll, List.foldl_cons] at h1 ⊢
    rw [h1, h2]

theorem sweep_restart (now : Time) (key : String) (keys : List String) (e : Engine)
    (log : List String) (t : Torrent) (hl : tsLookup e.ts key = some t)
    (hs : t.Started = true) (hd : restartDue now t = true) (hi : t.InfoHash = key)
    (hk : str2ih key = .ok key) :
    Engine.sweep now (key :: keys) e log = Engine.sweep now keys (e.restart key) (log ++ [key]) := by
  have h1 := stopTorrent_no_panic e key hk
  have h2 := startTorrent_no_panic (e.StopTorrent key).1 key hk
  rw [Engine.sweep]
  simp only [hl, hs, hd, hi, Bool.not_true, if_true, Bool.false_eq_true, if_false]
  unfold Engine.restart
  rfl

theorem sweep_skip (now : Time) (key : String) (keys : List String) (e : Engine)
    (log : List String) (hd : e.dueAt now key = false) :
    Engine.sweep now (key :: keys) e log = Engine.sweep now keys e log := by
  rw [Engine.sweep]
  unfold Engine.dueAt at hd
  cases hl : tsLookup e.ts key with
  | none => rfl
  | some t =>
    rw [hl] at hd
    simp only at hd
    simp only
    cases hs : t.Started with
    | false => simp
    | true =>
      rw [hs] at hd
      simp only [Bool.true_and] at hd
      simp [hd]

theorem sweep_spec (now : Time) (keys : List String) :
    ∀ (e : Engine) (log : List String), keys.Nodup →
      (∀ k ∈ keys, str2ih k = .ok k) →
      (∀ k ∈ keys, ∀ t, tsLookup e.ts k = some t → t.InfoHash = k) →
      Engine.sweep now keys e log =
        (e.restartAll (keys.filter (e.dueAt now)), log ++ keys.filter (e.dueAt now), .ok) := by
  induction keys with
  | nil => intro e log _ _ _; simp [Engine.sweep, Engine.restartAll]
  | cons key keys ih =>
    intro e log hnd hk hih
    have hnd' := (List.nodup_cons.mp hnd)
    have hk' : ∀ k ∈ keys, str2ih k = .ok k := fun x hx => hk x (List.mem_cons_of_mem _ hx)
    cases hd : e.dueAt now key with
    | false =>
      rw [sweep_skip now key keys e log hd,
        ih e log hnd'.2 hk' (fun x hx => hih x (List.mem_cons_of_mem _ hx))]
      simp [List.filter, hd]
    | true =>
      have hd0 := hd
      unfold Engine.dueAt at hd0
      cases hl : tsLookup e.ts key with
      | none => rw [hl] at hd0; simp at hd0
      | some t =>
        rw [hl] at hd0
        simp only [Bool.and_eq_true] at hd0
        have hkk := hk key (List.mem_cons_self _ _)
        have hother : ∀ x ∈ keys, tsLookup (e.restart key).ts x = tsLookup e.ts x := by
          intro x hx
          apply restart_other e key x hkk
          intro hxk
          exact hnd'.1 (hxk ▸ hx)
        have hfil : keys.filter ((e.restart key).dueAt now) = keys.filter (e.dueAt now) := by
          apply List.filter_congr
          intro x hx
          simp only [Engine.dueAt, hother x hx]
        rw [sweep_restart now key keys e log t hl hd0.1 hd0.2
            (hih key (List.mem_cons_self _ _) t hl) hkk,
          ih (e.restart key) (log ++ [key]) hnd'.2 hk'
            (fun x hx t' ht' => hih x (List.mem_cons_of_mem _ hx) t' (by rw [← hother x hx]; exact ht')),
          hfil]
        simp [List.filter, hd, Engine.restartAll]

theorem tableOk_spec (e : Engine) (h : e.tableOk = true) :
    (e.ts.map (fun p => p.1)).Nodup ∧
    (∀ k ∈ e.ts.map (fun p => p.1), str2ih k = .ok k) ∧
    (∀ k t, tsLookup e.ts k = some t → t.InfoHash = k) := by
  unfold Engine.tableOk at h
  simp only [Bool.and_eq_true, decide_eq_true_eq, List.all_eq_true] at h
  refine ⟨h.1, ?_, ?_⟩
  · intro k hk
    obtain ⟨p, hp, rfl⟩ := List.mem_map.mp hk
    exact (h.2 p hp).2
  · intro k t hl
    exact (h.2 (k, t) (tsLookup_mem e.ts k t hl)).1

theorem dueAt_mem (e : Engine) (now : Time) (k : String) (h : e.dueAt now k = true) :
    k ∈ e.ts.map (fun p => p.1) := by
  unfold Engine.dueAt at h
  cases hl : tsLookup e.ts k with
  | none => rw [hl] at h; simp at h
  | some t => exact List.mem_map.mpr ⟨(k, t), tsLookup_mem e.ts k t hl, rfl⟩

/-- C15: on a well-formed table, one `checkTorrentsHealth` at the clock reading
`now` ends normally; it calls `StopTorrent` and then `StartTorrent`, once each
and in table order, on exactly the sessions that at the start are started and
pass `UpdatedAt + 2 min < now`, `DownloadRate == 0`, `Percent < 100`; and the
record of every other session is after the sweep what it was before. -/
theorem checkTorrentsHealth_restarts (e : Engine) (now : Time) (k k' : String)
    (hok : e.tableOk = true) (hk' : e.dueAt now k' = false) :
    e.checkTorrentsHealth now =
      (e.restartAll ((e.ts.map (fun p => p.1)).filter (e.dueAt now)),
        (e.ts.map (fun p => p.1)).filter (e.dueAt now), .ok) ∧
    (k ∈ (e.checkTorrentsHealth now).2.1 ↔
      (tsLookup e.ts k).any (fun t => t.Started &&
        (decide (t.UpdatedAt + 2 * minute < now) &&
          Flt.eq t.DownloadRate (Flt.ofInt binary32 0) &&
          Flt.lt t.Percent (Flt.ofInt binary32 100))) = true) ∧
    tsLookup (e.checkTorrentsHealth now).1.ts k' = tsLookup e.ts k' := by
  obtain ⟨h1, h2, h3⟩ := tableOk_spec e hok
  have hs := sweep_spec now (e.ts.map (fun p => p.1)) e [] h1 h2 (fun k _ t ht => h3 k t ht)
  have hc : e.checkTorrentsHealth now =
      (e.restartAll ((e.ts.map (fun p => p.1)).filter (e.dueAt now)),
        (e.ts.map (fun p => p.1)).filter (e.dueAt now), .ok) := by
    unfold Engine.checkTorrentsHealth
    rw [hs]
    simp
  have hdue : ∀ x, e.dueAt now x =
      (tsLookup e.ts x).any (fun t => t.Started &&
        (decide (t.UpdatedAt + 2 * minute < now) &&
          Flt.eq t.DownloadRate (Flt.ofInt binary32 0) &&
          Flt.lt t.Percent (Flt.ofInt binary32 100))) := by
    intro x
    unfold Engine.dueAt
    cases tsLookup e.ts x with
    | none => rfl
    | some t => rfl
  refine ⟨hc, ?_, ?_⟩
  · rw [hc, ← hdue]
    simp only [List.mem_filter]
    constructor
    · rintro ⟨_, hd⟩
      exact hd
    · intro hd
      exact ⟨dueAt_mem e now k hd, hd⟩
  · rw [hc]
    apply restartAll_other _ e k' (fun x hx => h2 x (List.mem_filter.mp hx).1)
    intro hx
    have := (List.mem_filter.mp hx).2
    rw [hk'] at this
    exact Bool.noConfusion this

set_option maxRecDepth 100000 in
/-- C15 at `magnetEngine`: session B was started and last refreshed at `clock0`
with rate 0 and 0 percent, session C is not started.  A sweep one nanosecond
past two minutes later restarts B and only B; a sweep at exactly two minutes
restarts nothing. -/
theorem checkTorrentsHealth_restarts_witness :
    magnetEngine.tableOk = true ∧
    magnetEngine.dueAt sweepTime hashC = false ∧
    (magnetEngine.checkTorrentsHealth sweepTime).2 = ([hashB], .ok) ∧
    (magnetEngine.checkTorrentsHealth (sweepTime - 1)).2 = ([], .ok) ∧
    (magnetEngine.checkTorrentsHealth sweepTime =
        (magnetEngine.restartAll
            ((magnetEngine.ts.map (fun p => p.1)).filter (magnetEngine.dueAt sweepTime)),
          (magnetEngine.ts.map (fun p => p.1)).filter (magnetEngine.dueAt sweepTime), .ok) ∧
      (hashB ∈ (magnetEngine.checkTorrentsHealth sweepTime).2.1 ↔
        (tsLookup magnetEngine.ts hashB).any (fun t => t.Started &&
          (decide (t.UpdatedAt + 2 * minute < sweepTime) &&
            Flt.eq t.DownloadRate (Flt.ofInt binary32 0) &&
            Flt.lt t.Percent (Flt.ofInt binary32 100))) = true) ∧
      tsLookup (magnetEngine.checkTorrentsHealth sweepTime).1.ts hashC =
        tsLookup magnetEngine.ts hashC) :=
  ⟨by decide, by decide, by decide, by decide,
    checkTorrentsHealth_restarts magnetEngine sweepTime hashB hashC (by decide) (by decide)⟩

/-! ### Bounds of the percentages -/

theorem finite_val (s : Bool) (m : Nat) (e : Int) :
    (Flt.finite s m e).val = (if s then -1 else 1) * (m : ℚ) * (2 : ℚ) ^ e := by
  simp [Flt.val, Flt.toRat]

theorem le_finite_iff (s t : Bool) (m n : Nat) (e k : Int) :
    Flt.le (.finite s m e) (.finite t n k) = true ↔
      (Flt.finite s m e).val ≤ (Flt.finite t n k).val := by
  unfold Flt.le
  simp only [decide_eq_true_eq, finite_val]
  obtain ⟨c, hc⟩ : ∃ c : Int, c = min e k := ⟨_, rfl⟩
  rw [← hc]
  have he : 0 ≤ e - c := by rw [hc]; have := min_le_left e k; omega
  have hk : 0 ≤ k - c := by rw [hc]; have := min_le_right e k; omega
  have two_ne : (2 : ℚ) ≠ 0 := by norm_num
  have hcpos : (0 : ℚ) < (2 : ℚ) ^ c := zpow_pos (by norm_num) c
  have pe : ((2 : ℚ)) ^ (e - c).toNat = (2 : ℚ) ^ e / (2 : ℚ) ^ c := by
    rw [← zpow_natCast, Int.toNat_of_nonneg he, zpow_sub₀ two_ne]
  have pk : ((2 : ℚ)) ^ (k - c).toNat = (2 : ℚ) ^ k / (2 : ℚ) ^ c := by
    rw [← zpow_natCast, Int.toNat_of_nonneg hk, zpow_sub₀ two_ne]
  rw [← Int.cast_le (R := ℚ)]
  push_cast
  rw [pe, pk]
  have e1 : ∀ (σ : ℚ) (x y : ℚ), σ * x * (y / (2 : ℚ) ^ c) = (σ * x * y) / (2 : ℚ) ^ c := by
    intro σ x y; ring
  cases s <;> cases t <;>
    simp only [Bool.false_eq_true, if_false, if_true, Int.cast_one, Int.cast_neg] <;>
    rw [e1, e1, div_le_div_iff_of_pos_right hcpos]

set_option maxRecDepth 100000 in
theorem ofInt32_zero : Flt.ofInt binary32 0 = .finite false 0 0 := by decide

set_option maxRecDepth 100000 in
theorem ofInt32_hundred : Flt.ofInt binary32 100 = .finite false 13107200 (-17) := by decide

set_option maxRecDepth 100000 in
theorem percent_of_scaled_zero :
    Flt.div binary32 (Flt.ofInt binary32 0) (Flt.ofInt binary32 100) = .finite false 0 0 := by
  decide

set_option maxRecDepth 100000 in
theorem percent_of_scaled_full :
    Flt.div binary32 (Flt.ofInt binary32 10000) (Flt.ofInt binary32 100) =
      .finite false 13107200 (-17) := by
  decide

theorem percent_of_scaled (k : Int) (h0 : 0 < k) (h1 : k < 10000) :
    ∃ m q, Flt.div binary32 (Flt.ofInt binary32 k) (Flt.ofInt binary32 100) =
        .finite false m q ∧ (m : ℚ) * (2 : ℚ) ^ q ≤ 100 := by
  have hu : (2 : ℚ) ^ (-(binary32.prec : Int)) = 1 / 16777216 := by
    norm_num [binary32]
  have hqmin : binary32.qmin = -149 := by decide
  have hprec : (binary32.prec : Int) = 24 := rfl
  have hemax : binary32.emax = 127 := rfl
  have hk1 : (1 : ℚ) ≤ (k : ℚ) := by exact_mod_cast h0
  have hk2 : (k : ℚ) ≤ 9999 := by
    have : k ≤ 9999 := by omega
    exact_mod_cast this
  have hk14 : (k : ℚ) < (2 : ℚ) ^ (14 : Int) := by
    norm_num
    linarith
  obtain ⟨ma, qa, hA, hma, hA1, hA2⟩ := ofInt_pos binary32 k h0 (by decide) 14 hk14
    (by rw [hqmin, hprec]; norm_num) (by rw [hemax]; norm_num)
  rw [hu] at hA1 hA2
  obtain ⟨va, hva⟩ : ∃ va : ℚ, va = (ma : ℚ) * (2 : ℚ) ^ qa := ⟨_, rfl⟩
  rw [← hva] at hA1 hA2
  have hdivnum : 0 < ma * 2 ^ (qa - (-17)).toNat := by positivity
  have hdivden : 0 < 13107200 * 2 ^ ((-17) - qa).toNat := by positivity
  have hdv := div_value ma 13107200 qa (-17) (by norm_num)
  have h100 : ((13107200 : Nat) : ℚ) * (2 : ℚ) ^ (-17 : Int) = 100 := by norm_num
  rw [h100, ← hva] at hdv
  obtain ⟨mc, qc, hC, hmc, hC1, hC2⟩ := round_rel binary32 false
    (ma * 2 ^ (qa - (-17)).toNat) (13107200 * 2 ^ ((-17) - qa).toNat) hdivnum hdivden
    (by decide) (-7) 7
    (by
      rw [hdv]
      have : (2 : ℚ) ^ (-7 : Int) ≤ va / 100 := by
        norm_num at hA1 ⊢
        linarith
      exact this)
    (by
      rw [hdv]
      have : va / 100 < (2 : ℚ) ^ (7 : Int) := by
        norm_num at hA2 ⊢
        linarith
      exact this)
    (by rw [hqmin, hprec]; norm_num) (by rw [hemax]; norm_num)
  rw [hdv, hu] at hC1 hC2
  refine ⟨mc, qc, ?_, ?_⟩
  · rw [hA, ofInt32_hundred, div_finite binary32 ma 13107200 qa (-17) (by norm_num), hC]
  · norm_num at hA2 hC2 ⊢
    linarith

theorem percent_isPercent (n total : Int) (h0 : 0 ≤ n) (h1 : n ≤ total)
    (h3 : total ≤ maxInt64) : Flt.isPercent (percent n total) = true := by
  unfold Flt.isPercent percent
  by_cases ht : total = 0
  · rw [if_pos ht]
    decide
  · rw [if_neg ht]
    obtain ⟨-, -, hlo, hhi⟩ := percentScaled_near n total h0 h1 (by omega) h3
    rcases eq_or_lt_of_le hlo with hz | hpos
    · rw [← hz, percent_of_scaled_zero]
      decide
    · rcases eq_or_lt_of_le hhi with hf | hlt
      · rw [hf, percent_of_scaled_full]
        decide
      · obtain ⟨m, q, hP, hv⟩ := percent_of_scaled (percentScaled n total) hpos hlt
        rw [hP, ofInt32_zero, ofInt32_hundred, Bool.and_eq_true, le_finite_iff, le_finite_iff]
        simp only [finite_val, Bool.false_eq_true, if_false]
        constructor
        · norm_num
          positivity
        · norm_num
          linarith

theorem updateProgress_files (base : Torrent) (t : BackendTorrent) (clock : Clock) (p : Int) :
    (base.updateProgress t clock p).Files = base.Files := by
  unfold Torrent.updateProgress
  simp only
  split_ifs <;> simp [Torrent.addError]

theorem mergeFile_isPercent (file : Option File) (f : BackendFile)
    (h : (f.State.length : Int) ≤ maxInt64) :
    Flt.isPercent (mergeFile file f).Percent = true := by
  unfold mergeFile
  simp only
  apply percent_isPercent _ _ (Int.natCast_nonneg _) _ h
  exact_mod_cast List.length_filter_le _ _

theorem mergeFiles_percent (tfiles : List BackendFile) :
    ∀ (files r : List (Option File)), mergeFiles files tfiles = some r →
      tfiles.all (fun f => decide ((f.State.length : Int) ≤ maxInt64)) = true →
      (r.take tfiles.length).all filePercentOk = true := by
  induction tfiles with
  | nil => intro files r _ _; simp
  | cons f tfiles ih =>
    intro files r hm hc
    cases files with
    | nil => simp [mergeFiles] at hm
    | cons file files =>
      simp only [mergeFiles, Option.map_eq_some'] at hm
      obtain ⟨rest, hrest, rfl⟩ := hm
      simp only [List.all_cons, Bool.and_eq_true, decide_eq_true_eq] at hc
      simp only [List.length_cons, List.take_succ_cons, List.all_cons, Bool.and_eq_true]
      exact ⟨mergeFile_isPercent file f hc.1, ih files rest hrest hc.2⟩

theorem update_files_form (torrent : Torrent) (t : BackendTorrent) (clock : Clock)
    (hi : t.HasInfo = true)
    (hf : torrent.Files = [] ∨ t.Files.length ≤ torrent.Files.length) :
    ∃ (base : Torrent) (files0 : List (Option File)),
      torrent.Update t clock = some (base.updateProgress t clock torrent.Downloaded) ∧
      base.Size = t.Length ∧ mergeFiles files0 t.Files = some base.Files := by
  have hs := update_isSome torrent t clock hf
  rw [update_of_info torrent t clock hi] at hs ⊢
  unfold Torrent.updateLoaded at hs ⊢
  simp only at hs ⊢
  obtain ⟨a1, -⟩ := allocFiles_fields
    { torrent with
      Name := t.Name, Loaded := true, PeersConnected := t.ActivePeers,
      PeersTotal := t.TotalPeers } t
  cases hq : mergeFiles (Torrent.allocFiles { torrent with
      Name := t.Name, Loaded := true, PeersConnected := t.ActivePeers,
      PeersTotal := t.TotalPeers } t).Files t.Files with
  | none => rw [hq] at hs; simp at hs
  | some files =>
    exact ⟨_, _, rfl, a1, hq⟩

/-- C11: a refresh with metadata in which the backend reports
`0 ≤ BytesCompleted ≤ Length` (sizes and piece counts within `int64`) leaves a
session `Percent` between 0 and 100, and a `Percent` between 0 and 100 in every
file record it merges (one per backend file, computed from the completed and
total pieces); with `Length = 0` the session `Percent` is 0, as `percent(n, 0)`
is for every `n`; a refresh without metadata leaves `Percent` as it was. -/
theorem update_percent_range (torrent : Torrent) (t t0 t1 : BackendTorrent) (clock : Clock)
    (n : Int)
    (hi : t.HasInfo = true)
    (hf : torrent.Files = [] ∨ t.Files.length ≤ torrent.Files.length)
    (h0 : 0 ≤ t.BytesCompleted) (h1 : t.BytesCompleted ≤ t.Length)
    (h3 : t.Length ≤ maxInt64) (hc : chunksFit t = true)
    (hi0 : t0.HasInfo = true)
    (hf0 : torrent.Files = [] ∨ t0.Files.length ≤ torrent.Files.length)
    (hz : t0.Length = 0)
    (hi1 : t1.HasInfo = false) :
    (torrent.Update t clock).map (fun t' => Flt.isPercent t'.Percent) = some true ∧
    (torrent.Update t clock).map
      (fun t' => (t'.Files.take t.Files.length).all filePercentOk) = some true ∧
    (torrent.Update t0 clock).map (fun t' => t'.Percent) = some (Flt.ofInt binary32 0) ∧
    percent n 0 = Flt.ofInt binary32 0 ∧
    (torrent.Update t1 clock).map (fun t' => t'.Percent) = some torrent.Percent := by
  obtain ⟨base, files0, hU, hS, hM⟩ := update_files_form torrent t clock hi hf
  obtain ⟨base0, -, hU0, hS0, -⟩ := update_files_form torrent t0 clock hi0 hf0
  refine ⟨?_, ?_, ?_, by simp [percent], ?_⟩
  · rw [hU]
    simp only [Option.map_some', Option.some.injEq]
    rw [updateProgress_percent, hS]
    exact percent_isPercent _ _ h0 h1 h3
  · rw [hU]
    simp only [Option.map_some', Option.some.injEq]
    rw [updateProgress_files]
    exact mergeFiles_percent t.Files files0 base.Files hM hc
  · rw [hU0]
    simp only [Option.map_some', Option.some.injEq]
    rw [updateProgress_percent, hS0, hz]
    simp [percent]
  · rw [update_of_no_info torrent t1 clock hi1]
    rfl

set_option maxRecDepth 100000 in
/-- C11 at session C: refreshed with 500 of 1000 bytes its `Percent` is 50 and
that of its file, none of whose pieces is complete, is 0; an empty torrent
has `Percent` 0; a refresh without metadata keeps the `Percent`. -/
theorem update_percent_range_witness :
    halfC.HasInfo = true ∧
    (snapshotC.Files = [] ∨ halfC.Files.length ≤ snapshotC.Files.length) ∧
    0 ≤ halfC.BytesCompleted ∧ halfC.BytesCompleted ≤ halfC.Length ∧
    halfC.Length ≤ maxInt64 ∧ chunksFit halfC = true ∧
    emptyC.HasInfo = true ∧
    (snapshotC.Files = [] ∨ emptyC.Files.length ≤ snapshotC.Files.length) ∧
    emptyC.Length = 0 ∧
    magnetView.HasInfo = false ∧
    (snapshotC.Update halfC clock1).map (fun t' => t'.Percent) =
      some (Flt.ofInt binary32 50) ∧
    ((snapshotC.Update halfC clock1).map (fun t' => Flt.isPercent t'.Percent) = some true ∧
      (snapshotC.Update halfC clock1).map
        (fun t' => (t'.Files.take halfC.Files.length).all filePercentOk) = some true ∧
      (snapshotC.Update emptyC clock1).map (fun t' => t'.Percent) =
        some (Flt.ofInt binary32 0) ∧
      percent 7 0 = Flt.ofInt binary32 0 ∧
      (snapshotC.Update magnetView clock1).map (fun t' => t'.Percent) =
        some snapshotC.Percent) :=
  ⟨by decide, by decide, by decide, by decide, by decide, by decide, by decide, by decide,
    by decide, by decide, by decide,
    update_percent_range snapshotC halfC emptyC magnetView clock1 7 (by decide) (by decide)
      (by decide) (by decide) (by decide) (by decide) (by decide) (by decide) (by decide)
      (by decide)⟩

/-! ### The download rate -/

set_option maxRecDepth 100000 in
theorem ofInt32_second : Flt.ofInt binary32 second = .finite false 15625000 6 := by decide

theorem mul_finite_signed (f : Fmt) (s : Bool) (ma mb : Nat) (qa qb : Int) :
    Flt.mul f (.finite s ma qa) (.finite false mb qb) =
      Flt.round f s (ma * mb * 2 ^ (qa + qb).toNat) (2 ^ (-(qa + qb)).toNat) := by
  simp [Flt.mul]

theorem perSecond_value (el : Int) (he0 : 0 < el) (he1 : el ≤ maxInt64) :
    ∃ mc qc, Flt.div binary32 (Flt.ofInt binary32 second) (Flt.ofInt binary32 el) =
        .finite false mc qc ∧ 0 < mc ∧
      1000000000 / (el : ℚ) * (16777216 / 16777217) * (1 - 1 / 16777216) ≤
        (mc : ℚ) * (2 : ℚ) ^ qc ∧
      (mc : ℚ) * (2 : ℚ) ^ qc ≤
        1000000000 / (el : ℚ) * (16777216 / 16777215) * (1 + 1 / 16777216) := by
  have hu : (2 : ℚ) ^ (-(binary32.prec : Int)) = 1 / 16777216 := by
    norm_num [binary32]
  have hqmin : binary32.qmin = -149 := by decide
  have hprec : (binary32.prec : Int) = 24 := rfl
  have hemax : binary32.emax = 127 := rfl
  have hE1 : (1 : ℚ) ≤ (el : ℚ) := by exact_mod_cast he0
  have hE63 : (el : ℚ) < (2 : ℚ) ^ (63 : Int) := by
    have : el < 2 ^ 63 := by unfold maxInt64 at he1; omega
    have h : (el : ℚ) < 2 ^ 63 := by exact_mod_cast this
    norm_num at h ⊢
    exact h
  have hEpos : (0 : ℚ) < (el : ℚ) := by linarith
  -- the conversion of the elapsed time
  obtain ⟨mb, qb, hB, hmb, hB1, hB2⟩ := ofInt_pos binary32 el he0 (by decide) 63 hE63
    (by rw [hqmin, hprec]; norm_num) (by rw [hemax]; norm_num)
  rw [hu] at hB1 hB2
  obtain ⟨vb, hvb⟩ : ∃ vb : ℚ, vb = (mb : ℚ) * (2 : ℚ) ^ qb := ⟨_, rfl⟩
  rw [← hvb] at hB1 hB2
  have hvbpos : 0 < vb := by
    have : (0 : ℚ) < (el : ℚ) * (1 - 1 / 16777216) := by
      apply mul_pos hEpos; norm_num
    linarith
  obtain ⟨Y, hY⟩ : ∃ Y : ℚ, Y = 1000000000 / (el : ℚ) := ⟨_, rfl⟩
  have hYE : (1000000000 : ℚ) = Y * el := by rw [hY]; field_simp
  have hY0 : 0 < Y := by rw [hY]; positivity
  have hYhi : Y ≤ 1000000000 := by
    rw [hY, div_le_iff₀ hEpos]
    nlinarith
  have hYlo : (1 : ℚ) / 2 ^ 34 ≤ Y := by
    rw [hY, div_le_div_iff₀ (by norm_num) hEpos]
    norm_num at hE63 ⊢
    linarith
  -- the quotient
  have hy1 : Y * (16777216 / 16777217) ≤ 1000000000 / vb := by
    rw [le_div_iff₀ hvbpos]
    have : Y * (16777216 / 16777217) * vb ≤
        Y * (16777216 / 16777217) * ((el : ℚ) * (1 + 1 / 16777216)) := by
      apply mul_le_mul_of_nonneg_left hB2
      positivity
    have e : Y * (16777216 / 16777217) * ((el : ℚ) * (1 + 1 / 16777216)) = 1000000000 := by
      rw [hYE]; ring
    linarith
  have hy2 : 1000000000 / vb ≤ Y * (16777216 / 16777215) := by
    rw [div_le_iff₀ hvbpos]
    have : Y * (16777216 / 16777215) * ((el : ℚ) * (1 - 1 / 16777216)) ≤
        Y * (16777216 / 16777215) * vb := by
      apply mul_le_mul_of_nonneg_left hB1
      positivity
    have e : Y * (16777216 / 16777215) * ((el : ℚ) * (1 - 1 / 16777216)) = 1000000000 := by
      rw [hYE]; ring
    linarith
  have hdivnum : 0 < 15625000 * 2 ^ (6 - qb).toNat := by positivity
  have hdivden : 0 < mb * 2 ^ (qb - 6).toNat := by positivity
  have hdv := div_value 15625000 mb 6 qb hmb
  have hsec : ((15625000 : Nat) : ℚ) * (2 : ℚ) ^ (6 : Int) = 1000000000 := by norm_num
  rw [hsec, ← hvb] at hdv
  obtain ⟨mc, qc, hC, hmc, hC1, hC2⟩ := round_rel binary32 false
    (15625000 * 2 ^ (6 - qb).toNat) (mb * 2 ^ (qb - 6).toNat) hdivnum hdivden (by decide)
    (-35) 31
    (by
      rw [hdv]
      have : (2 : ℚ) ^ (-35 : Int) ≤ Y * (16777216 / 16777217) := by
        norm_num at hYlo ⊢
        linarith
      linarith)
    (by
      rw [hdv]
      have : Y * (16777216 / 16777215) < (2 : ℚ) ^ (31 : Int) := by
        norm_num
        linarith
      linarith)
    (by rw [hqmin, hprec]; norm_num) (by rw [hemax]; norm_num)
  rw [hdv, hu] at hC1 hC2
  obtain ⟨vc, hvc⟩ : ∃ vc : ℚ, vc = (mc : ℚ) * (2 : ℚ) ^ qc := ⟨_, rfl⟩
  rw [← hvc] at hC1 hC2
  obtain ⟨hc1, hc2⟩ := scale_bounds hy1 hy2 hC1 hC2 (by norm_num) (by norm_num)
  have hvcpos : 0 < vc := by
    have : 0 < Y * (16777216 / 16777217) * (1 - 1 / 16777216) := by positivity
    linarith
  rw [hY] at hc1 hc2
  rw [hvc] at hc1 hc2
  exact ⟨mc, qc, by rw [ofInt32_second, hB, div_finite binary32 15625000 mb 6 qb (by omega), hC],
    hmc, hc1, hc2⟩

theorem rate_magnitude (s : Bool) (N : Nat) (el : Int) (hN : 0 < N)
    (hN63 : (N : ℚ) < (2 : ℚ) ^ (63 : Int)) (he0 : 0 < el) (he1 : el ≤ maxInt64) :
    ∃ m q, Flt.mul binary32 (Flt.round binary32 s N 1)
        (Flt.div binary32 (Flt.ofInt binary32 second) (Flt.ofInt binary32 el)) =
          .finite s m q ∧ 0 < m ∧
      |(m : ℚ) * (2 : ℚ) ^ q - (N : ℚ) * 1000000000 / el| ≤
        (N : ℚ) * 1000000000 / el * (1 / 2097152) := by
  have hu : (2 : ℚ) ^ (-(binary32.prec : Int)) = 1 / 16777216 := by
    norm_num [binary32]
  have hqmin : binary32.qmin = -149 := by decide
  have hprec : (binary32.prec : Int) = 24 := rfl
  have hemax : binary32.emax = 127 := rfl
  have hN1 : (1 : ℚ) ≤ (N : ℚ) := by exact_mod_cast hN
  have hE1 : (1 : ℚ) ≤ (el : ℚ) := by exact_mod_cast he0
  have hE63 : (el : ℚ) < (2 : ℚ) ^ (63 : Int) := by
    have : el < 2 ^ 63 := by unfold maxInt64 at he1; omega
    have h : (el : ℚ) < 2 ^ 63 := by exact_mod_cast this
    norm_num at h ⊢
    exact h
  have hEpos : (0 : ℚ) < (el : ℚ) := by linarith
  obtain ⟨Y, hY⟩ : ∃ Y : ℚ, Y = 1000000000 / (el : ℚ) := ⟨_, rfl⟩
  have hY0 : 0 < Y := by rw [hY]; positivity
  have hYhi : Y ≤ 1000000000 := by
    rw [hY, div_le_iff₀ hEpos]
    nlinarith
  have hYlo : (1 : ℚ) / 2 ^ 34 ≤ Y := by
    rw [hY, div_le_div_iff₀ (by norm_num) hEpos]
    norm_num at hE63 ⊢
    linarith
  obtain ⟨mc, qc, hCD, hmc, hc1, hc2⟩ := perSecond_value el he0 he1
  rw [← hY] at hc1 hc2
  obtain ⟨vc, hvc⟩ : ∃ vc : ℚ, vc = (mc : ℚ) * (2 : ℚ) ^ qc := ⟨_, rfl⟩
  rw [← hvc] at hc1 hc2
  have hvcpos : 0 < vc := by
    have : 0 < Y * (16777216 / 16777217) * (1 - 1 / 16777216) := by positivity
    linarith
  -- the conversion of the byte difference
  have hcastN : ((N : Nat) : ℚ) / ((1 : Nat) : ℚ) = (N : ℚ) := by simp
  obtain ⟨ma, qa, hA, hma, hA1, hA2⟩ := round_rel binary32 s N 1 hN (by norm_num) (by decide)
    0 63 (by rw [hcastN]; simpa using hN1) (by rw [hcastN]; exact hN63)
    (by rw [hqmin, hprec]; norm_num) (by rw [hemax]; norm_num)
  rw [hcastN, hu] at hA1 hA2
  obtain ⟨va, hva⟩ : ∃ va : ℚ, va = (ma : ℚ) * (2 : ℚ) ^ qa := ⟨_, rfl⟩
  rw [← hva] at hA1 hA2
  have hvapos : 0 < va := by
    have : (0 : ℚ) < (N : ℚ) * (1 - 1 / 16777216) := by
      apply mul_pos (by linarith); norm_num
    linarith
  -- the product
  obtain ⟨Z, hZ⟩ : ∃ Z : ℚ, Z = (N : ℚ) * Y := ⟨_, rfl⟩
  have hZ0 : 0 < Z := by rw [hZ]; positivity
  have hp1 : Z * ((1 - 1 / 16777216) * ((16777216 / 16777217) * (1 - 1 / 16777216))) ≤
      va * vc := by
    have h := mul_le_mul hA1 hc1 (by positivity) hvapos.le
    have e : (N : ℚ) * (1 - 1 / 16777216) * (Y * (16777216 / 16777217) * (1 - 1 / 16777216)) =
        Z * ((1 - 1 / 16777216) * ((16777216 / 16777217) * (1 - 1 / 16777216))) := by
      rw [hZ]; ring
    linarith
  have hp2 : va * vc ≤
      Z * ((1 + 1 / 16777216) * ((16777216 / 16777215) * (1 + 1 / 16777216))) := by
    have h := mul_le_mul hA2 hc2 hvcpos.le (by positivity)
    have e : (N : ℚ) * (1 + 1 / 16777216) * (Y * (16777216 / 16777215) * (1 + 1 / 16777216)) =
        Z * ((1 + 1 / 16777216) * ((16777216 / 16777215) * (1 + 1 / 16777216))) := by
      rw [hZ]; ring
    linarith
  have hZlo : (1 : ℚ) / 2 ^ 34 ≤ Z := by
    rw [hZ]
    calc (1 : ℚ) / 2 ^ 34 ≤ Y := hYlo
      _ = 1 * Y := (one_mul Y).symm
      _ ≤ (N : ℚ) * Y := mul_le_mul_of_nonneg_right hN1 hY0.le
  have hZhi : Z < (2 : ℚ) ^ 93 := by
    rw [hZ]
    have h63 : (N : ℚ) < 2 ^ 63 := by
      norm_num at hN63 ⊢
      exact hN63
    calc (N : ℚ) * Y ≤ (N : ℚ) * 1000000000 := mul_le_mul_of_nonneg_left hYhi (by linarith)
      _ < (2 : ℚ) ^ 63 * 1000000000 := by
          apply mul_lt_mul_of_pos_right h63 (by norm_num)
      _ < (2 : ℚ) ^ 93 := by norm_num
  have hmulnum : 0 < ma * mc * 2 ^ (qa + qc).toNat := by positivity
  have hmulden : 0 < 2 ^ (-(qa + qc)).toNat := by positivity
  have hmv := mul_value ma mc qa qc
  rw [← hva, ← hvc] at hmv
  obtain ⟨md, qd, hD, hmd, hD1, hD2⟩ := round_rel binary32 s
    (ma * mc * 2 ^ (qa + qc).toNat) (2 ^ (-(qa + qc)).toNat) hmulnum hmulden
    (by decide) (-36) 95
    (by
      rw [hmv]
      have : (2 : ℚ) ^ (-36 : Int) ≤
          Z * ((1 - 1 / 16777216) * ((16777216 / 16777217) * (1 - 1 / 16777216))) := by
        norm_num at hZlo ⊢
        linarith
      exact le_trans this hp1)
    (by
      rw [hmv]
      have : Z * ((1 + 1 / 16777216) * ((16777216 / 16777215) * (1 + 1 / 16777216))) <
          (2 : ℚ) ^ (95 : Int) := by
        norm_num at hZhi ⊢
        linarith
      exact lt_of_le_of_lt hp2 this)
    (by rw [hqmin, hprec]; norm_num) (by rw [hemax]; norm_num)
  rw [hmv, hu] at hD1 hD2
  refine ⟨md, qd, ?_, hmd, ?_⟩
  · rw [hCD, hA, mul_finite_signed, hD]
  · have e : (N : ℚ) * 1000000000 / el = Z := by rw [hZ, hY]; ring
    rw [e, abs_le]
    obtain ⟨hd1, hd2⟩ := scale_bounds hp1 hp2 hD1 hD2 (by norm_num) (by norm_num)
    constructor
    · norm_num at hd1 ⊢
      linarith
    · norm_num at hd2 ⊢
      linarith


theorem sampleRate_zero (el : Int) (he0 : 0 < el) (he1 : el ≤ maxInt64) :
    Flt.mul binary32 (Flt.ofInt binary32 0)
      (Flt.div binary32 (Flt.ofInt binary32 second) (Flt.ofInt binary32 el)) =
        .finite false 0 0 := by
  obtain ⟨mc, qc, hCD, -, -, -⟩ := perSecond_value el he0 he1
  rw [hCD, ofInt32_zero, mul_finite_signed]
  simp [Flt.round]

theorem sampleRate_spec (b p el : Int) (hp0 : 0 ≤ p) (hp1 : p ≤ maxInt64) (hb0 : 0 ≤ b)
    (hb1 : b ≤ maxInt64) (he0 : 0 < el) (he1 : el ≤ maxInt64) :
    (sampleRate b p el).isFinite = true ∧
    Flt.le (Flt.ofInt binary32 0) (sampleRate b p el) = decide (p ≤ b) ∧
    |(sampleRate b p el).val - ((b - p : Int) : ℚ) * 1000000000 / (el : ℚ)| ≤
      |((b - p : Int) : ℚ)| * 1000000000 / (el : ℚ) * (1 / 2097152) := by
  have hM : maxInt64 = (9223372036854775807 : Int) := by decide
  have hm : minInt64 = (-9223372036854775808 : Int) := by decide
  have hp1' := hp1
  have hb1' := hb1
  rw [hM] at hp1' hb1'
  have hw : wrapInt64 (b - p) = b - p := by
    apply wrapInt64_of_fits
    · rw [hm]; omega
    · rw [hM]; omega
  unfold sampleRate
  rw [hw]
  obtain ⟨d, hd⟩ : ∃ d : Int, d = b - p := ⟨_, rfl⟩
  rw [← hd]
  have hdr : p ≤ b ↔ 0 ≤ d := by omega
  have hd63 : d.natAbs < 2 ^ 63 := by omega
  rcases eq_or_ne d 0 with h0 | hne
  · rw [h0, sampleRate_zero el he0 he1]
    have : p ≤ b := by omega
    simp [Flt.isFinite, this, Flt.val, Flt.toRat, ofInt32_zero, Flt.le]
  · have hN : 0 < d.natAbs := Int.natAbs_pos.mpr hne
    have hN63 : ((d.natAbs : Nat) : ℚ) < (2 : ℚ) ^ (63 : Int) := by
      have h : ((d.natAbs : Nat) : ℚ) < 2 ^ 63 := by exact_mod_cast hd63
      norm_num at h ⊢
      exact h
    obtain ⟨m, q, hR, hm, hv⟩ := rate_magnitude (decide (d < 0)) d.natAbs el hN hN63 he0 he1
    have hof : Flt.ofInt binary32 d = Flt.round binary32 (decide (d < 0)) d.natAbs 1 := rfl
    rw [hof, hR]
    have habs : ((d.natAbs : Nat) : ℚ) = |(d : ℚ)| := by
      rw [Nat.cast_natAbs, Int.cast_abs]
    rw [habs] at hv
    have hmq : (0 : ℚ) < (m : ℚ) * (2 : ℚ) ^ q := by
      have : (0 : ℚ) < (m : ℚ) := by exact_mod_cast hm
      positivity
    refine ⟨rfl, ?_, ?_⟩
    · rw [ofInt32_zero]
      by_cases hneg : d < 0
      · have hnb : ¬ p ≤ b := by omega
        simp only [hneg, hnb, decide_True, decide_False]
        rw [Bool.eq_false_iff, ne_eq, le_finite_iff, finite_val, finite_val]
        simp only [Bool.false_eq_true, if_false, if_true]
        norm_num
        exact hmq
      · have hnb : p ≤ b := by omega
        simp only [hneg, hnb, decide_True, decide_False]
        rw [le_finite_iff, finite_val, finite_val]
        simp only [Bool.false_eq_true, if_false]
        norm_num
        exact hmq.le
    · rw [finite_val]
      by_cases hneg : d < 0
      · have hdq : (d : ℚ) < 0 := by exact_mod_cast hneg
        simp only [hneg, decide_True, if_true]
        rw [abs_of_neg hdq] at hv ⊢
        have e : -1 * (m : ℚ) * (2 : ℚ) ^ q - (d : ℚ) * 1000000000 / (el : ℚ) =
            -((m : ℚ) * (2 : ℚ) ^ q - -(d : ℚ) * 1000000000 / (el : ℚ)) := by ring
        rw [e, abs_neg]
        exact hv
      · have hdq : (0 : ℚ) ≤ (d : ℚ) := by
          have : 0 ≤ d := by omega
          exact_mod_cast this
        simp only [hneg, decide_False, Bool.false_eq_true, if_false]
        rw [abs_of_nonneg hdq] at hv ⊢
        rw [one_mul]
        exact hv

theorem sub_of_fits (a b : Time) (h0 : 0 < a - b) (h1 : a - b ≤ maxInt64) :
    Time.Sub a b = a - b := by
  have hM : maxInt64 = (9223372036854775807 : Int) := by decide
  have hm : minInt64 = (-9223372036854775808 : Int) := by decide
  unfold Time.Sub
  rw [hM] at h1 ⊢
  rw [hm]
  have key : ∀ x : Int, 0 < x → x ≤ 9223372036854775807 →
      (if 9223372036854775807 < x then 9223372036854775807
        else if x < -9223372036854775808 then -9223372036854775808 else x) = x := by
    intro x hx0 hx1
    split_ifs <;> omega
  exact key (a - b) h0 h1

/-- C12: a refresh with metadata of a session that has a previous snapshot
taken `elapsed = now - UpdatedAt > 0` earlier, byte counts and `elapsed` within
`int64`.  With `rate = float32(bytes - Downloaded) * (float32(time.Second) /
float32(elapsed))`: the new `DownloadRate` is `rate` when the byte count did not
go down and the previous `DownloadRate` when it did; `rate` is finite and is
the quotient `(bytes - Downloaded) * 10^9 / elapsed` (bytes per second) up to a
relative error of `2^-21` from the `float32` roundings; and the new
`DownloadRate` is `>= 0` as soon as the byte count did not go down or the
previous one was `>= 0`. -/
theorem update_rate_estimate (torrent : Torrent) (t : BackendTorrent) (clock : Clock)
    (hi : t.HasInfo = true)
    (hf : torrent.Files = [] ∨ t.Files.length ≤ torrent.Files.length)
    (hu : torrent.UpdatedAt ≠ 0)
    (he0 : 0 < clock.now - torrent.UpdatedAt) (he1 : clock.now - torrent.UpdatedAt ≤ maxInt64)
    (hp0 : 0 ≤ torrent.Downloaded) (hp1 : torrent.Downloaded ≤ maxInt64)
    (hb0 : 0 ≤ t.BytesCompleted) (hb1 : t.BytesCompleted ≤ maxInt64) :
    (torrent.Update t clock).map (fun t' => t'.DownloadRate) =
      some (if torrent.Downloaded ≤ t.BytesCompleted then
          sampleRate t.BytesCompleted torrent.Downloaded (clock.now - torrent.UpdatedAt)
        else torrent.DownloadRate) ∧
    (sampleRate t.BytesCompleted torrent.Downloaded
      (clock.now - torrent.UpdatedAt)).isFinite = true ∧
    |(sampleRate t.BytesCompleted torrent.Downloaded (clock.now - torrent.UpdatedAt)).val -
        ((t.BytesCompleted - torrent.Downloaded : Int) : ℚ) * 1000000000 /
          ((clock.now - torrent.UpdatedAt : Int) : ℚ)| ≤
      |((t.BytesCompleted - torrent.Downloaded : Int) : ℚ)| * 1000000000 /
        ((clock.now - torrent.UpdatedAt : Int) : ℚ) * (1 / 2097152) ∧
    (torrent.Update t clock).map (fun t' => Flt.le (Flt.ofInt binary32 0) t'.DownloadRate) =
      some (decide (torrent.Downloaded ≤ t.BytesCompleted) ||
        Flt.le (Flt.ofInt binary32 0) torrent.DownloadRate) := by
  obtain ⟨base, hU, b1, b2, b3, b4, b5, b6, b7⟩ := update_progress_form torrent t clock hi hf
  have hu' : base.UpdatedAt ≠ 0 := by rw [b4]; exact hu
  have c0 := updateProgress_rate base t clock torrent.Downloaded hu'
  rw [b2, b3, b4, sub_of_fits clock.now torrent.UpdatedAt he0 he1] at c0
  obtain ⟨s1, s2, s3⟩ := sampleRate_spec t.BytesCompleted torrent.Downloaded
    (clock.now - torrent.UpdatedAt) hp0 hp1 hb0 hb1 he0 he1
  have hk : keptRate torrent.DownloadRate
      (sampleRate t.BytesCompleted torrent.Downloaded (clock.now - torrent.UpdatedAt)) =
      (if torrent.Downloaded ≤ t.BytesCompleted then
          sampleRate t.BytesCompleted torrent.Downloaded (clock.now - torrent.UpdatedAt)
        else torrent.DownloadRate) := by
    unfold keptRate
    rw [s2]
    by_cases h : torrent.Downloaded ≤ t.BytesCompleted <;> simp [h]
  rw [hk] at c0
  refine ⟨?_, s1, s3, ?_⟩
  · rw [hU]
    simp only [Option.map_some', Option.some.injEq]
    exact c0
  · rw [hU]
    simp only [Option.map_some', Option.some.injEq]
    rw [c0]
    by_cases h : torrent.Downloaded ≤ t.BytesCompleted
    · simp [h, s2]
    · simp [h]

set_option maxRecDepth 100000 in
/-- C12 at the specification's scenario: session C, refreshed at `clock0` with
0 bytes and ten seconds later with 500 bytes, has the download rate 50. -/
theorem update_rate_estimate_witness :
    halfC.HasInfo = true ∧
    (snapshotC.Files = [] ∨ halfC.Files.length ≤ snapshotC.Files.length) ∧
    snapshotC.UpdatedAt ≠ 0 ∧
    0 < clock1.now - snapshotC.UpdatedAt ∧ clock1.now - snapshotC.UpdatedAt ≤ maxInt64 ∧
    0 ≤ snapshotC.Downloaded ∧ snapshotC.Downloaded ≤ maxInt64 ∧
    0 ≤ halfC.BytesCompleted ∧ halfC.BytesCompleted ≤ maxInt64 ∧
    clock1.now - snapshotC.UpdatedAt = 10 * second ∧
    halfC.BytesCompleted - snapshotC.Downloaded = 500 ∧
    sampleRate halfC.BytesCompleted snapshotC.Downloaded (clock1.now - snapshotC.UpdatedAt) =
      Flt.ofInt binary32 50 ∧
    ((snapshotC.Update halfC clock1).map (fun t' => t'.DownloadRate) =
        some (if snapshotC.Downloaded ≤ halfC.BytesCompleted then
            sampleRate halfC.BytesCompleted snapshotC.Downloaded
              (clock1.now - snapshotC.UpdatedAt)
          else snapshotC.DownloadRate) ∧
      (sampleRate halfC.BytesCompleted snapshotC.Downloaded
        (clock1.now - snapshotC.UpdatedAt)).isFinite = true ∧
      |(sampleRate halfC.BytesCompleted snapshotC.Downloaded
            (clock1.now - snapshotC.UpdatedAt)).val -
          ((halfC.BytesCompleted - snapshotC.Downloaded : Int) : ℚ) * 1000000000 /
            ((clock1.now - snapshotC.UpdatedAt : Int) : ℚ)| ≤
        |((halfC.BytesCompleted - snapshotC.Downloaded : Int) : ℚ)| * 1000000000 /
          ((clock1.now - snapshotC.UpdatedAt : Int) : ℚ) * (1 / 2097152) ∧
      (snapshotC.Update halfC clock1).map
          (fun t' => Flt.le (Flt.ofInt binary32 0) t'.DownloadRate) =
        some (decide (snapshotC.Downloaded ≤ halfC.BytesCompleted) ||
          Flt.le (Flt.ofInt binary32 0) snapshotC.DownloadRate)) :=
  ⟨by decide, by decide, by decide, by decide, by decide, by decide, by decide, by decide,
    by decide, by decide, by decide, by decide,
    update_rate_estimate snapshotC halfC clock1 (by decide) (by decide) (by decide)
      (by decide) (by decide) (by decide) (by decide) (by decide) (by decide)⟩

end CloudTorrent
